import Mathlib

/-!
# The Vault session client of `bub` (`integrations/vault/vault.go`)

A shallow embedding of the token cache, the login exchange and the
retry-with-reauthentication loop of `Vault.read` / `Vault.write`.

* The remote Vault server is a state machine of an arbitrary state type `σ`;
  every network call receives the token the client currently holds and returns
  the pair `(secret, err)` that the Go call returns, together with the next
  server state.
* The local file system is a finite map from path keys to nodes, with the
  three outcomes of `os.Stat` that `PathExists` distinguishes.
* `log.Fatal` ends the process: it is the outcome `Outcome.fatal`.
* Every external call is appended to a trace, tagged with its call site, so
  that the number and the order of the calls can be stated.
-/

set_option autoImplicit false

namespace Bub

/-! ## Go values -/

/-- A non-nil Go `error`, represented by the text of its `Error()` method. -/
abbrev GoError := String

/-- The response `*api.Secret` of the Vault client library, kept abstract. -/
structure Secret where
  body : String
deriving DecidableEq, Repr

/-- A request body `map[string]interface{}`, as its list of entries. -/
abbrev Payload := List (String × String)

/-- Result of a function that may end the process through `log.Fatal`. -/
inductive Outcome (α : Type) where
  | ret (a : α)
  | fatal (msg : String)
deriving DecidableEq, Repr

/-! ## `strings` -/

/-- Does `s` start with `p`. -/
def startsWith : List Char → List Char → Bool
  | [], _ => true
  | _ :: _, [] => false
  | p :: ps, c :: cs => p == c && startsWith ps cs

/-- Does `sub` occur inside the character list. -/
def containsChars (sub : List Char) : List Char → Bool
  | [] => startsWith sub []
  | c :: cs => startsWith sub (c :: cs) || containsChars sub cs

/-- Go `strings.Contains(s, substr)`. -/
def stringsContains (s substr : String) : Bool :=
  containsChars substr.data s.data

/-- Drop the leading characters that belong to the cutset. -/
def trimLeftChars (cutset : List Char) : List Char → List Char
  | [] => []
  | c :: cs => if c ∈ cutset then trimLeftChars cutset cs else c :: cs

/-- Go `strings.Trim(s, cutset)`: all leading and trailing characters of the
cutset are removed. -/
def stringsTrim (s cutset : String) : String :=
  ⟨(trimLeftChars cutset.data (trimLeftChars cutset.data s.data).reverse).reverse⟩

/-- Go `unicode.ToLower`: the ASCII range is fixed by the language; above it
the Unicode case table of the Go runtime, which is a parameter, decides. -/
def unicodeToLower (caseTable : Char → Char) (r : Char) : Char :=
  if r.toNat ≤ 127 then
    (if 65 ≤ r.toNat ∧ r.toNat ≤ 90 then Char.ofNat (r.toNat + 32) else r)
  else caseTable r

/-- Go `strings.ToLower` on a valid UTF-8 string: `unicode.ToLower` applied
to every rune. -/
def stringsToLower (caseTable : Char → Char) (s : String) : String :=
  ⟨s.data.map (unicodeToLower caseTable)⟩

/-! ## `path` -/

/-- Go `strings.Split(s, "/")` on the characters of `s`. -/
def splitSlash : List Char → List (List Char)
  | [] => [[]]
  | c :: cs =>
    if c = '/' then [] :: splitSlash cs
    else
      match splitSlash cs with
      | [] => [[c]]
      | x :: xs => (c :: x) :: xs

/-- The element loop of Go `path.Clean`: the stack (last element first) of the
elements kept so far, after reading one more element. Empty elements and `.`
are skipped; `..` removes the element before it, is dropped at the root of a
rooted path and is kept at the start of a relative one. -/
def cleanStep (rooted : Bool) (stack : List (List Char)) (e : List Char) : List (List Char) :=
  if e = [] ∨ e = ['.'] then stack
  else if e = ['.', '.'] then
    match stack with
    | [] => if rooted then [] else [e]
    | top :: rest => if top = ['.', '.'] then e :: top :: rest else rest
  else e :: stack

/-- The elements of the cleaned path, first element first. -/
def cleanElems (rooted : Bool) (p : List Char) : List (List Char) :=
  ((splitSlash p).foldl (cleanStep rooted) []).reverse

/-- Join elements with single slashes. -/
def joinSlash : List (List Char) → List Char
  | [] => []
  | [e] => e
  | e :: es => e ++ '/' :: joinSlash es

/-- Is the path rooted (does it start with a slash). -/
def isRooted (p : List Char) : Bool :=
  match p with
  | '/' :: _ => true
  | _ => false

/-- Go `path.Clean`. -/
def pathClean (p : String) : String :=
  if p = "" then "."
  else
    let body := joinSlash (cleanElems (isRooted p.data) p.data)
    if isRooted p.data then ⟨'/' :: body⟩
    else if body = [] then "."
    else ⟨body⟩

/-- The loop of Go `path.Join` that builds the string handed to `Clean`. -/
def joinBuf : List Char → List String → List Char
  | buf, [] => buf
  | buf, e :: es =>
    if buf ≠ [] ∨ e ≠ "" then
      joinBuf ((if buf ≠ [] then buf ++ ['/'] else buf) ++ e.data) es
    else joinBuf buf es

/-- Go `path.Join`. -/
def pathJoin (elem : List String) : String :=
  if (elem.map String.length).sum = 0 then ""
  else pathClean ⟨joinBuf [] elem⟩

/-! ## The local file system -/

/-- A file system object: a regular file with its content, a regular file
that can be read and not written (its mode forbids it, or it lies on a
read-only file system), or a directory. -/
inductive Node where
  | file (content : String)
  | readOnly (content : String)
  | dir
deriving DecidableEq, Repr

/-- The error numbers the model distinguishes. -/
inductive Errno where
  | ENOENT
  | ENOTDIR
  | EISDIR
deriving DecidableEq, Repr

/-- The text of the error number, as Go prints it. -/
def Errno.text : Errno → String
  | .ENOENT => "no such file or directory"
  | .ENOTDIR => "not a directory"
  | .EISDIR => "is a directory"

/-- The place a path names: whether it is rooted, and its elements. -/
structure Key where
  rooted : Bool
  elems : List (List Char)
deriving DecidableEq, Repr

/-- The file system: the most recent entry for a key is the first one. -/
abbrev FS := List (Key × Node)

/-- The key of a path; the empty path names nothing. The paths that reach the
file system here come out of `path.Join`, so they are clean already and the
key is read off their elements. -/
def keyOf (p : String) : Option Key :=
  if p = "" then none
  else some ⟨isRooted p.data, cleanElems (isRooted p.data) p.data⟩

/-- The proper initial segments of a list. -/
def strictInits {α : Type} (l : List α) : List (List α) :=
  (List.range l.length).map (fun n => l.take n)

/-- Is the node a regular file. -/
def Node.isFile : Node → Bool
  | .file _ => true
  | .readOnly _ => true
  | .dir => false

/-- Path resolution: a regular file on the way gives `ENOTDIR`, the root and
the working directory are directories, a missing entry gives `ENOENT`. -/
def resolve (fs : FS) (k : Key) : Except Errno Node :=
  if (strictInits k.elems).any
      (fun pre => match fs.lookup ⟨k.rooted, pre⟩ with
        | some n => n.isFile
        | none => false) then .error .ENOTDIR
  else if k.elems = [] then .ok .dir
  else
    match fs.lookup k with
    | some n => .ok n
    | none => .error .ENOENT

/-- The directory that holds the place. -/
def Key.parent (k : Key) : Key := ⟨k.rooted, k.elems.dropLast⟩

/-- Go `os.Stat`, reduced to its error. -/
def osStat (fs : FS) (p : String) : Option Errno :=
  match keyOf p with
  | none => some .ENOENT
  | some k =>
    match resolve fs k with
    | .ok _ => none
    | .error e => some e

/-- Go `ioutil.ReadFile`. -/
def readFile (fs : FS) (p : String) : Except GoError String :=
  match keyOf p with
  | none => .error ("open " ++ p ++ ": " ++ Errno.text .ENOENT)
  | some k =>
    match resolve fs k with
    | .ok (.file c) => .ok c
    | .ok (.readOnly c) => .ok c
    | .ok .dir => .error ("read " ++ p ++ ": " ++ Errno.text .EISDIR)
    | .error e => .error ("open " ++ p ++ ": " ++ e.text)

/-- Go `ioutil.WriteFile(p, data, 0600)`: an existing regular file is
truncated and rewritten, unless it cannot be written, which gives a
permission error; a missing one is created when its directory exists; nothing
else is created. -/
def writeFile (fs : FS) (p : String) (content : String) : Option GoError × FS :=
  match keyOf p with
  | none => (some ("open " ++ p ++ ": " ++ Errno.text .ENOENT), fs)
  | some k =>
    match resolve fs k with
    | .ok (.file _) => (none, (k, .file content) :: fs)
    | .ok (.readOnly _) => (some ("open " ++ p ++ ": permission denied"), fs)
    | .ok .dir => (some ("open " ++ p ++ ": " ++ Errno.text .EISDIR), fs)
    | .error .ENOENT =>
      match resolve fs k.parent with
      | .ok .dir => (none, (k, .file content) :: fs)
      | _ => (some ("open " ++ p ++ ": " ++ Errno.text .ENOENT), fs)
    | .error e => (some ("open " ++ p ++ ": " ++ e.text), fs)

/-- Function `PathExists` of `utils.go`: `os.Stat` on the joined path; a missing path
is `(false, nil)`, any other failure is `(true, err)`. -/
def PathExists (fs : FS) (fpath : List String) : Bool × Option GoError :=
  match osStat fs (pathJoin fpath) with
  | none => (true, none)
  | some .ENOENT => (false, none)
  | some e => (true, some ("stat " ++ pathJoin fpath ++ ": " ++ e.text))

/-! ## The Vault client -/

/-- One external call, tagged with the place in `vault.go` that issues it:
`read` and `write` are the calls of `Vault.read` and `Vault.write`, `login`
is the `Logical().Write` of `Vault.Auth`, `lookupSelf` the probe of
`maybeReAuth`. A network call records the token it presented and the error it
returned. -/
inductive Event where
  | read (token path : String) (err : Option GoError)
  | write (token path : String) (data : Payload) (err : Option GoError)
  | login (token path : String) (data : Payload) (err : Option GoError)
  | lookupSelf (token : String) (err : Option GoError)
  | stat (path : String)
  | readFile (path : String)
  | writeFile (path content : String) (err : Option GoError)
deriving DecidableEq, Repr

/-- What lies outside `vault.go`: the Vault server behind the tunnel, as a
state machine over `σ` that sees the presented token; the library function
`Secret.TokenID`; the case table of `strings.ToLower`; and the home directory
reported by `user.Current()` (`none` when it fails). -/
structure Env (σ : Type) where
  logicalRead : σ → String → String → (Option Secret × Option GoError) × σ
  logicalWrite : σ → String → String → Payload → (Option Secret × Option GoError) × σ
  lookupSelf : σ → String → Option GoError × σ
  tokenID : Option Secret → Except GoError String
  caseTable : Char → Char
  homeDir : Option String

/-- The mutable state: the server, the token held by `v.client`, the file
system and the calls made so far. -/
structure World (σ : Type) where
  srv : σ
  token : String
  fs : FS
  trace : List Event
deriving DecidableEq, Repr

/-- The fields of `cfg.Vault` that the client uses. -/
structure VaultConfig where
  authMethod : String
  username : String
  password : String
deriving DecidableEq, Repr

/-- The `Vault` struct; its `client` is the pair of `Env` and `World`. -/
structure Vault where
  tokenName : String
  cfg : VaultConfig
deriving DecidableEq, Repr

/-- Method `Vault.getTokenPath` of `vault.go`. -/
def getTokenPath {σ : Type} (E : Env σ) (v : Vault) : String × Option GoError :=
  match E.homeDir with
  | none => ("", none)
  | some home => (pathJoin [home, ".config", "bub", v.tokenName], none)

/-- The request path of the login call:
`strings.ToLower(fmt.Sprintf("auth/%s/login/%s", authMethod, username))`. -/
def loginPath {σ : Type} (E : Env σ) (v : Vault) : String :=
  stringsToLower E.caseTable ("auth/" ++ v.cfg.authMethod ++ "/login/" ++ v.cfg.username)

/-- The request body of the login call. -/
def loginData (v : Vault) : Payload := [("password", v.cfg.password)]

/-- Method `Vault.Auth` of `vault.go`. -/
def Auth {σ : Type} (E : Env σ) (v : Vault) (w : World σ) :
    Outcome (Option GoError) × World σ :=
  let urlPath := loginPath E v
  let data := loginData v
  let r := E.logicalWrite w.srv w.token urlPath data
  let w1 : World σ :=
    { w with srv := r.2, trace := w.trace ++ [Event.login w.token urlPath data r.1.2] }
  match r.1.2 with
  | some err => (.fatal err, w1)
  | none =>
    match E.tokenID r.1.1 with
    | .error err => (.fatal ("Error: " ++ err), w1)
    | .ok token =>
      if token = "" then
        (.ret (some "failed to get authenticated and get Vault token"), w1)
      else
        let w2 : World σ := { w1 with token := token }
        match getTokenPath E v with
        | (_, some err) => (.ret (some err), w2)
        | (tokenPath, none) =>
          let wr := writeFile w2.fs tokenPath token
          (.ret wr.1,
            { w2 with fs := wr.2, trace := w2.trace ++ [Event.writeFile tokenPath token wr.1] })

/-- Method `Vault.loadToken` of `vault.go`. -/
def loadToken {σ : Type} (E : Env σ) (v : Vault) (w : World σ) :
    Outcome (Option GoError) × World σ :=
  match getTokenPath E v with
  | (_, some err) => (.ret (some err), w)
  | (filePath, none) =>
    let w1 : World σ := { w with trace := w.trace ++ [Event.stat filePath] }
    match PathExists w.fs [filePath] with
    | (_, some err) => (.ret (some err), w1)
    | (false, none) => Auth E v w1
    | (true, none) =>
      let w2 : World σ := { w1 with trace := w1.trace ++ [Event.readFile filePath] }
      match readFile w.fs filePath with
      | .error err => (.ret (some err), w2)
      | .ok content => (.ret none, { w2 with token := stringsTrim content "\n" })

/-- Method `Vault.maybeReAuth` of `vault.go`. -/
def maybeReAuth {σ : Type} (E : Env σ) (v : Vault) (w : World σ) :
    Outcome (Option GoError) × World σ :=
  let r := E.lookupSelf w.srv w.token
  let w1 : World σ :=
    { w with srv := r.2, trace := w.trace ++ [Event.lookupSelf w.token r.1] }
  match r.1 with
  | some err => if stringsContains err "Code: 403." then Auth E v w1 else (.ret (some err), w1)
  | none => (.ret none, w1)

/-- Method `Vault.read` of `vault.go`. -/
def read {σ : Type} (E : Env σ) (v : Vault) (path : String) (retries : Int) (w : World σ) :
    Outcome (Option Secret × Option GoError) × World σ :=
  let r := E.logicalRead w.srv w.token path
  let w1 : World σ :=
    { w with srv := r.2, trace := w.trace ++ [Event.read w.token path r.1.2] }
  if _h : r.1.2 ≠ none ∧ retries ≥ 0 then
    match maybeReAuth E v w1 with
    | (.fatal msg, w2) => (.fatal msg, w2)
    | (.ret (some err), w2) => (.ret (none, some err), w2)
    | (.ret none, w2) => read E v path (retries - 1) w2
  else (.ret r.1, w1)
termination_by (retries + 1).toNat
decreasing_by omega

/-- Method `Vault.Read` of `vault.go`. -/
def Read {σ : Type} (E : Env σ) (v : Vault) (path : String) (w : World σ) :
    Outcome (Option Secret × Option GoError) × World σ :=
  read E v path 2 w

/-- Method `Vault.write` of `vault.go`. -/
def write {σ : Type} (E : Env σ) (v : Vault) (path : String) (data : Payload)
    (retries : Int) (w : World σ) :
    Outcome (Option Secret × Option GoError) × World σ :=
  let r := E.logicalWrite w.srv w.token path data
  let w1 : World σ :=
    { w with srv := r.2, trace := w.trace ++ [Event.write w.token path data r.1.2] }
  if _h : r.1.2 ≠ none ∧ retries ≥ 0 then
    match maybeReAuth E v w1 with
    | (.fatal msg, w2) => (.fatal msg, w2)
    | (.ret (some err), w2) => (.ret (none, some err), w2)
    | (.ret none, w2) => write E v path data (retries - 1) w2
  else (.ret r.1, w1)
termination_by (retries + 1).toNat
decreasing_by omega

/-- Method `Vault.Write` of `vault.go`. -/
def Write {σ : Type} (E : Env σ) (v : Vault) (path : String) (data : Payload) (w : World σ) :
    Outcome (Option Secret × Option GoError) × World σ :=
  write E v path data 2 w

/-- What `MustInitVault` takes from code outside `vault.go`:
`core.LoadCredentials`, which given the label and the configuration yields the
username and the password or an error, and the error of `api.NewClient`. -/
structure Startup where
  loadCredentials : String → VaultConfig → Except GoError (String × String)
  newClient : Option GoError

/-- Function `mustLoadVaultCredentials` of `vault.go`. -/
def mustLoadVaultCredentials (S : Startup) (cfg : VaultConfig) : Outcome VaultConfig :=
  let cfg1 : VaultConfig :=
    if cfg.authMethod = "" then { cfg with authMethod := "Okta" } else cfg
  match S.loadCredentials ("Vault/" ++ cfg1.authMethod) cfg1 with
  | .error err => .fatal ("Failed to set Vault credentials: " ++ err)
  | .ok up => .ret { cfg1 with username := up.1, password := up.2 }

/-- Function `MustInitVault`, for the tunnel whose remote host is `remoteHost`; the
token of the new client is the token of the initial world. -/
def MustInitVault {σ : Type} (S : Startup) (E : Env σ) (cfg : VaultConfig)
    (remoteHost : String) (w : World σ) : Outcome Vault × World σ :=
  match mustLoadVaultCredentials S cfg with
  | .fatal msg => (.fatal msg, w)
  | .ret cfg1 =>
    let v : Vault := { cfg := cfg1, tokenName := "token." ++ remoteHost }
    match S.newClient with
    | some err => (.fatal ("Failed to get Vault client: " ++ err), w)
    | none =>
      match loadToken E v w with
      | (.fatal msg, w1) => (.fatal msg, w1)
      | (.ret (some err), w1) => (.fatal ("Failed to load token: " ++ err), w1)
      | (.ret none, w1) => (.ret v, w1)

/-! ## The retry loop, by the number of rounds left

`read` and `write` recurse on the integer `retries` and stop re-trying once it
is negative. `retryLoop` is the same loop over an arbitrary underlying call,
indexed by the natural number `retries + 1` of rounds that may still follow a
failed call; `read_eq_retryLoop` and `write_eq_retryLoop` show that both
functions are this loop. -/

/-- The loop of `Vault.read` / `Vault.write` over the underlying call `call`,
which `tag` records in the trace. -/
def retryLoop {σ : Type} (E : Env σ) (v : Vault)
    (call : σ → String → (Option Secret × Option GoError) × σ)
    (tag : String → Option GoError → Event) :
    Nat → World σ → Outcome (Option Secret × Option GoError) × World σ
  | 0, w =>
    let r := call w.srv w.token
    (.ret r.1, { w with srv := r.2, trace := w.trace ++ [tag w.token r.1.2] })
  | k + 1, w =>
    let r := call w.srv w.token
    let w1 : World σ := { w with srv := r.2, trace := w.trace ++ [tag w.token r.1.2] }
    if r.1.2 ≠ none then
      match maybeReAuth E v w1 with
      | (.fatal msg, w2) => (.fatal msg, w2)
      | (.ret (some err), w2) => (.ret (none, some err), w2)
      | (.ret none, w2) => retryLoop E v call tag k w2
    else (.ret r.1, w1)

/-! ## Reading a trace -/

/-- The error of an underlying `read` / `write` call; `none` for other events. -/
def Event.callErr : Event → Option (Option GoError)
  | .read _ _ err => some err
  | .write _ _ _ err => some err
  | _ => none

/-- An underlying `read` / `write` call. -/
def Event.isCall (ev : Event) : Bool := ev.callErr.isSome

/-- An underlying `read` / `write` call that returned an error. -/
def Event.isFailedCall (ev : Event) : Bool :=
  match ev.callErr with
  | some (some _) => true
  | _ => false

/-- The login call of `Auth`. -/
def Event.isLogin : Event → Bool
  | .login _ _ _ _ => true
  | _ => false

/-- A self-lookup probe. -/
def Event.isLookup : Event → Bool
  | .lookupSelf _ _ => true
  | _ => false

/-- A self-lookup probe whose error text contains `Code: 403.`. -/
def Event.isDenied : Event → Bool
  | .lookupSelf _ (some err) => stringsContains err "Code: 403."
  | _ => false

/-- A write of a file. -/
def Event.isWriteFile : Event → Bool
  | .writeFile _ _ _ => true
  | _ => false

/-! ## Concrete scenarios -/

/-- The text of a Vault permission denial. -/
def denial : GoError :=
  "Error making API request. Code: 403. Errors: * permission denied"

/-- The token of a login response: the body of the secret, empty for `nil`. -/
def bodyTokenID : Option Secret → Except GoError String
  | none => .ok ""
  | some s => .ok s.body

/-- The client of the example scenario: host `vault.stg`, method `Okta`,
user `alice`, password `p`. -/
def stgVault : Vault :=
  { tokenName := "token.vault.stg",
    cfg := { authMethod := "Okta", username := "alice", password := "p" } }

/-- The key of `/home/alice/.config/bub/token.vault.stg`. -/
def stgKey : Key :=
  ⟨true, ["home".data, "alice".data, ".config".data, "bub".data, "token.vault.stg".data]⟩

/-- A file system with the configuration directory and the cached token `abc`. -/
def stgFS : FS :=
  [ (stgKey, .file "abc"),
    (stgKey.parent, .dir),
    (stgKey.parent.parent, .dir),
    (stgKey.parent.parent.parent, .dir),
    (stgKey.parent.parent.parent.parent, .dir) ]

/-- The initial world of the example scenario: the client holds the cached
token `abc`. -/
def stgWorld : World Unit :=
  { srv := (), token := "abc", fs := stgFS, trace := [] }

/-- A server that accepts the token `xyz` only and whose login hands out
`xyz` for the credentials of `stgVault`. -/
def stgEnv : Env Unit :=
  { logicalRead := fun _ tok _ =>
      if tok = "xyz" then ((some ⟨"payload"⟩, none), ()) else ((none, some denial), ()),
    logicalWrite := fun _ tok path data =>
      if path = "auth/okta/login/alice" ∧ data = [("password", "p")] then
        ((some ⟨"xyz"⟩, none), ())
      else if tok = "xyz" then ((some ⟨"ack"⟩, none), ())
      else ((none, some denial), ()),
    lookupSelf := fun _ tok => if tok = "xyz" then (none, ()) else (some denial, ()),
    tokenID := bodyTokenID,
    caseTable := id,
    homeDir := some "/home/alice" }

/-- A server that denies every token it is presented, while every login
succeeds and hands out the token `xyz`. -/
def denyAllEnv : Env Unit :=
  { logicalRead := fun _ _ _ => ((none, some denial), ()),
    logicalWrite := fun _ _ path _ =>
      if path = "auth/okta/login/alice" then ((some ⟨"xyz"⟩, none), ())
      else ((none, some denial), ()),
    lookupSelf := fun _ _ => (some denial, ()),
    tokenID := bodyTokenID,
    caseTable := id,
    homeDir := some "/home/alice" }

/-- An unreachable server: every call fails with a transport error, and the
text of the probe's error differs from the text of the call's error. -/
def unreachableEnv : Env Unit :=
  { logicalRead := fun _ _ path =>
      ((none, some ("Get " ++ path ++ ": dial tcp 127.0.0.1:8200: connection refused")), ()),
    logicalWrite := fun _ _ path _ =>
      ((none, some ("Put " ++ path ++ ": dial tcp 127.0.0.1:8200: connection refused")), ()),
    lookupSelf := fun _ _ =>
      (some "Get auth/token/lookup-self: dial tcp 127.0.0.1:8200: connection refused", ()),
    tokenID := bodyTokenID,
    caseTable := id,
    homeDir := some "/home/alice" }

/-- A server on which the token is valid but every read and write fails, as
for a path that does not exist. -/
def notFoundEnv : Env Unit :=
  { logicalRead := fun _ _ _ =>
      ((none, some "Error making API request. Code: 404. Errors:"), ()),
    logicalWrite := fun _ _ _ _ =>
      ((none, some "Error making API request. Code: 404. Errors:"), ()),
    lookupSelf := fun _ _ => (none, ()),
    tokenID := bodyTokenID,
    caseTable := id,
    homeDir := some "/home/alice" }

/-! ## Re-authentication as a reaction to a denial -/

/-- The rule for two consecutive external calls `a`, `b` of an operation: `b`
is a login exactly when `a` is a self-lookup that was denied with a 403, and
`b` is a self-lookup only when `a` is a read/write call that failed. -/
def ReauthStep (a b : Event) : Prop :=
  b.isLogin = a.isDenied ∧ (b.isLookup = true → a.isFailedCall = true)

/-- The calls `tr` made by one operation react to denials only: the first
call is the underlying read/write call, consecutive calls obey `ReauthStep`,
the operation does not end on a denied self-lookup, and there are as many
logins as denied self-lookups. -/
def ReactsToDenial (tr : List Event) : Prop :=
  (∀ a ∈ tr.head?, a.isCall = true)
  ∧ List.Chain' ReauthStep tr
  ∧ (∀ a ∈ tr.getLast?, a.isDenied = false)
  ∧ tr.countP Event.isLogin = tr.countP Event.isDenied

/-- The error returned by a self-lookup probe; `none` for a probe that
succeeded and for every other event. -/
def Event.probeErr : Event → Option GoError
  | .lookupSelf _ err => err
  | _ => none

/-- The shape of the element stack of `path.Clean`: ordinary elements on top
of a run of `..` elements, and no `..` at all in a rooted path. -/
def CleanStack (rooted : Bool) (st : List (List Char)) : Prop :=
  ∃ n M, st = M ++ List.replicate n ['.', '.']
    ∧ (∀ e ∈ M, e ≠ [] ∧ e ≠ ['.'] ∧ e ≠ ['.', '.'] ∧ '/' ∉ e)
    ∧ (rooted = true → n = 0)

/-- A server like `stgEnv` whose login hands out the token `xyz` followed by
a newline character. -/
def newlineEnv : Env Unit :=
  { stgEnv with
    logicalWrite := fun _ _ _ _ => ((some ⟨"xyz\n"⟩, none), ()) }

/-- Credentials and client creation that succeed: `alice` with password `p`. -/
def stgStartup : Startup :=
  { loadCredentials := fun _ _ => .ok ("alice", "p"),
    newClient := none }

/-- The file system of `stgFS` after the token file has been truncated. -/
def emptyTokenFS : FS := (stgKey, .file "") :: stgFS

/-- The file system of `stgFS` with a token file that holds a single newline. -/
def blankTokenFS : FS := (stgKey, .file "\n") :: stgFS

/-- A server like `stgEnv` whose login answers with an empty response (a nil
secret and a nil error), from which `TokenID` extracts the empty token. -/
def emptyLoginEnv : Env Unit :=
  { stgEnv with
    logicalWrite := fun _ _ _ _ => ((none, none), ()) }

/-- The file system of `stgFS` in which the token path is a directory, so that
it exists and cannot be read as a file. -/
def dirTokenFS : FS := (stgKey, .dir) :: stgFS

/-- The `ssh.Tunnel` struct. -/
structure Tunnel where
  remoteHost : String
  localPort : Nat
  remotePort : Nat
deriving DecidableEq, Repr

/-- Function `GetVaultTunnelConfiguration`, for the domain of the environment;
the local port comes from `ssh.GetPort()`, which is outside this file. -/
def GetVaultTunnelConfiguration (getPort : Nat) (domain : String) : Tunnel :=
  { remoteHost := "vault." ++ domain, localPort := getPort, remotePort := 8200 }

/-- The string that `path.Join` builds from the home directory, `.config` and
`bub`, before it is cleaned: the configuration directory. -/
def configDirBuf (home : String) : List Char := joinBuf [] [home, ".config", "bub"]

/-- The event with the kind of the underlying call forgotten: a `read` and a
`write` call that presented the same token and returned the same error have
the same shape; every other event is its own shape. -/
def Event.shape : Event → Event
  | .read t _ e => .read t "" e
  | .write t _ _ e => .read t "" e
  | ev => ev

/-- Two states of a client that differ at most in the kind of the underlying
calls recorded so far. -/
def World.Sim {σ : Type} (w1 w2 : World σ) : Prop :=
  w1.srv = w2.srv ∧ w1.token = w2.token ∧ w1.fs = w2.fs
    ∧ w1.trace.map Event.shape = w2.trace.map Event.shape

/-- A file system with the home directory of `alice` and nothing in it: the
configuration directory `.config/bub` does not exist. -/
def homeOnlyFS : FS :=
  [ (⟨true, ["home".data, "alice".data]⟩, .dir),
    (⟨true, ["home".data]⟩, .dir) ]

/-- The server of `stgEnv` on a machine where `user.Current()` fails. -/
def noUserEnv : Env Unit :=
  { stgEnv with homeDir := none }

/-! ## The update command (`cmd/update_cmd.go`) -/

/-- The `s3path` struct. -/
structure S3path where
  region : String
  bucket : String
  path : String
deriving DecidableEq, Repr

/-- An `s3.Object` of a bucket listing, reduced to its key (the SDK fills in
the key of every listed object). -/
structure S3Object where
  key : String
deriving DecidableEq, Repr

/-- What lies outside `update_cmd.go`: `session.NewSession` for a region (its
error), `ListObjectsV2` for region, bucket and key start, `regexp.Compile`
(which yields the `Find` function of the pattern), `runtime.GOOS`, and
`version.CompareSimple`. -/
structure UpdateEnv where
  newSession : String → Option GoError
  listObjectsV2 : String → String → String → Except GoError (List S3Object)
  regexpCompile : String → Except GoError (String → String)
  goos : String
  compareSimple : String → String → Int

/-- One pass of the loop of `latestRelease` over a listed object: the newest
version so far and its object, updated. -/
def releaseStep (U : UpdateEnv) (find : String → String)
    (acc : String × Option S3Object) (obj : S3Object) : String × Option S3Object :=
  if stringsContains obj.key U.goos then
    (if U.compareSimple (find obj.key) acc.1 > 0 then (find obj.key, some obj) else acc)
  else acc

/-- Function `latestRelease`: the object and the error it returns. -/
def latestRelease (U : UpdateEnv) (base : S3path) : Option S3Object × Option GoError :=
  match U.newSession base.region with
  | some err => (none, some err)
  | none =>
    match U.listObjectsV2 base.region base.bucket base.path with
    | .error err => (none, some err)
    | .ok contents =>
      match U.regexpCompile "[0-9\\.]+" with
      | .error err => (none, some err)
      | .ok find => ((contents.foldl (releaseStep U find) ("0.0", none)).2, none)

/-- How the action of the `update` command goes on after `latestRelease`: it
returns the error, or dereferences the nil object, or calls `updateBub` with
the key of the object as the path. -/
inductive UpdateAction where
  | failed (err : GoError)
  | nilDereference
  | runUpdateBub (path : S3path)
deriving DecidableEq, Repr

/-- The action of the `update` command, up to the call of `updateBub`, for the
region, the bucket and the key start of `cfg.Updates`. -/
def updateAction (U : UpdateEnv) (region bucket keyStart : String) : UpdateAction :=
  match latestRelease U ⟨region, bucket, keyStart⟩ with
  | (_, some err) => .failed err
  | (none, none) => .nilDereference
  | (some obj, none) => .runUpdateBub ⟨region, bucket, obj.key⟩

/-- A reachable bucket with the given listing, on Linux; the `Find` function
of the pattern and the version comparison are left open. -/
def bucketEnv (contents : List S3Object) (find : String → String)
    (cmp : String → String → Int) : UpdateEnv :=
  { newSession := fun _ => none,
    listObjectsV2 := fun _ _ _ => .ok contents,
    regexpCompile := fun _ => .ok find,
    goos := "linux",
    compareSimple := cmp }

/-- The outcomes of the steps of `updateBub` that lie outside the program, in
the order in which it takes them: `os.Executable`, the two `ioutil.TempFile`
calls, the download, the seek, `gzip.NewReader`, `io.Copy`, `os.Chmod`,
`os.Rename` and the run of the new executable with `--version`. -/
structure UpdateSteps where
  executable : Except GoError String
  tempFile1 : Except GoError String
  download : Option GoError
  seek : Option GoError
  tempFile2 : Except GoError String
  gzipReader : Option GoError
  copy : Option GoError
  chmod : Option GoError
  rename : Option GoError
  runVersion : Except GoError String

/-- A step of `updateBub` that changes something outside the program. -/
inductive UpdateEvent where
  | download (bucket key file : String)
  | gunzip (src dst : String)
  | chmod (file : String)
  | rename (src dst : String) (err : Option GoError)
  | versionCheck (exe : String)
deriving DecidableEq, Repr

/-- Function `updateBub`: the error it returns (or the `log.Fatalf` that ends
it) and the steps it took. The variable `err` of the source is followed
literally: `os.Chmod` assigns it, `os.Rename` does not. The deferred closing
and removal of the temporary files are left out. -/
def updateBub (U : UpdateEnv) (X : UpdateSteps) (path : S3path) :
    Outcome (Option GoError) × List UpdateEvent :=
  match X.executable with
  | .error err => (.fatal ("Could not get bub's path: " ++ err), [])
  | .ok exe =>
    match U.newSession path.region with
    | some err => (.ret (some err), [])
    | none =>
      match X.tempFile1 with
      | .error err => (.ret (some err), [])
      | .ok fgz =>
        let tr1 := [UpdateEvent.download path.bucket path.path fgz]
        match X.download with
        | some err => (.ret (some err), tr1)
        | none =>
          match X.seek with
          | some err => (.ret (some err), tr1)
          | none =>
            match X.tempFile2 with
            | .error err => (.ret (some err), tr1)
            | .ok f =>
              match X.gzipReader with
              | some err => (.ret (some err), tr1)
              | none =>
                let tr2 := tr1 ++ [UpdateEvent.gunzip fgz f]
                match X.copy with
                | some err => (.ret (some err), tr2)
                | none =>
                  let tr3 := tr2 ++ [UpdateEvent.chmod f]
                  let err : Option GoError := X.chmod
                  match err with
                  | some e => (.ret (some e), tr3)
                  | none =>
                    let tr4 := tr3 ++ [UpdateEvent.rename f exe X.rename]
                    if X.rename ≠ none then (.ret err, tr4)
                    else
                      let tr5 := tr4 ++ [UpdateEvent.versionCheck exe]
                      match X.runVersion with
                      | .error e => (.ret (some e), tr5)
                      | .ok _ => (.ret none, tr5)

/-- An update in which every step succeeds except the renaming onto the
running executable, which fails with `e`. -/
def renameFails (e : GoError) : UpdateSteps :=
  { executable := .ok "/usr/local/bin/bub",
    tempFile1 := .ok "/tmp/bub-update1",
    download := none,
    seek := none,
    tempFile2 := .ok "/tmp/bub-update2",
    gzipReader := none,
    copy := none,
    chmod := none,
    rename := some e,
    runVersion := .ok "bub version 1.2" }

/-! ## The configuration (`cmd/config.go`) and `getRegion` (`cmd/cmd.go`) -/

/-- The `Environment` struct. -/
structure Environment where
  Prefix : String
  Jumphost : String
  Region : String
deriving DecidableEq, Repr

/-- The `AWS` part of the `Configuration` struct. -/
structure AWSConfiguration where
  Regions : List String
  Environments : List Environment
deriving DecidableEq, Repr

/-- The `Configuration` struct, reduced to the part that `getRegion` reads. -/
structure Configuration where
  AWS : AWSConfiguration
deriving DecidableEq, Repr

/-- Function `loadConfiguration`. Outside it are `user.Current()` (the home
directory or an error), the file system, and `yaml.Unmarshal`, which fills the
configuration it is given and returns its error. -/
def loadConfiguration (currentUser : Except GoError String) (fs : FS)
    (yamlUnmarshal : String → Configuration → Configuration × Option GoError) :
    Outcome Configuration :=
  let cfg : Configuration := ⟨⟨[], []⟩⟩
  match currentUser with
  | .error err => .fatal err
  | .ok homeDir =>
    let configDir := pathJoin [homeDir, ".config", "bub"]
    let configPath := pathJoin [configDir, "config.yml"]
    match readFile fs configPath with
    | .error _ => .ret cfg
    | .ok data =>
      match yamlUnmarshal data cfg with
      | (cfg1, some _) => .ret cfg1
      | (cfg1, none) =>
        if cfg1.AWS.Regions.length = 0 then
          .ret { cfg1 with AWS := { cfg1.AWS with Regions := ["us-east-1", "us-west-2"] } }
        else .ret cfg1

/-- Go `strings.Split(s, sep)` for a separator of one character. -/
def splitChar (sep : Char) : List Char → List (List Char)
  | [] => [[]]
  | c :: cs =>
    if c = sep then [] :: splitChar sep cs
    else
      match splitChar sep cs with
      | [] => [[c]]
      | x :: xs => (c :: x) :: xs

/-- What `getRegion` ends with: the region it returns, or the run-time error
of an index out of range. -/
inductive RegionResult where
  | region (r : String)
  | indexOutOfRange
deriving DecidableEq, Repr

/-- The loop of `getRegion` over `cfg.AWS.Environments`: the region of the
first environment whose `Prefix` is the given one. -/
def regionOfEnvironment (pre : String) : List Environment → Option String
  | [] => none
  | i :: rest => if i.Prefix = pre then some i.Region else regionOfEnvironment pre rest

/-- Function `getRegion`; `regionFlag` is `c.String("region")`. -/
def getRegion (environment : String) (cfg : Configuration) (regionFlag : String) :
    RegionResult :=
  if regionFlag = "" then
    match splitChar '-' environment.data with
    | [] => .indexOutOfRange
    | pre :: _ =>
      match regionOfEnvironment ⟨pre⟩ cfg.AWS.Environments with
      | some r => .region r
      | none =>
        match cfg.AWS.Regions with
        | [] => .indexOutOfRange
        | r :: _ => .region r
  else .region regionFlag

/-- The file system of `stgFS` with a configuration file that is not YAML. -/
def badConfigFS : FS :=
  (⟨true, ["home".data, "alice".data, ".config".data, "bub".data, "config.yml".data]⟩,
    .file "aws: [") :: stgFS

/-- The file system of `stgFS` in which the cached token file can be read and
not written. -/
def readOnlyTokenFS : FS := (stgKey, .readOnly "abc") :: stgFS

/-- How an operation that issues the underlying call `call` (recorded by
`tag`) can end, by its last external call `last` and its result `res`: on the
underlying call, whose result is then returned as it is; on a self-lookup probe
that failed with an error other than a 403 denial, whose error is returned; on
the login call of a re-authentication, with the empty-token error of `Auth` or
the end of the process; or on a failed write of the token file, whose error is
returned. -/
def EndsOn {σ : Type} (call : σ → String → (Option Secret × Option GoError) × σ)
    (tag : String → Option GoError → Event)
    (res : Outcome (Option Secret × Option GoError)) (last : Event) : Prop :=
  (∃ s t, res = .ret (call s t).1 ∧ last = tag t (call s t).1.2)
  ∨ (∃ t e, last = Event.lookupSelf t (some e) ∧ stringsContains e "Code: 403." = false
      ∧ res = .ret (none, some e))
  ∨ (last.isLogin = true
      ∧ (res = .ret (none, some "failed to get authenticated and get Vault token")
        ∨ ∃ msg, res = .fatal msg))
  ∨ (∃ p c e, last = Event.writeFile p c (some e) ∧ res = .ret (none, some e))

/-- A server that denies every token but `xyz`, hands out `xyz` at the login,
and answers every read and write that presents `xyz` with a 500. -/
def recoverThenFailEnv : Env Unit :=
  { logicalRead := fun _ tok _ =>
      if tok = "xyz" then
        ((none, some "Error making API request. Code: 500. Errors: * internal error"), ())
      else ((none, some denial), ()),
    logicalWrite := fun _ tok path data =>
      if path = "auth/okta/login/alice" ∧ data = [("password", "p")] then
        ((some ⟨"xyz"⟩, none), ())
      else if tok = "xyz" then
        ((none, some "Error making API request. Code: 500. Errors: * internal error"), ())
      else ((none, some denial), ()),
    lookupSelf := fun _ tok => if tok = "xyz" then (none, ()) else (some denial, ()),
    tokenID := bodyTokenID,
    caseTable := id,
    homeDir := some "/home/alice" }

/-! # Theorems -/

/-! ## `read` and `write` are the retry loop -/

theorem read_eq_retryLoop {σ : Type} (E : Env σ) (v : Vault) (path : String) :
    ∀ (k : Nat) (retries : Int) (w : World σ), (retries + 1).toNat = k →
      read E v path retries w =
        retryLoop E v (fun s t => E.logicalRead s t path)
          (fun t e => Event.read t path e) k w := by
  intro k
  induction k with
  | zero =>
    intro retries w hk
    have hneg : ¬ (retries ≥ 0) := by omega
    rw [read]
    simp [retryLoop, hneg]
  | succ k ih =>
    intro retries w hk
    have hpos : retries ≥ 0 := by omega
    have hk1 : (retries - 1 + 1).toNat = k := by omega
    rw [read]
    simp only [retryLoop, hpos, and_true]
    split
    · generalize maybeReAuth E v _ = m
      rcases m with ⟨(_ | _) | _, w2⟩ <;> simp [ih (retries - 1) _ hk1]
    · rfl

theorem write_eq_retryLoop {σ : Type} (E : Env σ) (v : Vault) (path : String)
    (data : Payload) :
    ∀ (k : Nat) (retries : Int) (w : World σ), (retries + 1).toNat = k →
      write E v path data retries w =
        retryLoop E v (fun s t => E.logicalWrite s t path data)
          (fun t e => Event.write t path data e) k w := by
  intro k
  induction k with
  | zero =>
    intro retries w hk
    have hneg : ¬ (retries ≥ 0) := by omega
    rw [write]
    simp [retryLoop, hneg]
  | succ k ih =>
    intro retries w hk
    have hpos : retries ≥ 0 := by omega
    have hk1 : (retries - 1 + 1).toNat = k := by omega
    rw [write]
    simp only [retryLoop, hpos, and_true]
    split
    · generalize maybeReAuth E v _ = m
      rcases m with ⟨(_ | _) | _, w2⟩ <;> simp [ih (retries - 1) _ hk1]
    · rfl

/-- Method `Vault.Read` is the retry loop with three rounds after the first call. -/
theorem Read_eq {σ : Type} (E : Env σ) (v : Vault) (path : String) (w : World σ) :
    Read E v path w =
      retryLoop E v (fun s t => E.logicalRead s t path)
        (fun t e => Event.read t path e) 3 w :=
  read_eq_retryLoop E v path 3 2 w (by decide)

/-- Method `Vault.Write` is the retry loop with three rounds after the first call. -/
theorem Write_eq {σ : Type} (E : Env σ) (v : Vault) (path : String) (data : Payload)
    (w : World σ) :
    Write E v path data w =
      retryLoop E v (fun s t => E.logicalWrite s t path data)
        (fun t e => Event.write t path data e) 3 w :=
  write_eq_retryLoop E v path data 3 2 w (by decide)

/-! ## C1: the number of attempts -/

/-- C1: against a server that denies every token while every login succeeds,
`Read` and `Write` each issue the underlying call four times (and log in three
times) before they return the denial of the fourth call: one attempt more than
the three that two retries allow. -/
theorem C1_four_attempts_when_denied :
    ((Read denyAllEnv stgVault "secret/db" stgWorld).2.trace.countP Event.isCall = 4
      ∧ (Read denyAllEnv stgVault "secret/db" stgWorld).2.trace.countP Event.isLogin = 3
      ∧ (Read denyAllEnv stgVault "secret/db" stgWorld).1 = .ret (none, some denial))
    ∧ ((Write denyAllEnv stgVault "secret/db" [("k", "v")] stgWorld).2.trace.countP
          Event.isCall = 4
      ∧ (Write denyAllEnv stgVault "secret/db" [("k", "v")] stgWorld).1
          = .ret (none, some denial)) := by
  rw [Read_eq, Write_eq]
  decide

/-! ## The file system model -/

theorem mem_strictInits_length {α : Type} {l pre : List α} (h : pre ∈ strictInits l) :
    pre.length < l.length := by
  unfold strictInits at h
  rcases List.mem_map.1 h with ⟨n, hn, rfl⟩
  have hlt : n < l.length := List.mem_range.1 hn
  simp [List.length_take]
  omega

theorem strictInits_ne {α : Type} {l pre : List α} (h : pre ∈ strictInits l) : pre ≠ l := by
  intro he
  have := mem_strictInits_length h
  rw [he] at this
  exact lt_irrefl _ this

theorem any_congr_mem {α : Type} {l : List α} {f g : α → Bool}
    (h : ∀ x ∈ l, f x = g x) : l.any f = l.any g := by
  induction l with
  | nil => rfl
  | cons a t ih =>
    simp only [List.any_cons]
    rw [h a (List.mem_cons_self a t), ih (fun x hx => h x (List.mem_cons_of_mem a hx))]

/-- What `resolve` returns when no regular file lies on the way. -/
theorem resolve_of_clear (fs : FS) (k : Key)
    (h : (strictInits k.elems).any
      (fun pre => match fs.lookup ⟨k.rooted, pre⟩ with
        | some n => n.isFile
        | none => false) = false) :
    resolve fs k =
      if k.elems = [] then .ok .dir
      else match fs.lookup k with
        | some n => .ok n
        | none => .error .ENOENT := by
  unfold resolve
  simp only [h, Bool.false_eq_true, if_false]

/-- A result other than `ENOTDIR` means that no regular file lies on the way. -/
theorem clear_of_resolve (fs : FS) (k : Key) (h : resolve fs k ≠ .error .ENOTDIR) :
    (strictInits k.elems).any
      (fun pre => match fs.lookup ⟨k.rooted, pre⟩ with
        | some n => n.isFile
        | none => false) = false := by
  by_contra hc
  apply h
  unfold resolve
  simp only [Bool.not_eq_false] at hc
  simp only [hc, if_true]

/-- A new entry for `k` does not change what lies on the way to `k`. -/
theorem any_insert_self (fs : FS) (k : Key) (n : Node) :
    (strictInits k.elems).any
      (fun pre => match List.lookup (⟨k.rooted, pre⟩ : Key) ((k, n) :: fs) with
        | some n => n.isFile
        | none => false)
    = (strictInits k.elems).any
      (fun pre => match fs.lookup ⟨k.rooted, pre⟩ with
        | some n => n.isFile
        | none => false) := by
  apply any_congr_mem
  intro pre hpre
  have hne : (⟨k.rooted, pre⟩ : Key) ≠ k := by
    intro he
    exact strictInits_ne hpre (congrArg Key.elems he)
  have hb : ((⟨k.rooted, pre⟩ : Key) == k) = false := by
    simpa using hne
  simp only [List.lookup_cons, hb]

/-- After an entry for a non-root `k` is added on a clear way, `k` resolves to it. -/
theorem resolve_insert_self (fs : FS) (k : Key) (n : Node)
    (hclear : resolve fs k ≠ .error .ENOTDIR) (hne : k.elems ≠ []) :
    resolve ((k, n) :: fs) k = .ok n := by
  have h1 := clear_of_resolve fs k hclear
  have h2 : (strictInits k.elems).any
      (fun pre => match List.lookup (⟨k.rooted, pre⟩ : Key) ((k, n) :: fs) with
        | some n => n.isFile
        | none => false) = false := by
    rw [any_insert_self]; exact h1
  rw [resolve_of_clear _ _ h2]
  simp [hne, List.lookup_cons]

/-- The root and the working directory never resolve to a file or to `ENOENT`. -/
theorem resolve_root (fs : FS) (k : Key) (h : k.elems = []) :
    resolve fs k = .ok .dir := by
  unfold resolve
  simp [h, strictInits]

/-- A successful `WriteFile` adds the file as the newest entry. -/
theorem writeFile_ok (fs fs' : FS) (p content : String)
    (h : writeFile fs p content = (none, fs')) :
    ∃ k, keyOf p = some k ∧ fs' = (k, .file content) :: fs
      ∧ resolve fs k ≠ .error .ENOTDIR ∧ k.elems ≠ [] := by
  unfold writeFile at h
  cases hk : keyOf p with
  | none => simp [hk] at h
  | some k =>
    simp only [hk] at h
    cases hr : resolve fs k with
    | ok n =>
      cases n with
      | file c =>
        simp only [hr, Prod.mk.injEq, true_and] at h
        refine ⟨k, rfl, h.symm, by simp [hr], ?_⟩
        intro he
        rw [resolve_root fs k he] at hr
        cases hr
      | readOnly c => simp [hr] at h
      | dir => simp [hr] at h
    | error e =>
      cases e with
      | ENOENT =>
        simp only [hr] at h
        have hfs : fs' = (k, .file content) :: fs := by
          split at h <;> simp_all
        refine ⟨k, rfl, hfs, by simp [hr], ?_⟩
        intro he
        rw [resolve_root fs k he] at hr
        cases hr
      | ENOTDIR => simp [hr] at h
      | EISDIR => simp [hr] at h

/-- Write then read: after a successful `WriteFile`, `ReadFile` of the same
path returns the content written. -/
theorem readFile_after_writeFile (fs fs' : FS) (p content : String)
    (h : writeFile fs p content = (none, fs')) :
    readFile fs' p = .ok content := by
  obtain ⟨k, hk, hfs, hclear, hne⟩ := writeFile_ok fs fs' p content h
  unfold readFile
  simp only [hk, hfs, resolve_insert_self fs k _ hclear hne]

/-- After a successful `WriteFile`, `os.Stat` of the same path succeeds. -/
theorem osStat_after_writeFile (fs fs' : FS) (p content : String)
    (h : writeFile fs p content = (none, fs')) :
    osStat fs' p = none := by
  obtain ⟨k, hk, hfs, hclear, hne⟩ := writeFile_ok fs fs' p content h
  unfold osStat
  simp only [hk, hfs, resolve_insert_self fs k _ hclear hne]

/-! ## C2: one denial, one re-authentication -/

/-- C2: the cached token is denied once (the first call fails and the
self-lookup fails with a 403 denial), the login returns a fresh non-empty
token `t`, the write of `t` to the token file succeeds, and the server accepts
`t`. Then `Read` returns the result of the second call with a nil error; it
makes exactly the five external calls listed, of which one is a login and one
a write of the token file; afterwards the client holds `t` and the token file
contains `t`. -/
theorem C2_reauth_once {σ : Type} (E : Env σ) (v : Vault) (path : String) (w : World σ)
    (e1 e2 t : String)
    (h1 : (E.logicalRead w.srv w.token path).1.2 = some e1)
    (h2 : (E.lookupSelf (E.logicalRead w.srv w.token path).2 w.token).1 = some e2)
    (h403 : stringsContains e2 "Code: 403." = true)
    (h3 : (E.logicalWrite (E.lookupSelf (E.logicalRead w.srv w.token path).2 w.token).2
            w.token (loginPath E v) (loginData v)).1.2 = none)
    (htok : E.tokenID (E.logicalWrite
            (E.lookupSelf (E.logicalRead w.srv w.token path).2 w.token).2
            w.token (loginPath E v) (loginData v)).1.1 = .ok t)
    (hne : t ≠ "")
    (hwrite : (writeFile w.fs (getTokenPath E v).1 t).1 = none)
    (h4 : (E.logicalRead (E.logicalWrite
            (E.lookupSelf (E.logicalRead w.srv w.token path).2 w.token).2
            w.token (loginPath E v) (loginData v)).2 t path).1.2 = none) :
    (Read E v path w).1 =
        .ret ((E.logicalRead (E.logicalWrite
            (E.lookupSelf (E.logicalRead w.srv w.token path).2 w.token).2
            w.token (loginPath E v) (loginData v)).2 t path).1.1, none)
    ∧ (Read E v path w).2.trace = w.trace ++
        [Event.read w.token path (some e1),
         Event.lookupSelf w.token (some e2),
         Event.login w.token (loginPath E v) (loginData v) none,
         Event.writeFile (getTokenPath E v).1 t none,
         Event.read t path none]
    ∧ (Read E v path w).2.token = t
    ∧ readFile (Read E v path w).2.fs (getTokenPath E v).1 = .ok t := by
  have hw0 : writeFile w.fs (getTokenPath E v).1 t
      = (none, (writeFile w.fs (getTokenPath E v).1 t).2) := by
    rw [← hwrite]
  obtain ⟨k, hk, hfs, -, -⟩ := writeFile_ok _ _ _ _ hw0
  have hw : writeFile w.fs (getTokenPath E v).1 t = (none, (k, Node.file t) :: w.fs) := by
    rw [← hfs]; exact hw0
  have hrd := readFile_after_writeFile _ _ _ _ hw
  have hpath : getTokenPath E v = ((getTokenPath E v).1, none) := by
    unfold getTokenPath
    cases E.homeDir <;> rfl
  have hres : (E.logicalRead (E.logicalWrite
      (E.lookupSelf (E.logicalRead w.srv w.token path).2 w.token).2
      w.token (loginPath E v) (loginData v)).2 t path).1 =
      ((E.logicalRead (E.logicalWrite
      (E.lookupSelf (E.logicalRead w.srv w.token path).2 w.token).2
      w.token (loginPath E v) (loginData v)).2 t path).1.1, none) := by
    rw [← h4]
  have hrun : Read E v path w =
      (.ret (E.logicalRead (E.logicalWrite
            (E.lookupSelf (E.logicalRead w.srv w.token path).2 w.token).2
            w.token (loginPath E v) (loginData v)).2 t path).1,
       { srv := (E.logicalRead (E.logicalWrite
            (E.lookupSelf (E.logicalRead w.srv w.token path).2 w.token).2
            w.token (loginPath E v) (loginData v)).2 t path).2,
         token := t,
         fs := (k, .file t) :: w.fs,
         trace := w.trace ++
          [Event.read w.token path (some e1),
           Event.lookupSelf w.token (some e2),
           Event.login w.token (loginPath E v) (loginData v) none,
           Event.writeFile (getTokenPath E v).1 t none,
           Event.read t path none] }) := by
    rw [Read_eq]
    have hauth : Auth E v
        { srv := (E.lookupSelf (E.logicalRead w.srv w.token path).2 w.token).2,
          token := w.token, fs := w.fs,
          trace := w.trace ++ [Event.read w.token path (some e1),
            Event.lookupSelf w.token (some e2)] } =
        (.ret none,
          { srv := (E.logicalWrite
              (E.lookupSelf (E.logicalRead w.srv w.token path).2 w.token).2
              w.token (loginPath E v) (loginData v)).2,
            token := t, fs := (k, .file t) :: w.fs,
            trace := w.trace ++ [Event.read w.token path (some e1),
              Event.lookupSelf w.token (some e2),
              Event.login w.token (loginPath E v) (loginData v) none,
              Event.writeFile (getTokenPath E v).1 t none] }) := by
      unfold Auth
      simp only [h3, htok, hne, if_false]
      rw [hpath]
      simp only [hw, List.append_assoc, List.singleton_append, List.cons_append,
        List.nil_append]
    simp only [retryLoop, maybeReAuth, h1, h2, h403, hauth, h4, ne_eq, not_false_eq_true,
      not_true_eq_false, if_true, if_false, reduceCtorEq, List.append_assoc,
      List.singleton_append, List.cons_append, List.nil_append]
  rw [hrun]
  refine ⟨?_, rfl, rfl, ?_⟩
  · rw [hres]
  · exact hrd

/-- C2, the example scenario: cached `abc`, login returns `xyz`. -/
theorem C2_reauth_once_witness :
    (Read stgEnv stgVault "secret/db" stgWorld).1 = .ret (some ⟨"payload"⟩, none)
    ∧ (Read stgEnv stgVault "secret/db" stgWorld).2.trace = stgWorld.trace ++
        [Event.read "abc" "secret/db" (some denial),
         Event.lookupSelf "abc" (some denial),
         Event.login "abc" "auth/okta/login/alice" [("password", "p")] none,
         Event.writeFile "/home/alice/.config/bub/token.vault.stg" "xyz" none,
         Event.read "xyz" "secret/db" none]
    ∧ (Read stgEnv stgVault "secret/db" stgWorld).2.token = "xyz"
    ∧ readFile (Read stgEnv stgVault "secret/db" stgWorld).2.fs
        "/home/alice/.config/bub/token.vault.stg" = .ok "xyz" :=
  C2_reauth_once stgEnv stgVault "secret/db" stgWorld denial denial "xyz"
    rfl rfl (by decide) rfl rfl (by decide) rfl rfl

/-- A cached token file that can be read need not be writable: with the
read-only token file of `readOnlyTokenFS` the same denial and login end the
`Read` with the error of the write, the fresh token installed in memory only. -/
theorem reauth_with_readOnly_cache :
    readFile readOnlyTokenFS "/home/alice/.config/bub/token.vault.stg" = .ok "abc"
    ∧ (Read stgEnv stgVault "secret/db" ⟨(), "abc", readOnlyTokenFS, []⟩)
      = (.ret (none,
          some "open /home/alice/.config/bub/token.vault.stg: permission denied"),
        ⟨(), "xyz", readOnlyTokenFS,
          [Event.read "abc" "secret/db" (some denial),
            Event.lookupSelf "abc" (some denial),
            Event.login "abc" "auth/okta/login/alice" [("password", "p")] none,
            Event.writeFile "/home/alice/.config/bub/token.vault.stg" "xyz"
              (some "open /home/alice/.config/bub/token.vault.stg: permission denied")]⟩) := by
  rw [Read_eq]
  exact ⟨rfl, by decide⟩

/-! ## C3: a call that succeeds at once -/

/-- C3: if the first underlying call of `Read` (of `Write`) returns a nil
error, the operation returns exactly the result of that call; the call is the
only external call made (no self-lookup, no login, no file access), and the
client's token and the file system are unchanged. -/
theorem C3_success_short_circuits {σ : Type} (E : Env σ) (v : Vault) (path : String)
    (data : Payload) (w : World σ) :
    ((E.logicalRead w.srv w.token path).1.2 = none →
      Read E v path w =
        (.ret (E.logicalRead w.srv w.token path).1,
          { srv := (E.logicalRead w.srv w.token path).2, token := w.token, fs := w.fs,
            trace := w.trace ++ [Event.read w.token path none] }))
    ∧ ((E.logicalWrite w.srv w.token path data).1.2 = none →
      Write E v path data w =
        (.ret (E.logicalWrite w.srv w.token path data).1,
          { srv := (E.logicalWrite w.srv w.token path data).2, token := w.token, fs := w.fs,
            trace := w.trace ++ [Event.write w.token path data none] })) := by
  constructor
  · intro h
    rw [Read_eq]
    simp [retryLoop, h]
  · intro h
    rw [Write_eq]
    simp [retryLoop, h]

/-- C3 on a concrete client: the token `xyz` is valid on `stgEnv`, so a read
and a write each make one call and leave token and files alone. -/
theorem C3_success_short_circuits_witness :
    (Read stgEnv stgVault "secret/db" { stgWorld with token := "xyz" } =
        (.ret (some ⟨"payload"⟩, none),
          { srv := (), token := "xyz", fs := stgFS,
            trace := [Event.read "xyz" "secret/db" none] }))
    ∧ (Write stgEnv stgVault "secret/db" [("k", "v")] { stgWorld with token := "xyz" } =
        (.ret (some ⟨"ack"⟩, none),
          { srv := (), token := "xyz", fs := stgFS,
            trace := [Event.write "xyz" "secret/db" [("k", "v")] none] })) :=
  ⟨(C3_success_short_circuits stgEnv stgVault "secret/db" [("k", "v")]
      { stgWorld with token := "xyz" }).1 rfl,
   (C3_success_short_circuits stgEnv stgVault "secret/db" [("k", "v")]
      { stgWorld with token := "xyz" }).2 rfl⟩

/-! ## The calls made by `Auth`, `maybeReAuth` and the retry loop -/

/-- Every `Auth` makes one login call, followed by at most one write of a file. -/
theorem Auth_events {σ : Type} (E : Env σ) (v : Vault) (w : World σ) :
    ∃ e atr, (Auth E v w).2.trace =
        w.trace ++ Event.login w.token (loginPath E v) (loginData v) e :: atr
      ∧ (atr = [] ∨ ∃ p c e1, atr = [Event.writeFile p c e1]) := by
  unfold Auth
  cases h1 : (E.logicalWrite w.srv w.token (loginPath E v) (loginData v)).1.2 with
  | some err => exact ⟨some err, [], by simp [h1], Or.inl rfl⟩
  | none =>
    cases h2 : E.tokenID (E.logicalWrite w.srv w.token (loginPath E v) (loginData v)).1.1 with
    | error err => exact ⟨none, [], by simp [h1, h2], Or.inl rfl⟩
    | ok token =>
      by_cases h3 : token = ""
      · exact ⟨none, [], by simp [h1, h2, h3], Or.inl rfl⟩
      · cases h4 : E.homeDir with
        | none =>
          exact ⟨none, [Event.writeFile "" token (writeFile w.fs "" token).1],
            by simp [h1, h2, h3, getTokenPath, h4], Or.inr ⟨_, _, _, rfl⟩⟩
        | some home =>
          exact ⟨none, [Event.writeFile (pathJoin [home, ".config", "bub", v.tokenName]) token
              (writeFile w.fs (pathJoin [home, ".config", "bub", v.tokenName]) token).1],
            by simp [h1, h2, h3, getTokenPath, h4], Or.inr ⟨_, _, _, rfl⟩⟩

/-- A probe that is not denied: `maybeReAuth` returns its error and only the
server state and the trace change. -/
theorem maybeReAuth_not_denied {σ : Type} (E : Env σ) (v : Vault) (w : World σ)
    (h : (Event.lookupSelf w.token (E.lookupSelf w.srv w.token).1).isDenied = false) :
    maybeReAuth E v w =
      (.ret (E.lookupSelf w.srv w.token).1,
        { w with srv := (E.lookupSelf w.srv w.token).2,
                 trace := w.trace ++ [Event.lookupSelf w.token (E.lookupSelf w.srv w.token).1] }) := by
  cases hr : (E.lookupSelf w.srv w.token).1 with
  | none => simp [maybeReAuth, hr]
  | some err =>
    rw [hr] at h
    simp only [Event.isDenied] at h
    simp [maybeReAuth, hr, h]

/-- A probe that is denied: `maybeReAuth` is `Auth`. -/
theorem maybeReAuth_denied {σ : Type} (E : Env σ) (v : Vault) (w : World σ)
    (h : (Event.lookupSelf w.token (E.lookupSelf w.srv w.token).1).isDenied = true) :
    maybeReAuth E v w =
      Auth E v
        { w with srv := (E.lookupSelf w.srv w.token).2,
                 trace := w.trace ++ [Event.lookupSelf w.token (E.lookupSelf w.srv w.token).1] } := by
  cases hr : (E.lookupSelf w.srv w.token).1 with
  | none => rw [hr] at h; simp [Event.isDenied] at h
  | some err =>
    rw [hr] at h
    simp only [Event.isDenied] at h
    simp [maybeReAuth, hr, h]

@[simp] theorem isLogin_login (t p : String) (d : Payload) (e : Option GoError) :
    (Event.login t p d e).isLogin = true := rfl

@[simp] theorem isLookup_login (t p : String) (d : Payload) (e : Option GoError) :
    (Event.login t p d e).isLookup = false := rfl

@[simp] theorem isDenied_login (t p : String) (d : Payload) (e : Option GoError) :
    (Event.login t p d e).isDenied = false := rfl

@[simp] theorem isLogin_writeFile (p c : String) (e : Option GoError) :
    (Event.writeFile p c e).isLogin = false := rfl

@[simp] theorem isLookup_writeFile (p c : String) (e : Option GoError) :
    (Event.writeFile p c e).isLookup = false := rfl

@[simp] theorem isDenied_writeFile (p c : String) (e : Option GoError) :
    (Event.writeFile p c e).isDenied = false := rfl

@[simp] theorem isLogin_lookupSelf (t : String) (e : Option GoError) :
    (Event.lookupSelf t e).isLogin = false := rfl

@[simp] theorem isLookup_lookupSelf (t : String) (e : Option GoError) :
    (Event.lookupSelf t e).isLookup = true := rfl

@[simp] theorem isFailedCall_lookupSelf (t : String) (e : Option GoError) :
    (Event.lookupSelf t e).isFailedCall = false := rfl

/-- What the tag of an underlying call is not. -/
theorem call_event_kinds {ev : Event} {e : Option GoError} (h : ev.callErr = some e) :
    ev.isCall = true ∧ ev.isLogin = false ∧ ev.isLookup = false ∧ ev.isDenied = false
      ∧ ev.isFailedCall = e.isSome := by
  cases ev <;> cases e <;>
    simp_all [Event.callErr, Event.isCall, Event.isLogin, Event.isLookup, Event.isDenied,
      Event.isFailedCall]

/-- The calls of the retry loop react to denials only; and when no probe is
denied, the token and the file system are left as they were. -/
theorem retryLoop_reacts {σ : Type} (E : Env σ) (v : Vault)
    (call : σ → String → (Option Secret × Option GoError) × σ)
    (tag : String → Option GoError → Event)
    (htag : ∀ t e, (tag t e).callErr = some e) :
    ∀ (k : Nat) (w : World σ), ∃ rest,
      (retryLoop E v call tag k w).2.trace
          = w.trace ++ tag w.token (call w.srv w.token).1.2 :: rest
      ∧ ReactsToDenial (tag w.token (call w.srv w.token).1.2 :: rest)
      ∧ ((∀ a ∈ rest, a.isDenied = false) →
          (retryLoop E v call tag k w).2.token = w.token
          ∧ (retryLoop E v call tag k w).2.fs = w.fs) := by
  intro k
  induction k with
  | zero =>
    intro w
    obtain ⟨hc1, hc2, hc3, hc4, hc5⟩ := call_event_kinds (htag w.token (call w.srv w.token).1.2)
    refine ⟨[], ?_, ?_, ?_⟩
    · simp [retryLoop]
    · simp [ReactsToDenial, hc1, hc2, hc4]
    · intro _; simp [retryLoop]
  | succ k ih =>
    intro w
    obtain ⟨hc1, hc2, hc3, hc4, hc5⟩ := call_event_kinds (htag w.token (call w.srv w.token).1.2)
    by_cases hcall : (call w.srv w.token).1.2 = none
    · refine ⟨[], ?_, ?_, ?_⟩
      · simp [retryLoop, hcall]
      · simp [ReactsToDenial, hc1, hc2, hc4]
      · intro _; simp [retryLoop, hcall]
    · have hfail : (tag w.token (call w.srv w.token).1.2).isFailedCall = true := by
        rw [hc5]
        cases h : (call w.srv w.token).1.2 with
        | none => exact absurd h hcall
        | some e => rfl
      have hloop : retryLoop E v call tag (k + 1) w =
          match maybeReAuth E v
            { w with srv := (call w.srv w.token).2,
                     trace := w.trace ++ [tag w.token (call w.srv w.token).1.2] } with
          | (.fatal msg, w2) => (.fatal msg, w2)
          | (.ret (some err), w2) => (.ret (none, some err), w2)
          | (.ret none, w2) => retryLoop E v call tag k w2 := by
        simp [retryLoop, hcall]
      rw [hloop]
      obtain ⟨w1, hw1⟩ : ∃ w1 : World σ, w1 =
          ⟨(call w.srv w.token).2, w.token, w.fs,
            w.trace ++ [tag w.token (call w.srv w.token).1.2]⟩ := ⟨_, rfl⟩
      rw [← hw1]
      have ht1 : w1.token = w.token := by rw [hw1]
      have hf1 : w1.fs = w.fs := by rw [hw1]
      have htr1 : w1.trace = w.trace ++ [tag w.token (call w.srv w.token).1.2] := by rw [hw1]
      by_cases hd : (Event.lookupSelf w1.token (E.lookupSelf w1.srv w1.token).1).isDenied = true
      · rw [maybeReAuth_denied E v w1 hd]
        obtain ⟨w2, hw2⟩ : ∃ w2 : World σ, w2 =
            ⟨(E.lookupSelf w1.srv w1.token).2, w1.token, w1.fs,
              w1.trace ++ [Event.lookupSelf w1.token (E.lookupSelf w1.srv w1.token).1]⟩ :=
          ⟨_, rfl⟩
        rw [← hw2]
        have htr2 : w2.trace = w.trace ++ [tag w.token (call w.srv w.token).1.2,
            Event.lookupSelf w1.token (E.lookupSelf w1.srv w1.token).1] := by
          rw [hw2]; simp [htr1]
        have ht2 : w2.token = w1.token := by rw [hw2]
        obtain ⟨e, atr, hA, hatr⟩ := Auth_events E v w2
        rcases hm : Auth E v w2 with ⟨o, w3⟩
        rw [hm] at hA
        simp only [htr2, List.append_assoc, List.cons_append, List.nil_append] at hA
        have hstop : ReactsToDenial (tag w.token (call w.srv w.token).1.2 ::
            Event.lookupSelf w1.token (E.lookupSelf w1.srv w1.token).1 ::
            Event.login w2.token (loginPath E v) (loginData v) e :: atr) := by
          rcases hatr with rfl | ⟨p, c, e1, rfl⟩ <;>
            simp [ReactsToDenial, ReauthStep, hc1, hc2, hc4, hfail, hd, List.countP_cons]
        rcases o with (_ | err) | msg
        · -- the login succeeded and the token file was written: the loop goes on
          obtain ⟨rest, h1, h2, -⟩ := ih w3
          obtain ⟨hd1, hd2, hd3, hd4, -⟩ :=
            call_event_kinds (htag w3.token (call w3.srv w3.token).1.2)
          refine ⟨Event.lookupSelf w1.token (E.lookupSelf w1.srv w1.token).1 ::
            Event.login w2.token (loginPath E v) (loginData v) e ::
            (atr ++ tag w3.token (call w3.srv w3.token).1.2 :: rest), ?_, ?_, ?_⟩
          · simp [h1, hA]
          · simp only [ReactsToDenial] at h2 ⊢
            obtain ⟨-, hch, hlast, hcnt⟩ := h2
            rcases hatr with rfl | ⟨p, c, e1, rfl⟩
            · simp [ReauthStep, hc1, hc2, hc4, hfail, hd, hd2, hd3, hd4,
                List.countP_cons] at hch hlast hcnt ⊢
              exact ⟨hch, hlast, by omega⟩
            · simp [ReauthStep, hc1, hc2, hc4, hfail, hd, hd2, hd3, hd4,
                List.countP_cons] at hch hlast hcnt ⊢
              exact ⟨hch, hlast, by omega⟩
          · intro hno
            have := hno _ (List.mem_cons_self _ _)
            rw [hd] at this
            cases this
        · refine ⟨_, hA, hstop, ?_⟩
          intro hno
          have := hno _ (List.mem_cons_self _ _)
          rw [hd] at this
          cases this
        · refine ⟨_, hA, hstop, ?_⟩
          intro hno
          have := hno _ (List.mem_cons_self _ _)
          rw [hd] at this
          cases this
      · have hd0 : (Event.lookupSelf w1.token (E.lookupSelf w1.srv w1.token).1).isDenied = false := by
          simpa using hd
        rw [maybeReAuth_not_denied E v w1 hd0]
        obtain ⟨w2, hw2⟩ : ∃ w2 : World σ, w2 =
            ⟨(E.lookupSelf w1.srv w1.token).2, w1.token, w1.fs,
              w1.trace ++ [Event.lookupSelf w1.token (E.lookupSelf w1.srv w1.token).1]⟩ :=
          ⟨_, rfl⟩
        rw [← hw2]
        have htr2 : w2.trace = w.trace ++ [tag w.token (call w.srv w.token).1.2,
            Event.lookupSelf w1.token (E.lookupSelf w1.srv w1.token).1] := by
          rw [hw2]; simp [htr1]
        have ht2 : w2.token = w.token := by rw [hw2]; exact ht1
        have hf2 : w2.fs = w.fs := by rw [hw2]; exact hf1
        cases hr : (E.lookupSelf w1.srv w1.token).1 with
        | some err =>
          rw [hr] at hd0 htr2
          refine ⟨[Event.lookupSelf w1.token (some err)], ?_, ?_, ?_⟩
          · simpa using htr2
          · simp [ReactsToDenial, ReauthStep, hc1, hc2, hc4, hfail, hd0, List.countP_cons]
          · intro _; exact ⟨ht2, hf2⟩
        | none =>
          rw [hr] at hd0 htr2
          obtain ⟨rest, h1, h2, h3⟩ := ih w2
          obtain ⟨hd1, hd2, hd3, hd4, -⟩ :=
            call_event_kinds (htag w2.token (call w2.srv w2.token).1.2)
          refine ⟨Event.lookupSelf w1.token none ::
            tag w2.token (call w2.srv w2.token).1.2 :: rest, ?_, ?_, ?_⟩
          · simp [h1, htr2]
          · simp only [ReactsToDenial] at h2 ⊢
            obtain ⟨-, hch, hlast, hcnt⟩ := h2
            simp [ReauthStep, hc1, hc2, hc4, hfail, hd0, hd2, hd3, hd4,
              List.countP_cons] at hch hlast hcnt ⊢
            exact ⟨hch, hlast, by omega⟩
          · intro hno
            have hrest : ∀ a ∈ rest, a.isDenied = false := fun a ha =>
              hno a (List.mem_cons_of_mem _ (List.mem_cons_of_mem _ ha))
            obtain ⟨h4, h5⟩ := h3 hrest
            exact ⟨h4.trans ht2, h5.trans hf2⟩

/-! ## C4: `Auth` only as a reaction to a denial -/

/-- C4: the external calls of a `Read` (of a `Write`) start with the
underlying call, and among them a login comes directly after a self-lookup that
returned an error containing `Code: 403.` and nowhere else, every such lookup is
directly followed by a login, and a self-lookup comes only directly after a
failed underlying call; so there are exactly as many logins as denied probes.
In particular, when no probe is denied, no login is made and the token is
unchanged. -/
theorem C4_auth_iff_denied {σ : Type} (E : Env σ) (v : Vault) (path : String)
    (data : Payload) (w : World σ) :
    (∃ tr, (Read E v path w).2.trace = w.trace ++ tr ∧ ReactsToDenial tr
      ∧ ((∀ a ∈ tr, a.isDenied = false) →
          (∀ a ∈ tr, a.isLogin = false) ∧ (Read E v path w).2.token = w.token))
    ∧ (∃ tr, (Write E v path data w).2.trace = w.trace ++ tr ∧ ReactsToDenial tr
      ∧ ((∀ a ∈ tr, a.isDenied = false) →
          (∀ a ∈ tr, a.isLogin = false) ∧ (Write E v path data w).2.token = w.token)) := by
  have key : ∀ (call : σ → String → (Option Secret × Option GoError) × σ)
      (tag : String → Option GoError → Event), (∀ t e, (tag t e).callErr = some e) →
      ∃ tr, (retryLoop E v call tag 3 w).2.trace = w.trace ++ tr ∧ ReactsToDenial tr
        ∧ ((∀ a ∈ tr, a.isDenied = false) →
          (∀ a ∈ tr, a.isLogin = false) ∧ (retryLoop E v call tag 3 w).2.token = w.token) := by
    intro call tag htag
    obtain ⟨rest, h1, h2, h3⟩ := retryLoop_reacts E v call tag htag 3 w
    refine ⟨_, h1, h2, ?_⟩
    intro hno
    constructor
    · have hz : (tag w.token (call w.srv w.token).1.2 :: rest).countP Event.isDenied = 0 := by
        rw [List.countP_eq_zero]
        intro a ha
        simp [hno a ha]
      have hl : (tag w.token (call w.srv w.token).1.2 :: rest).countP Event.isLogin = 0 := by
        rw [h2.2.2.2]; exact hz
      rw [List.countP_eq_zero] at hl
      intro a ha
      simpa using hl a ha
    · exact (h3 (fun a ha => hno a (List.mem_cons_of_mem _ ha))).1
  constructor
  · rw [Read_eq]
    exact key _ _ (fun _ _ => rfl)
  · rw [Write_eq]
    exact key _ _ (fun _ _ => rfl)

/-! ## Which error the retry loop returns -/

/-- After a failed call with rounds left, the next external call is the
self-lookup probe. -/
theorem retryLoop_fail_trace {σ : Type} (E : Env σ) (v : Vault)
    (call : σ → String → (Option Secret × Option GoError) × σ)
    (tag : String → Option GoError → Event)
    (htag : ∀ t e, (tag t e).callErr = some e) (k : Nat) (w : World σ)
    (hcall : (call w.srv w.token).1.2 ≠ none) :
    ∃ rest, (retryLoop E v call tag (k + 1) w).2.trace =
      w.trace ++ tag w.token (call w.srv w.token).1.2 ::
        Event.lookupSelf w.token (E.lookupSelf (call w.srv w.token).2 w.token).1 :: rest := by
  have hloop : retryLoop E v call tag (k + 1) w =
      match maybeReAuth E v
        ⟨(call w.srv w.token).2, w.token, w.fs,
          w.trace ++ [tag w.token (call w.srv w.token).1.2]⟩ with
      | (.fatal msg, w2) => (.fatal msg, w2)
      | (.ret (some err), w2) => (.ret (none, some err), w2)
      | (.ret none, w2) => retryLoop E v call tag k w2 := by
    simp [retryLoop, hcall]
  rw [hloop]
  have hm : ∃ atr, (maybeReAuth E v
        ⟨(call w.srv w.token).2, w.token, w.fs,
          w.trace ++ [tag w.token (call w.srv w.token).1.2]⟩).2.trace =
      w.trace ++ tag w.token (call w.srv w.token).1.2 ::
        Event.lookupSelf w.token (E.lookupSelf (call w.srv w.token).2 w.token).1 :: atr := by
    by_cases hd : (Event.lookupSelf w.token
        (E.lookupSelf (call w.srv w.token).2 w.token).1).isDenied = true
    · rw [maybeReAuth_denied E v _ hd]
      obtain ⟨e, atr, hA, -⟩ := Auth_events E v
        ⟨(E.lookupSelf (call w.srv w.token).2 w.token).2, w.token, w.fs,
          (w.trace ++ [tag w.token (call w.srv w.token).1.2]) ++
            [Event.lookupSelf w.token (E.lookupSelf (call w.srv w.token).2 w.token).1]⟩
      exact ⟨Event.login w.token (loginPath E v) (loginData v) e :: atr, by rw [hA]; simp⟩
    · have hd0 : (Event.lookupSelf w.token
          (E.lookupSelf (call w.srv w.token).2 w.token).1).isDenied = false := by
        simpa using hd
      rw [maybeReAuth_not_denied E v _ hd0]
      exact ⟨[], by simp⟩
  obtain ⟨atr, hatr⟩ := hm
  rcases hmm : maybeReAuth E v
        ⟨(call w.srv w.token).2, w.token, w.fs,
          w.trace ++ [tag w.token (call w.srv w.token).1.2]⟩ with ⟨o, w2⟩
  rw [hmm] at hatr
  rcases o with (_ | err) | msg
  · obtain ⟨rest, h1, -, -⟩ := retryLoop_reacts E v call tag htag k w2
    exact ⟨atr ++ tag w2.token (call w2.srv w2.token).1.2 :: rest, by
      simp only [h1]; rw [hatr]; simp⟩
  · exact ⟨atr, hatr⟩
  · exact ⟨atr, hatr⟩

/-- When no probe made by the loop returned an error, the loop returns the
result of an underlying call, and that call is the last external call made. -/
theorem retryLoop_probes_ok {σ : Type} (E : Env σ) (v : Vault)
    (call : σ → String → (Option Secret × Option GoError) × σ)
    (tag : String → Option GoError → Event)
    (htag : ∀ t e, (tag t e).callErr = some e) :
    ∀ (k : Nat) (w : World σ) (tr : List Event),
      (retryLoop E v call tag k w).2.trace = w.trace ++ tr →
      (∀ a ∈ tr, a.probeErr = none) →
      ∃ s t, (retryLoop E v call tag k w).1 = .ret (call s t).1
        ∧ tr.getLast? = some (tag t (call s t).1.2) := by
  intro k
  induction k with
  | zero =>
    intro w tr htr _
    refine ⟨w.srv, w.token, by simp [retryLoop], ?_⟩
    have : tr = [tag w.token (call w.srv w.token).1.2] := by
      simpa [retryLoop] using htr.symm
    rw [this]; rfl
  | succ k ih =>
    intro w tr htr hno
    by_cases hcall : (call w.srv w.token).1.2 = none
    · refine ⟨w.srv, w.token, by simp [retryLoop, hcall], ?_⟩
      have : tr = [tag w.token (call w.srv w.token).1.2] := by
        simpa [retryLoop, hcall] using htr.symm
      rw [this]; rfl
    · obtain ⟨rest, hrest⟩ := retryLoop_fail_trace E v call tag htag k w hcall
      have htr_eq : tr = tag w.token (call w.srv w.token).1.2 ::
          Event.lookupSelf w.token (E.lookupSelf (call w.srv w.token).2 w.token).1 :: rest := by
        rw [hrest] at htr
        exact (List.append_cancel_left htr).symm
      have hprobe : (E.lookupSelf (call w.srv w.token).2 w.token).1 = none := by
        have := hno (Event.lookupSelf w.token (E.lookupSelf (call w.srv w.token).2 w.token).1)
          (by rw [htr_eq]; simp)
        simpa [Event.probeErr] using this
      have hloop : retryLoop E v call tag (k + 1) w =
          retryLoop E v call tag k
            ⟨(E.lookupSelf (call w.srv w.token).2 w.token).2, w.token, w.fs,
              w.trace ++ [tag w.token (call w.srv w.token).1.2,
                Event.lookupSelf w.token none]⟩ := by
        simp [retryLoop, hcall, maybeReAuth, hprobe]
      rw [hloop] at hrest ⊢
      rw [hprobe] at hrest htr_eq
      have hrest2 : (retryLoop E v call tag k
            ⟨(E.lookupSelf (call w.srv w.token).2 w.token).2, w.token, w.fs,
              w.trace ++ [tag w.token (call w.srv w.token).1.2,
                Event.lookupSelf w.token none]⟩).2.trace =
          (w.trace ++ [tag w.token (call w.srv w.token).1.2,
                Event.lookupSelf w.token none]) ++ rest := by
        rw [hrest]; simp
      obtain ⟨s, t, h1, h2⟩ := ih _ rest hrest2
        (fun a ha => hno a (by rw [htr_eq]; simp [ha]))
      refine ⟨s, t, h1, ?_⟩
      rw [htr_eq]
      cases rest with
      | nil => simp at h2
      | cons x xs => simpa using h2

/-- A probe that fails with an error other than a 403 denial ends the loop:
the probe's error is returned after one call and one probe. -/
theorem retryLoop_probe_error {σ : Type} (E : Env σ) (v : Vault)
    (call : σ → String → (Option Secret × Option GoError) × σ)
    (tag : String → Option GoError → Event) (k : Nat) (w : World σ) (e : GoError)
    (hcall : (call w.srv w.token).1.2 ≠ none)
    (hprobe : (E.lookupSelf (call w.srv w.token).2 w.token).1 = some e)
    (h403 : stringsContains e "Code: 403." = false) :
    retryLoop E v call tag (k + 1) w =
      (.ret (none, some e),
        ⟨(E.lookupSelf (call w.srv w.token).2 w.token).2, w.token, w.fs,
          w.trace ++ [tag w.token (call w.srv w.token).1.2, Event.lookupSelf w.token (some e)]⟩) := by
  simp [retryLoop, hcall, maybeReAuth, hprobe, h403]

/-- How `Auth` ends: on the login call, with the empty-token error or the end
of the process; or on the write of the token file, with the result of that
write. -/
theorem Auth_ending {σ : Type} (E : Env σ) (v : Vault) (w : World σ) :
    (∃ e, (Auth E v w).2.trace
          = w.trace ++ [Event.login w.token (loginPath E v) (loginData v) e]
        ∧ ((Auth E v w).1 = .ret (some "failed to get authenticated and get Vault token")
          ∨ ∃ msg, (Auth E v w).1 = .fatal msg))
    ∨ (∃ p c werr, (Auth E v w).2.trace
          = w.trace ++ [Event.login w.token (loginPath E v) (loginData v) none,
              Event.writeFile p c werr]
        ∧ (Auth E v w).1 = .ret werr) := by
  have hpath : getTokenPath E v = ((getTokenPath E v).1, none) := by
    unfold getTokenPath
    cases E.homeDir <;> rfl
  unfold Auth
  rw [hpath]
  cases h1 : (E.logicalWrite w.srv w.token (loginPath E v) (loginData v)).1.2 with
  | some err => exact Or.inl ⟨some err, by simp [h1], Or.inr ⟨err, by simp [h1]⟩⟩
  | none =>
    cases h2 : E.tokenID (E.logicalWrite w.srv w.token (loginPath E v) (loginData v)).1.1 with
    | error err =>
      exact Or.inl ⟨none, by simp [h1, h2], Or.inr ⟨"Error: " ++ err, by simp [h1, h2]⟩⟩
    | ok token =>
      by_cases h3 : token = ""
      · exact Or.inl ⟨none, by simp [h1, h2, h3], Or.inl (by simp [h1, h2, h3])⟩
      · exact Or.inr ⟨(getTokenPath E v).1, token,
          (writeFile w.fs (getTokenPath E v).1 token).1,
          by simp [h1, h2, h3], by simp [h1, h2, h3]⟩

/-- How the retry loop ends: its last external call and its result are one of
the four endings of `EndsOn`. -/
theorem retryLoop_ending {σ : Type} (E : Env σ) (v : Vault)
    (call : σ → String → (Option Secret × Option GoError) × σ)
    (tag : String → Option GoError → Event) :
    ∀ (k : Nat) (w : World σ), ∃ tr last,
      (retryLoop E v call tag k w).2.trace = w.trace ++ tr
      ∧ tr.getLast? = some last
      ∧ EndsOn call tag (retryLoop E v call tag k w).1 last := by
  intro k
  induction k with
  | zero =>
    intro w
    exact ⟨[tag w.token (call w.srv w.token).1.2], _, by simp [retryLoop], rfl,
      Or.inl ⟨w.srv, w.token, by simp [retryLoop], rfl⟩⟩
  | succ k ih =>
    intro w
    by_cases hcall : (call w.srv w.token).1.2 = none
    · exact ⟨[tag w.token (call w.srv w.token).1.2], _, by simp [retryLoop, hcall], rfl,
        Or.inl ⟨w.srv, w.token, by simp [retryLoop, hcall], rfl⟩⟩
    · have hloop : retryLoop E v call tag (k + 1) w =
          match maybeReAuth E v
            ⟨(call w.srv w.token).2, w.token, w.fs,
              w.trace ++ [tag w.token (call w.srv w.token).1.2]⟩ with
          | (.fatal msg, w2) => (.fatal msg, w2)
          | (.ret (some err), w2) => (.ret (none, some err), w2)
          | (.ret none, w2) => retryLoop E v call tag k w2 := by
        simp [retryLoop, hcall]
      rw [hloop]
      cases hr : (E.lookupSelf (call w.srv w.token).2 w.token).1 with
      | none =>
        have hm : maybeReAuth E v
            ⟨(call w.srv w.token).2, w.token, w.fs,
              w.trace ++ [tag w.token (call w.srv w.token).1.2]⟩
            = (.ret none, ⟨(E.lookupSelf (call w.srv w.token).2 w.token).2, w.token, w.fs,
                w.trace ++ [tag w.token (call w.srv w.token).1.2,
                  Event.lookupSelf w.token none]⟩) := by
          simp [maybeReAuth, hr]
        rw [hm]
        obtain ⟨tr, last, h1, h2, h3⟩ := ih
          ⟨(E.lookupSelf (call w.srv w.token).2 w.token).2, w.token, w.fs,
            w.trace ++ [tag w.token (call w.srv w.token).1.2, Event.lookupSelf w.token none]⟩
        refine ⟨tag w.token (call w.srv w.token).1.2 :: Event.lookupSelf w.token none :: tr,
          last, by simp [h1], ?_, h3⟩
        cases tr with
        | nil => simp at h2
        | cons x xs => simpa using h2
      | some e =>
        by_cases h403 : stringsContains e "Code: 403." = true
        · have hm : maybeReAuth E v
              ⟨(call w.srv w.token).2, w.token, w.fs,
                w.trace ++ [tag w.token (call w.srv w.token).1.2]⟩
              = Auth E v ⟨(E.lookupSelf (call w.srv w.token).2 w.token).2, w.token, w.fs,
                  w.trace ++ [tag w.token (call w.srv w.token).1.2,
                    Event.lookupSelf w.token (some e)]⟩ := by
            simp [maybeReAuth, hr, h403]
          rw [hm]
          rcases Auth_ending E v ⟨(E.lookupSelf (call w.srv w.token).2 w.token).2, w.token,
              w.fs, w.trace ++ [tag w.token (call w.srv w.token).1.2,
                Event.lookupSelf w.token (some e)]⟩ with
            ⟨e1, htr, hres⟩ | ⟨p, c, werr, htr, hres⟩
          · -- the re-authentication ended on the login call
            rcases ha : Auth E v ⟨(E.lookupSelf (call w.srv w.token).2 w.token).2, w.token,
              w.fs, w.trace ++ [tag w.token (call w.srv w.token).1.2,
                Event.lookupSelf w.token (some e)]⟩ with ⟨o, w3⟩
            rw [ha] at htr hres
            simp only at htr hres
            refine ⟨[tag w.token (call w.srv w.token).1.2, Event.lookupSelf w.token (some e),
              Event.login w.token (loginPath E v) (loginData v) e1], _, ?_, rfl, ?_⟩
            · rcases hres with ho | ⟨msg, ho⟩ <;> subst ho <;> simpa using htr
            · right; right; left
              refine ⟨rfl, ?_⟩
              rcases hres with ho | ⟨msg, ho⟩
              · subst ho; exact Or.inl rfl
              · subst ho; exact Or.inr ⟨msg, rfl⟩
          · -- the re-authentication went on to the write of the token file
            rcases ha : Auth E v ⟨(E.lookupSelf (call w.srv w.token).2 w.token).2, w.token,
              w.fs, w.trace ++ [tag w.token (call w.srv w.token).1.2,
                Event.lookupSelf w.token (some e)]⟩ with ⟨o, w3⟩
            rw [ha] at htr hres
            simp only at htr hres
            subst hres
            cases werr with
            | some e2 =>
              refine ⟨[tag w.token (call w.srv w.token).1.2,
                Event.lookupSelf w.token (some e),
                Event.login w.token (loginPath E v) (loginData v) none,
                Event.writeFile p c (some e2)], _, by simpa using htr, rfl, ?_⟩
              right; right; right
              exact ⟨p, c, e2, rfl, rfl⟩
            | none =>
              obtain ⟨tr, last, h1, h2, h3⟩ := ih w3
              refine ⟨tag w.token (call w.srv w.token).1.2 ::
                Event.lookupSelf w.token (some e) ::
                Event.login w.token (loginPath E v) (loginData v) none ::
                Event.writeFile p c none :: tr, last, ?_, ?_, h3⟩
              · simp only [h1, htr]; simp
              · cases tr with
                | nil => simp at h2
                | cons x xs => simpa using h2
        · have h403f : stringsContains e "Code: 403." = false := by simpa using h403
          have hm : maybeReAuth E v
              ⟨(call w.srv w.token).2, w.token, w.fs,
                w.trace ++ [tag w.token (call w.srv w.token).1.2]⟩
              = (.ret (some e), ⟨(E.lookupSelf (call w.srv w.token).2 w.token).2, w.token,
                  w.fs, w.trace ++ [tag w.token (call w.srv w.token).1.2,
                    Event.lookupSelf w.token (some e)]⟩) := by
            simp [maybeReAuth, hr, h403f]
          rw [hm]
          exact ⟨[tag w.token (call w.srv w.token).1.2, Event.lookupSelf w.token (some e)], _,
            rfl, rfl, Or.inr (Or.inl ⟨w.token, e, rfl, h403f, rfl⟩)⟩

/-! ## C5: the error handed to the caller -/

/-- C5, as stated, fails: against an unreachable server `Read` returns an
error although no probe was denied, and that error is the error of the
self-lookup probe, not the error of any underlying read call. -/
theorem C5_probe_error_returned :
    ∃ e, (Read unreachableEnv stgVault "secret/db" stgWorld).1 = .ret (none, some e)
      ∧ (∀ a ∈ (Read unreachableEnv stgVault "secret/db" stgWorld).2.trace,
          a.isDenied = false)
      ∧ (∀ a ∈ (Read unreachableEnv stgVault "secret/db" stgWorld).2.trace,
          a.callErr ≠ some (some e))
      ∧ Event.lookupSelf "abc" (some e)
          ∈ (Read unreachableEnv stgVault "secret/db" stgWorld).2.trace := by
  refine ⟨"Get auth/token/lookup-self: dial tcp 127.0.0.1:8200: connection refused", ?_⟩
  rw [Read_eq]
  decide

/-- When the loop ends on an underlying call, it returns the result of that
call. -/
theorem retryLoop_ends_on_call {σ : Type} (E : Env σ) (v : Vault)
    (call : σ → String → (Option Secret × Option GoError) × σ)
    (tag : String → Option GoError → Event)
    (htag : ∀ t e, (tag t e).callErr = some e) (k : Nat) (w : World σ) (tr : List Event)
    (htr : (retryLoop E v call tag k w).2.trace = w.trace ++ tr)
    (hlast : ∀ a ∈ tr.getLast?, a.isCall = true) :
    ∃ s t, (retryLoop E v call tag k w).1 = .ret (call s t).1
      ∧ tr.getLast? = some (tag t (call s t).1.2) := by
  obtain ⟨tr1, last, h1, h2, h3⟩ := retryLoop_ending E v call tag k w
  have heq : tr1 = tr := by
    rw [h1] at htr
    exact List.append_cancel_left htr
  subst heq
  have hc : last.isCall = true := hlast last (by rw [h2]; rfl)
  rcases h3 with ⟨s, t, hres, hl⟩ | ⟨t, e, hl, -, -⟩ | ⟨hl, -⟩ | ⟨p, c, e, hl, -⟩
  · exact ⟨s, t, hres, by rw [h2, hl]⟩
  · rw [hl] at hc; cases hc
  · cases last <;> simp_all [Event.isCall, Event.callErr, Event.isLogin]
  · rw [hl] at hc; cases hc

/-- C5, amended. Every `Read` (every `Write`) ends in one of the four ways of
`EndsOn`. When its last external call is the underlying call, it returns the
result of that call, error included and unmodified: so after any number of
probes that succeeded or were denied with a 403 and re-authenticated. It ends
on another call only on a probe that failed with an error other than a 403
denial, whose error it returns, or inside a re-authentication that failed. In
particular, when no probe returned an error the result is that of the last
underlying call, and when the first call fails and the probe fails with an
error that is not a 403 denial, the error of the probe is returned. -/
theorem C5_error_source {σ : Type} (E : Env σ) (v : Vault) (path : String)
    (data : Payload) (w : World σ) :
    ((∃ tr last, (Read E v path w).2.trace = w.trace ++ tr ∧ tr.getLast? = some last
        ∧ EndsOn (fun s t => E.logicalRead s t path) (fun t e => Event.read t path e)
            (Read E v path w).1 last)
      ∧ (∀ tr, (Read E v path w).2.trace = w.trace ++ tr →
          (∀ a ∈ tr.getLast?, a.isCall = true) →
          ∃ s t, (Read E v path w).1 = .ret (E.logicalRead s t path).1
            ∧ tr.getLast? = some (Event.read t path (E.logicalRead s t path).1.2))
      ∧ (∀ tr, (Read E v path w).2.trace = w.trace ++ tr → (∀ a ∈ tr, a.probeErr = none) →
          ∃ s t, (Read E v path w).1 = .ret (E.logicalRead s t path).1
            ∧ tr.getLast? = some (Event.read t path (E.logicalRead s t path).1.2))
      ∧ (∀ e, (E.logicalRead w.srv w.token path).1.2 ≠ none →
          (E.lookupSelf (E.logicalRead w.srv w.token path).2 w.token).1 = some e →
          stringsContains e "Code: 403." = false →
          (Read E v path w).1 = .ret (none, some e)))
    ∧ ((∃ tr last, (Write E v path data w).2.trace = w.trace ++ tr ∧ tr.getLast? = some last
        ∧ EndsOn (fun s t => E.logicalWrite s t path data)
            (fun t e => Event.write t path data e) (Write E v path data w).1 last)
      ∧ (∀ tr, (Write E v path data w).2.trace = w.trace ++ tr →
          (∀ a ∈ tr.getLast?, a.isCall = true) →
          ∃ s t, (Write E v path data w).1 = .ret (E.logicalWrite s t path data).1
            ∧ tr.getLast? = some (Event.write t path data (E.logicalWrite s t path data).1.2))
      ∧ (∀ tr, (Write E v path data w).2.trace = w.trace ++ tr →
          (∀ a ∈ tr, a.probeErr = none) →
          ∃ s t, (Write E v path data w).1 = .ret (E.logicalWrite s t path data).1
            ∧ tr.getLast? = some (Event.write t path data (E.logicalWrite s t path data).1.2))
      ∧ (∀ e, (E.logicalWrite w.srv w.token path data).1.2 ≠ none →
          (E.lookupSelf (E.logicalWrite w.srv w.token path data).2 w.token).1 = some e →
          stringsContains e "Code: 403." = false →
          (Write E v path data w).1 = .ret (none, some e))) := by
  refine ⟨⟨?_, ?_, ?_, ?_⟩, ⟨?_, ?_, ?_, ?_⟩⟩
  · rw [Read_eq]
    exact retryLoop_ending E v _ _ 3 w
  · intro tr htr hlast
    rw [Read_eq] at htr ⊢
    exact retryLoop_ends_on_call E v (fun s t => E.logicalRead s t path)
      (fun t e => Event.read t path e) (fun _ _ => rfl) 3 w tr htr hlast
  · intro tr htr hno
    rw [Read_eq] at htr ⊢
    exact retryLoop_probes_ok E v (fun s t => E.logicalRead s t path)
      (fun t e => Event.read t path e) (fun _ _ => rfl) 3 w tr htr hno
  · intro e hcall hprobe h403
    rw [Read_eq, retryLoop_probe_error E v _ _ 2 w e hcall hprobe h403]
  · rw [Write_eq]
    exact retryLoop_ending E v _ _ 3 w
  · intro tr htr hlast
    rw [Write_eq] at htr ⊢
    exact retryLoop_ends_on_call E v (fun s t => E.logicalWrite s t path data)
      (fun t e => Event.write t path data e) (fun _ _ => rfl) 3 w tr htr hlast
  · intro tr htr hno
    rw [Write_eq] at htr ⊢
    exact retryLoop_probes_ok E v (fun s t => E.logicalWrite s t path data)
      (fun t e => Event.write t path data e) (fun _ _ => rfl) 3 w tr htr hno
  · intro e hcall hprobe h403
    rw [Write_eq, retryLoop_probe_error E v _ _ 2 w e hcall hprobe h403]

/-- C5 amended, on concrete servers: after a 403 denial and a successful
re-authentication, three 500 answers to the fresh token end the `Read` (the
`Write`) with the 500 of its last call; against an unreachable server the error
of the probe comes back. -/
theorem C5_error_source_witness :
    ((∃ s t, (Read recoverThenFailEnv stgVault "secret/db" stgWorld).1
          = .ret (recoverThenFailEnv.logicalRead s t "secret/db").1
        ∧ [Event.read "abc" "secret/db" (some denial),
            Event.lookupSelf "abc" (some denial),
            Event.login "abc" "auth/okta/login/alice" [("password", "p")] none,
            Event.writeFile "/home/alice/.config/bub/token.vault.stg" "xyz" none,
            Event.read "xyz" "secret/db"
              (some "Error making API request. Code: 500. Errors: * internal error"),
            Event.lookupSelf "xyz" none,
            Event.read "xyz" "secret/db"
              (some "Error making API request. Code: 500. Errors: * internal error"),
            Event.lookupSelf "xyz" none,
            Event.read "xyz" "secret/db"
              (some "Error making API request. Code: 500. Errors: * internal error")].getLast?
          = some (Event.read t "secret/db" (recoverThenFailEnv.logicalRead s t "secret/db").1.2))
      ∧ (Read unreachableEnv stgVault "secret/db" stgWorld).1 = .ret (none,
          some "Get auth/token/lookup-self: dial tcp 127.0.0.1:8200: connection refused"))
    ∧ ((∃ s t, (Write recoverThenFailEnv stgVault "secret/db" [] stgWorld).1
          = .ret (recoverThenFailEnv.logicalWrite s t "secret/db" []).1
        ∧ [Event.write "abc" "secret/db" [] (some denial),
            Event.lookupSelf "abc" (some denial),
            Event.login "abc" "auth/okta/login/alice" [("password", "p")] none,
            Event.writeFile "/home/alice/.config/bub/token.vault.stg" "xyz" none,
            Event.write "xyz" "secret/db" []
              (some "Error making API request. Code: 500. Errors: * internal error"),
            Event.lookupSelf "xyz" none,
            Event.write "xyz" "secret/db" []
              (some "Error making API request. Code: 500. Errors: * internal error"),
            Event.lookupSelf "xyz" none,
            Event.write "xyz" "secret/db" []
              (some "Error making API request. Code: 500. Errors: * internal error")].getLast?
          = some (Event.write t "secret/db" []
              (recoverThenFailEnv.logicalWrite s t "secret/db" []).1.2))
      ∧ (Write unreachableEnv stgVault "secret/db" [] stgWorld).1 = .ret (none,
          some "Get auth/token/lookup-self: dial tcp 127.0.0.1:8200: connection refused")) :=
  ⟨⟨(C5_error_source recoverThenFailEnv stgVault "secret/db" [] stgWorld).1.2.1 _
        (by rw [Read_eq]; rfl) (by decide),
    (C5_error_source unreachableEnv stgVault "secret/db" [] stgWorld).1.2.2.2 _
        (by decide) rfl (by decide)⟩,
   ⟨(C5_error_source recoverThenFailEnv stgVault "secret/db" [] stgWorld).2.2.1 _
        (by rw [Write_eq]; rfl) (by decide),
    (C5_error_source unreachableEnv stgVault "secret/db" [] stgWorld).2.2.2.2 _
        (by decide) rfl (by decide)⟩⟩

/-! ## C6: when the call is issued again -/

/-- C6, as stated, fails: against an unreachable server (the call fails and
the probe fails too, with an error that is not a 403 denial) `Read` and `Write`
each give up after a single underlying call and a single probe. -/
theorem C6_gives_up_after_one_call :
    ((Read unreachableEnv stgVault "secret/db" stgWorld).2.trace.countP Event.isCall = 1
      ∧ (Read unreachableEnv stgVault "secret/db" stgWorld).2.trace.length = 2)
    ∧ ((Write unreachableEnv stgVault "secret/db" [("k", "v")] stgWorld).2.trace.countP
          Event.isCall = 1
      ∧ (Write unreachableEnv stgVault "secret/db" [("k", "v")] stgWorld).2.trace.length = 2) := by
  rw [Read_eq, Write_eq]
  decide

/-- C6, amended: let the underlying call of `read` (of `write`) fail. With
`retries >= 0`: if the self-lookup probe succeeds, the call is issued again
with the counter decremented; if the probe fails with an error that is not a
403 denial, the probe's error is returned at once, after that one call and one
probe. With `retries < 0` the result of the call is returned as it is. -/
theorem C6_retry_when_probe_succeeds {σ : Type} (E : Env σ) (v : Vault) (path : String)
    (data : Payload) (retries : Int) (w : World σ) :
    ((E.logicalRead w.srv w.token path).1.2 ≠ none →
      (0 ≤ retries →
        ((E.lookupSelf (E.logicalRead w.srv w.token path).2 w.token).1 = none →
          read E v path retries w = read E v path (retries - 1)
            ⟨(E.lookupSelf (E.logicalRead w.srv w.token path).2 w.token).2, w.token, w.fs,
              w.trace ++ [Event.read w.token path (E.logicalRead w.srv w.token path).1.2,
                Event.lookupSelf w.token none]⟩)
        ∧ (∀ e, (E.lookupSelf (E.logicalRead w.srv w.token path).2 w.token).1 = some e →
          stringsContains e "Code: 403." = false →
          read E v path retries w = (.ret (none, some e),
            ⟨(E.lookupSelf (E.logicalRead w.srv w.token path).2 w.token).2, w.token, w.fs,
              w.trace ++ [Event.read w.token path (E.logicalRead w.srv w.token path).1.2,
                Event.lookupSelf w.token (some e)]⟩)))
      ∧ (retries < 0 →
          read E v path retries w = (.ret (E.logicalRead w.srv w.token path).1,
            ⟨(E.logicalRead w.srv w.token path).2, w.token, w.fs,
              w.trace ++ [Event.read w.token path (E.logicalRead w.srv w.token path).1.2]⟩)))
    ∧ ((E.logicalWrite w.srv w.token path data).1.2 ≠ none →
      (0 ≤ retries →
        ((E.lookupSelf (E.logicalWrite w.srv w.token path data).2 w.token).1 = none →
          write E v path data retries w = write E v path data (retries - 1)
            ⟨(E.lookupSelf (E.logicalWrite w.srv w.token path data).2 w.token).2, w.token, w.fs,
              w.trace ++
                [Event.write w.token path data (E.logicalWrite w.srv w.token path data).1.2,
                  Event.lookupSelf w.token none]⟩)
        ∧ (∀ e, (E.lookupSelf (E.logicalWrite w.srv w.token path data).2 w.token).1 = some e →
          stringsContains e "Code: 403." = false →
          write E v path data retries w = (.ret (none, some e),
            ⟨(E.lookupSelf (E.logicalWrite w.srv w.token path data).2 w.token).2, w.token, w.fs,
              w.trace ++
                [Event.write w.token path data (E.logicalWrite w.srv w.token path data).1.2,
                  Event.lookupSelf w.token (some e)]⟩)))
      ∧ (retries < 0 →
          write E v path data retries w = (.ret (E.logicalWrite w.srv w.token path data).1,
            ⟨(E.logicalWrite w.srv w.token path data).2, w.token, w.fs,
              w.trace ++
                [Event.write w.token path data (E.logicalWrite w.srv w.token path data).1.2]⟩))) := by
  constructor
  · intro hcall
    refine ⟨fun hr => ⟨?_, ?_⟩, ?_⟩
    · intro hprobe
      rw [read]
      simp [hcall, hr, maybeReAuth, hprobe]
    · intro e hprobe h403
      rw [read]
      simp [hcall, hr, maybeReAuth, hprobe, h403]
    · intro hr
      have hneg : ¬ (0 ≤ retries) := by omega
      rw [read]
      simp [hneg]
  · intro hcall
    refine ⟨fun hr => ⟨?_, ?_⟩, ?_⟩
    · intro hprobe
      rw [write]
      simp [hcall, hr, maybeReAuth, hprobe]
    · intro e hprobe h403
      rw [write]
      simp [hcall, hr, maybeReAuth, hprobe, h403]
    · intro hr
      have hneg : ¬ (0 ≤ retries) := by omega
      rw [write]
      simp [hneg]

/-- C6 amended, on concrete servers: a missing path with a valid token is
tried again with the counter at 1; an unreachable server ends the operation
with the probe's error; with the counter at -1 the 404 is returned. -/
theorem C6_retry_when_probe_succeeds_witness :
    (read notFoundEnv stgVault "secret/db" 2 stgWorld =
        read notFoundEnv stgVault "secret/db" (2 - 1)
          ⟨(), "abc", stgFS,
            [Event.read "abc" "secret/db" (some "Error making API request. Code: 404. Errors:"),
              Event.lookupSelf "abc" none]⟩
      ∧ read unreachableEnv stgVault "secret/db" 2 stgWorld = (.ret (none,
            some "Get auth/token/lookup-self: dial tcp 127.0.0.1:8200: connection refused"),
          ⟨(), "abc", stgFS,
            [Event.read "abc" "secret/db"
                (some "Get secret/db: dial tcp 127.0.0.1:8200: connection refused"),
              Event.lookupSelf "abc"
                (some "Get auth/token/lookup-self: dial tcp 127.0.0.1:8200: connection refused")]⟩)
      ∧ read notFoundEnv stgVault "secret/db" (-1) stgWorld =
          (.ret (none, some "Error making API request. Code: 404. Errors:"),
            ⟨(), "abc", stgFS,
              [Event.read "abc" "secret/db"
                (some "Error making API request. Code: 404. Errors:")]⟩))
    ∧ (write notFoundEnv stgVault "secret/db" [] 2 stgWorld =
        write notFoundEnv stgVault "secret/db" [] (2 - 1)
          ⟨(), "abc", stgFS,
            [Event.write "abc" "secret/db" []
                (some "Error making API request. Code: 404. Errors:"),
              Event.lookupSelf "abc" none]⟩
      ∧ write unreachableEnv stgVault "secret/db" [] 2 stgWorld = (.ret (none,
            some "Get auth/token/lookup-self: dial tcp 127.0.0.1:8200: connection refused"),
          ⟨(), "abc", stgFS,
            [Event.write "abc" "secret/db" []
                (some "Put secret/db: dial tcp 127.0.0.1:8200: connection refused"),
              Event.lookupSelf "abc"
                (some "Get auth/token/lookup-self: dial tcp 127.0.0.1:8200: connection refused")]⟩)
      ∧ write notFoundEnv stgVault "secret/db" [] (-1) stgWorld =
          (.ret (none, some "Error making API request. Code: 404. Errors:"),
            ⟨(), "abc", stgFS,
              [Event.write "abc" "secret/db" []
                (some "Error making API request. Code: 404. Errors:")]⟩)) :=
  ⟨⟨((C6_retry_when_probe_succeeds notFoundEnv stgVault "secret/db" [] 2 stgWorld).1
        (by decide)).1 (by decide) |>.1 rfl,
    ((C6_retry_when_probe_succeeds unreachableEnv stgVault "secret/db" [] 2 stgWorld).1
        (by decide)).1 (by decide) |>.2 _ rfl (by decide),
    ((C6_retry_when_probe_succeeds notFoundEnv stgVault "secret/db" [] (-1) stgWorld).1
        (by decide)).2 (by decide)⟩,
   ⟨((C6_retry_when_probe_succeeds notFoundEnv stgVault "secret/db" [] 2 stgWorld).2
        (by decide)).1 (by decide) |>.1 rfl,
    ((C6_retry_when_probe_succeeds unreachableEnv stgVault "secret/db" [] 2 stgWorld).2
        (by decide)).1 (by decide) |>.2 _ rfl (by decide),
    ((C6_retry_when_probe_succeeds notFoundEnv stgVault "secret/db" [] (-1) stgWorld).2
        (by decide)).2 (by decide)⟩⟩

/-! ## C7: the login request -/

/-- Lower-casing acts on each part of a concatenation. -/
theorem stringsToLower_append (ct : Char → Char) (s t : String) :
    stringsToLower ct (s ++ t) = stringsToLower ct s ++ stringsToLower ct t := by
  apply String.ext
  simp [stringsToLower, String.data_append]

/-- The literal parts of the login path are in lower case already, whatever
the case table above the ASCII range is. -/
theorem stringsToLower_literals (ct : Char → Char) :
    stringsToLower ct "auth/" = "auth/" ∧ stringsToLower ct "/login/" = "/login/" :=
  ⟨rfl, rfl⟩

/-- C7: the login call that `Auth` issues has the path
`"auth/" ++ lower(authMethod) ++ "/login/" ++ lower(username)` and the body
that is the one-entry map from `"password"` to the password, unchanged; with
method `Okta` and user `alice` the path is `auth/okta/login/alice`. -/
theorem C7_login_request {σ : Type} (E : Env σ) (v : Vault) (w : World σ) :
    (∃ e atr, (Auth E v w).2.trace = w.trace ++
        Event.login w.token
          ("auth/" ++ stringsToLower E.caseTable v.cfg.authMethod ++ "/login/"
            ++ stringsToLower E.caseTable v.cfg.username)
          [("password", v.cfg.password)] e :: atr
        ∧ ∀ a ∈ atr, a.isLogin = false)
    ∧ (∀ (tokenName password : String),
        loginPath E ⟨tokenName, ⟨"Okta", "alice", password⟩⟩ = "auth/okta/login/alice") := by
  constructor
  · obtain ⟨e, atr, h1, h2⟩ := Auth_events E v w
    refine ⟨e, atr, ?_, ?_⟩
    · rw [h1]
      have hp : loginPath E v = "auth/" ++ stringsToLower E.caseTable v.cfg.authMethod
          ++ "/login/" ++ stringsToLower E.caseTable v.cfg.username := by
        unfold loginPath
        rw [stringsToLower_append, stringsToLower_append, stringsToLower_append,
          (stringsToLower_literals E.caseTable).1, (stringsToLower_literals E.caseTable).2]
      rw [hp]
      rfl
    · rcases h2 with rfl | ⟨p, c, e1, rfl⟩ <;> simp
  · intro tokenName password
    rfl

/-! ## `path.Clean` names the same place -/

theorem splitSlash_ne_nil (p : List Char) : splitSlash p ≠ [] := by
  cases p with
  | nil => simp [splitSlash]
  | cons c cs =>
    unfold splitSlash
    split
    · simp
    · split <;> simp

/-- No element produced by the split contains a slash. -/
theorem splitSlash_no_slash (p : List Char) : ∀ x ∈ splitSlash p, '/' ∉ x := by
  induction p with
  | nil => intro x hx; simp [splitSlash] at hx; simp [hx]
  | cons c cs ih =>
    intro x hx
    unfold splitSlash at hx
    split at hx
    · rcases List.mem_cons.1 hx with rfl | h
      · simp
      · exact ih x h
    · rename_i hc
      split at hx
      · rename_i heq
        exact absurd heq (splitSlash_ne_nil cs)
      · rename_i y ys heq
        rcases List.mem_cons.1 hx with rfl | h
        · have hy : '/' ∉ y := ih y (by rw [heq]; simp)
          intro hmem
          rcases List.mem_cons.1 hmem with h1 | h1
          · exact hc h1.symm
          · exact hy h1
        · exact ih x (by rw [heq]; simp [h])

/-- An element without a slash, followed by a slash, is split off. -/
theorem splitSlash_append_slash (e rest : List Char) (he : '/' ∉ e) :
    splitSlash (e ++ '/' :: rest) = e :: splitSlash rest := by
  induction e with
  | nil => simp [splitSlash]
  | cons c cs ih =>
    have hc : c ≠ '/' := fun h => he (by simp [h])
    have hcs : '/' ∉ cs := fun h => he (by simp [h])
    have h := ih hcs
    show splitSlash (c :: (cs ++ '/' :: rest)) = (c :: cs) :: splitSlash rest
    simp only [splitSlash, hc, if_false, h]

/-- A list without a slash is one element. -/
theorem splitSlash_single (e : List Char) (he : '/' ∉ e) : splitSlash e = [e] := by
  induction e with
  | nil => simp [splitSlash]
  | cons c cs ih =>
    have hc : c ≠ '/' := fun h => he (by simp [h])
    have hcs : '/' ∉ cs := fun h => he (by simp [h])
    simp only [splitSlash, hc, if_false, ih hcs]

/-- Splitting undoes joining. -/
theorem splitSlash_joinSlash (L : List (List Char)) (hne : L ≠ [])
    (hL : ∀ x ∈ L, '/' ∉ x) : splitSlash (joinSlash L) = L := by
  induction L with
  | nil => exact absurd rfl hne
  | cons e es ih =>
    cases es with
    | nil => simpa [joinSlash] using splitSlash_single e (hL e (by simp))
    | cons e1 es1 =>
      simp only [joinSlash]
      rw [splitSlash_append_slash e _ (hL e (by simp)),
        ih (by simp) (fun x hx => hL x (List.mem_cons_of_mem _ hx))]

/-- One step of the element loop keeps the shape of the stack. -/
theorem cleanStep_cleanStack (r : Bool) (st : List (List Char)) (e : List Char)
    (hst : CleanStack r st) (he : '/' ∉ e) : CleanStack r (cleanStep r st e) := by
  obtain ⟨n, M, rfl, hM, hr⟩ := hst
  unfold cleanStep
  by_cases h1 : e = [] ∨ e = ['.']
  · rw [if_pos h1]; exact ⟨n, M, rfl, hM, hr⟩
  · rw [if_neg h1]
    by_cases h2 : e = ['.', '.']
    · rw [if_pos h2]
      cases M with
      | nil =>
        cases n with
        | zero =>
          simp only [List.replicate_zero, List.append_nil]
          cases r with
          | true => exact ⟨0, [], rfl, by simp, fun _ => rfl⟩
          | false => exact ⟨1, [], by simp [h2], by simp, by simp⟩
        | succ m =>
          have hrf : r = false := by
            cases r with
            | true => exact absurd (hr rfl) (by simp)
            | false => rfl
          simp only [List.nil_append, List.replicate_succ, if_true]
          exact ⟨m + 2, [], by simp [h2, List.replicate_succ], by simp, by simp [hrf]⟩
      | cons top rest =>
        have htop := (hM top (by simp)).2.2.1
        simp only [List.cons_append, htop, if_false]
        exact ⟨n, rest, rfl, fun x hx => hM x (List.mem_cons_of_mem _ hx), hr⟩
    · rw [if_neg h2]
      refine ⟨n, e :: M, by simp, ?_, hr⟩
      intro x hx
      rcases List.mem_cons.1 hx with rfl | hx
      · exact ⟨fun h => h1 (Or.inl h), fun h => h1 (Or.inr h), h2, he⟩
      · exact hM x hx

/-- The element loop keeps the shape of the stack. -/
theorem foldl_cleanStack (r : Bool) (L st : List (List Char))
    (hst : CleanStack r st) (hL : ∀ x ∈ L, '/' ∉ x) :
    CleanStack r (L.foldl (cleanStep r) st) := by
  induction L generalizing st with
  | nil => exact hst
  | cons e es ih =>
    simp only [List.foldl_cons]
    exact ih _ (cleanStep_cleanStack r st e hst (hL e (by simp)))
      (fun x hx => hL x (List.mem_cons_of_mem _ hx))

/-- Ordinary elements are pushed one after the other. -/
theorem foldl_cleanStep_push (r : Bool) (X s : List (List Char))
    (hX : ∀ e ∈ X, e ≠ [] ∧ e ≠ ['.'] ∧ e ≠ ['.', '.'] ∧ '/' ∉ e) :
    X.foldl (cleanStep r) s = X.reverse ++ s := by
  induction X generalizing s with
  | nil => rfl
  | cons e es ih =>
    obtain ⟨h1, h2, h3, -⟩ := hX e (by simp)
    have hstep : cleanStep r s e = e :: s := by
      simp [cleanStep, h1, h2, h3]
    simp only [List.foldl_cons, hstep, List.reverse_cons, List.append_assoc,
      List.singleton_append]
    exact ih _ (fun x hx => hX x (List.mem_cons_of_mem _ hx))

/-- In a relative path, `..` elements on a stack of `..` elements pile up. -/
theorem foldl_cleanStep_dots (n m : Nat) :
    (List.replicate n ['.', '.']).foldl (cleanStep false) (List.replicate m ['.', '.'])
      = List.replicate (n + m) ['.', '.'] := by
  induction n generalizing m with
  | zero => simp
  | succ k ih =>
    have hstep : cleanStep false (List.replicate m ['.', '.']) ['.', '.']
        = List.replicate (m + 1) ['.', '.'] := by
      cases m with
      | zero => simp [cleanStep]
      | succ j => simp [cleanStep, List.replicate_succ]
    have hk : List.replicate (k + 1) ['.', '.'] = ['.', '.'] :: List.replicate k ['.', '.'] :=
      List.replicate_succ _ _
    rw [hk, List.foldl_cons, hstep, ih (m + 1)]
    congr 1
    omega

/-- Running the element loop over the elements of a clean stack rebuilds it. -/
theorem foldl_cleanStep_rebuild (r : Bool) (st : List (List Char)) (hst : CleanStack r st) :
    st.reverse.foldl (cleanStep r) [] = st := by
  obtain ⟨n, M, rfl, hM, hr⟩ := hst
  have hdots : (List.replicate n ['.', '.']).foldl (cleanStep r) []
      = List.replicate n ['.', '.'] := by
    cases r with
    | true => rw [hr rfl]; rfl
    | false => simpa using foldl_cleanStep_dots n 0
  rw [List.reverse_append, List.reverse_replicate, List.foldl_append, hdots,
    foldl_cleanStep_push r M.reverse _ (fun e he => hM e (List.mem_reverse.1 he))]
  simp

/-- The stack of the element loop has the clean shape. -/
theorem cleanStack_of_path (r : Bool) (p : List Char) :
    CleanStack r ((splitSlash p).foldl (cleanStep r) []) :=
  foldl_cleanStack r _ [] ⟨0, [], rfl, by simp, fun _ => rfl⟩ (splitSlash_no_slash p)

/-- The elements of a clean stack are not empty and hold no slash. -/
theorem cleanStack_elems (r : Bool) (st : List (List Char)) (hst : CleanStack r st) :
    ∀ e ∈ st, e ≠ [] ∧ '/' ∉ e := by
  obtain ⟨n, M, rfl, hM, -⟩ := hst
  intro e he
  rcases List.mem_append.1 he with h | h
  · exact ⟨(hM e h).1, (hM e h).2.2.2⟩
  · rw [List.eq_of_mem_replicate h]
    exact ⟨by simp, by decide⟩

/-- The joined elements start with no slash. -/
theorem isRooted_joinSlash (L : List (List Char)) (hL : ∀ e ∈ L, e ≠ [] ∧ '/' ∉ e) :
    isRooted (joinSlash L) = false := by
  cases L with
  | nil => rfl
  | cons e es =>
    obtain ⟨hne, hsl⟩ := hL e (by simp)
    cases e with
    | nil => exact absurd rfl hne
    | cons c cs =>
      have hc : c ≠ '/' := fun h => hsl (by simp [h])
      cases es with
      | nil =>
        simp only [joinSlash, isRooted]
        split
        · rename_i heq; exact absurd (List.cons.inj heq).1 hc
        · rfl
      | cons e1 es1 =>
        simp only [joinSlash, List.cons_append, isRooted]
        split
        · rename_i heq; exact absurd (List.cons.inj heq).1 hc
        · rfl

/-- The joined elements are empty only when there is no element. -/
theorem joinSlash_ne_nil (L : List (List Char)) (hne : L ≠ [])
    (hL : ∀ e ∈ L, e ≠ [] ∧ '/' ∉ e) : joinSlash L ≠ [] := by
  cases L with
  | nil => exact absurd rfl hne
  | cons e es =>
    obtain ⟨he, -⟩ := hL e (by simp)
    cases es with
    | nil => simpa [joinSlash] using he
    | cons e1 es1 => simp [joinSlash, he]

/-- The cleaned path names the same place as the path itself. -/
theorem keyOf_pathClean (x : String) (hx : x ≠ "") :
    pathClean x ≠ "" ∧ keyOf (pathClean x) = keyOf x := by
  have hst := cleanStack_of_path (isRooted x.data) x.data
  have hre := foldl_cleanStep_rebuild _ _ hst
  have hel : ∀ e ∈ cleanElems (isRooted x.data) x.data, e ≠ [] ∧ '/' ∉ e := by
    intro e he
    exact cleanStack_elems _ _ hst e (List.mem_reverse.1 he)
  have hkx : keyOf x = some ⟨isRooted x.data, cleanElems (isRooted x.data) x.data⟩ := by
    simp [keyOf, hx]
  rw [hkx]
  unfold pathClean
  rw [if_neg hx]
  simp only
  by_cases hnil : cleanElems (isRooted x.data) x.data = []
  · -- nothing is left: the root, or the working directory
    rw [hnil]
    cases hr : isRooted x.data with
    | true => exact ⟨by decide, by decide⟩
    | false => exact ⟨by decide, by decide⟩
  · have hsplit := splitSlash_joinSlash _ hnil (fun e he => (hel e he).2)
    have hjn := joinSlash_ne_nil _ hnil hel
    have hfold : (cleanElems (isRooted x.data) x.data).foldl (cleanStep (isRooted x.data)) []
        = (splitSlash x.data).foldl (cleanStep (isRooted x.data)) [] := by
      unfold cleanElems; exact hre
    cases hr : isRooted x.data with
    | true =>
      rw [hr] at hsplit hfold hjn
      have hne : (⟨'/' :: joinSlash (cleanElems true x.data)⟩ : String) ≠ "" :=
        fun h => by simpa using congrArg String.data h
      refine ⟨by simpa using hne, ?_⟩
      simp only [if_true]
      unfold keyOf
      rw [if_neg hne]
      have h1 : isRooted ('/' :: joinSlash (cleanElems true x.data)) = true := rfl
      have h2 : cleanElems true ('/' :: joinSlash (cleanElems true x.data))
          = cleanElems true x.data := by
        have h3 : splitSlash ('/' :: joinSlash (cleanElems true x.data))
            = [] :: cleanElems true x.data := by
          simp [splitSlash, hsplit]
        show (List.foldl (cleanStep true) []
          (splitSlash ('/' :: joinSlash (cleanElems true x.data)))).reverse = _
        rw [h3, List.foldl_cons]
        have h4 : cleanStep true [] [] = [] := rfl
        rw [h4, hfold]
        rfl
      simp only [h1, h2]
    | false =>
      rw [hr] at hsplit hfold hjn hel
      have hne : (⟨joinSlash (cleanElems false x.data)⟩ : String) ≠ "" :=
        fun h => hjn (by simpa using congrArg String.data h)
      have hroot := isRooted_joinSlash _ hel
      simp only [Bool.false_eq_true, if_false, hjn]
      refine ⟨hne, ?_⟩
      unfold keyOf
      rw [if_neg hne]
      have h2 : cleanElems false (joinSlash (cleanElems false x.data))
          = cleanElems false x.data := by
        show (List.foldl (cleanStep false) []
          (splitSlash (joinSlash (cleanElems false x.data)))).reverse = _
        rw [hsplit, hfold]
        rfl
      simp only [hroot, h2]

/-! ## C8: the cache round trip -/

/-- Go `path.Join` of a single path is `path.Clean` of it. -/
theorem pathJoin_single (p : String) : pathJoin [p] = if p = "" then "" else pathClean p := by
  by_cases hp : p = ""
  · subst hp; rfl
  · have hlen : p.length ≠ 0 := by
      intro h
      apply hp
      have : p.data = [] := List.length_eq_zero.1 h
      exact String.ext this
    simp [pathJoin, joinBuf, hp, hlen]

/-- Go `os.Stat` of the joined single path is `os.Stat` of the path. -/
theorem osStat_pathJoin_single (fs : FS) (p : String) :
    osStat fs (pathJoin [p]) = osStat fs p := by
  rw [pathJoin_single]
  by_cases hp : p = ""
  · rw [if_pos hp, hp]
  · rw [if_neg hp]
    unfold osStat
    rw [(keyOf_pathClean p hp).2]

/-- What a successful `Auth` has done: the token it installed is not empty
and has been written to the token file. -/
theorem Auth_ok {σ : Type} (E : Env σ) (v : Vault) (w : World σ)
    (h : (Auth E v w).1 = .ret none) :
    (Auth E v w).2.token ≠ ""
    ∧ writeFile w.fs (getTokenPath E v).1 (Auth E v w).2.token = (none, (Auth E v w).2.fs) := by
  unfold Auth at h ⊢
  cases h1 : (E.logicalWrite w.srv w.token (loginPath E v) (loginData v)).1.2 with
  | some err => simp [h1] at h
  | none =>
    cases h2 : E.tokenID (E.logicalWrite w.srv w.token (loginPath E v) (loginData v)).1.1 with
    | error err => simp [h1, h2] at h
    | ok token =>
      by_cases h3 : token = ""
      · simp [h1, h2, h3] at h
      · cases h4 : E.homeDir with
        | none =>
          simp only [h1, h2, h3, getTokenPath, h4, if_false] at h ⊢
          exact ⟨h3, Prod.ext (Outcome.ret.inj h) rfl⟩
        | some home =>
          simp only [h1, h2, h3, getTokenPath, h4, if_false] at h ⊢
          exact ⟨h3, Prod.ext (Outcome.ret.inj h) rfl⟩

/-- Running `loadToken` on a token file that can be read: the trimmed content becomes
the token, and nothing but the trace changes besides. -/
theorem loadToken_of_readFile {σ : Type} (E : Env σ) (v : Vault) (w : World σ) (c : String)
    (h : readFile w.fs (getTokenPath E v).1 = .ok c) :
    loadToken E v w = (.ret none,
      ⟨w.srv, stringsTrim c "\n", w.fs,
        w.trace ++ [Event.stat (getTokenPath E v).1, Event.readFile (getTokenPath E v).1]⟩) := by
  have hpath : getTokenPath E v = ((getTokenPath E v).1, none) := by
    unfold getTokenPath
    cases E.homeDir <;> rfl
  have hstat : osStat w.fs (getTokenPath E v).1 = none := by
    unfold readFile at h
    unfold osStat
    cases hk : keyOf (getTokenPath E v).1 with
    | none => simp [hk] at h
    | some k =>
      simp only [hk] at h ⊢
      cases hr : resolve w.fs k with
      | ok n => rfl
      | error e => simp [hr] at h
  unfold loadToken
  rw [hpath]
  simp only [PathExists, osStat_pathJoin_single, hstat, h, List.append_assoc,
    List.singleton_append]

/-- Trimming newlines leaves a text alone that neither begins nor ends with one. -/
theorem stringsTrim_newline_id (t : String)
    (hhead : t.data.head? ≠ some '\n') (hlast : t.data.getLast? ≠ some '\n') :
    stringsTrim t "\n" = t := by
  have hleft : ∀ l : List Char, l.head? ≠ some '\n' → trimLeftChars ['\n'] l = l := by
    intro l hl
    cases l with
    | nil => rfl
    | cons c cs =>
      have hc : c ≠ '\n' := fun h => hl (by simp [h])
      simp [trimLeftChars, hc]
  unfold stringsTrim
  have hd : ("\n" : String).data = ['\n'] := rfl
  rw [hd, hleft _ hhead, hleft _ (by rwa [List.head?_reverse]), List.reverse_reverse]

/-- C8, as stated, fails for a token that ends with a newline: `Auth`
persists the non-empty token `xyz` followed by a newline, and `loadToken` of a
fresh client on the resulting file system sets the token `xyz`. -/
theorem C8_newline_token_not_restored :
    (Auth newlineEnv stgVault stgWorld).1 = .ret none
    ∧ (Auth newlineEnv stgVault stgWorld).2.token = "xyz\n"
    ∧ (loadToken newlineEnv stgVault
        ⟨(), "", (Auth newlineEnv stgVault stgWorld).2.fs, []⟩).1 = .ret none
    ∧ (loadToken newlineEnv stgVault
        ⟨(), "", (Auth newlineEnv stgVault stgWorld).2.fs, []⟩).2.token = "xyz"
    ∧ (loadToken newlineEnv stgVault
        ⟨(), "", (Auth newlineEnv stgVault stgWorld).2.fs, []⟩).2.token
        ≠ (Auth newlineEnv stgVault stgWorld).2.token := by
  decide

/-- C8, amended: let `Auth` succeed for the host of `v`, so that it has
installed and persisted a token `t`, which is then not empty. If `t` neither
begins nor ends with a newline character, `loadToken` for the same host, run in
any state with the file system that `Auth` left, succeeds without a login and
sets the client's token to exactly `t`. -/
theorem C8_cache_round_trip {σ : Type} (E : Env σ) (v : Vault) (w w2 : World σ)
    (hauth : (Auth E v w).1 = .ret none)
    (hfs : w2.fs = (Auth E v w).2.fs)
    (hhead : (Auth E v w).2.token.data.head? ≠ some '\n')
    (hlast : (Auth E v w).2.token.data.getLast? ≠ some '\n') :
    (Auth E v w).2.token ≠ ""
    ∧ loadToken E v w2 = (.ret none,
        ⟨w2.srv, (Auth E v w).2.token, w2.fs,
          w2.trace ++ [Event.stat (getTokenPath E v).1, Event.readFile (getTokenPath E v).1]⟩) := by
  obtain ⟨hne, hw⟩ := Auth_ok E v w hauth
  refine ⟨hne, ?_⟩
  have hrd := readFile_after_writeFile _ _ _ _ hw
  rw [← hfs] at hrd
  rw [loadToken_of_readFile E v w2 _ hrd, stringsTrim_newline_id _ hhead hlast]

/-- C8 amended, on the example scenario: `Auth` persists `xyz`, and a fresh
client that loads the token for the same host holds `xyz`. -/
theorem C8_cache_round_trip_witness :
    (Auth stgEnv stgVault stgWorld).2.token ≠ ""
    ∧ loadToken stgEnv stgVault ⟨(), "", (Auth stgEnv stgVault stgWorld).2.fs, []⟩
      = (.ret none,
        ⟨(), (Auth stgEnv stgVault stgWorld).2.token, (Auth stgEnv stgVault stgWorld).2.fs,
          [] ++ [Event.stat (getTokenPath stgEnv stgVault).1,
            Event.readFile (getTokenPath stgEnv stgVault).1]⟩) :=
  C8_cache_round_trip stgEnv stgVault stgWorld
    ⟨(), "", (Auth stgEnv stgVault stgWorld).2.fs, []⟩ (by decide) rfl (by decide) (by decide)

/-! ## C9: the cache or a login, never both -/

/-- A file that can be read exists for `os.Stat`. -/
theorem osStat_of_readFile (fs : FS) (p c : String) (h : readFile fs p = .ok c) :
    osStat fs p = none := by
  unfold readFile at h
  unfold osStat
  cases hk : keyOf p with
  | none => simp [hk] at h
  | some k =>
    simp only [hk] at h ⊢
    cases hr : resolve fs k with
    | ok n => rfl
    | error e => simp [hr] at h

/-- C9: `loadToken` makes exactly one login call when `os.Stat` reports that
the token file of the host does not exist (it then is `Auth`), and no login
call otherwise; when the file exists and can be read, the token is the trimmed
content of the file; and a run never both reads the file and logs in. -/
theorem C9_cache_or_auth {σ : Type} (E : Env σ) (v : Vault) (w : World σ) :
    ∃ tr, (loadToken E v w).2.trace = w.trace ++ tr
      ∧ tr.countP Event.isLogin
          = (if osStat w.fs (getTokenPath E v).1 = some .ENOENT then 1 else 0)
      ∧ (osStat w.fs (getTokenPath E v).1 = some .ENOENT →
          loadToken E v w
            = Auth E v ⟨w.srv, w.token, w.fs, w.trace ++ [Event.stat (getTokenPath E v).1]⟩)
      ∧ (∀ c, readFile w.fs (getTokenPath E v).1 = .ok c →
          loadToken E v w = (.ret none,
            ⟨w.srv, stringsTrim c "\n", w.fs,
              w.trace ++ [Event.stat (getTokenPath E v).1,
                Event.readFile (getTokenPath E v).1]⟩))
      ∧ (Event.readFile (getTokenPath E v).1 ∈ tr → tr.countP Event.isLogin = 0) := by
  have hpath : getTokenPath E v = ((getTokenPath E v).1, none) := by
    unfold getTokenPath
    cases E.homeDir <;> rfl
  cases hs : osStat w.fs (getTokenPath E v).1 with
  | none =>
    cases hr : readFile w.fs (getTokenPath E v).1 with
    | ok c =>
      refine ⟨[Event.stat (getTokenPath E v).1, Event.readFile (getTokenPath E v).1],
        ?_, ?_, ?_, ?_, ?_⟩
      · rw [loadToken_of_readFile E v w c hr]
      · simp [List.countP_cons, Event.isLogin]
      · intro h; cases h
      · intro c1 hc1
        cases hc1
        exact loadToken_of_readFile E v w c hr
      · intro _; simp [List.countP_cons, Event.isLogin]
    | error e =>
      refine ⟨[Event.stat (getTokenPath E v).1, Event.readFile (getTokenPath E v).1],
        ?_, ?_, ?_, ?_, ?_⟩
      · unfold loadToken
        rw [hpath]
        simp only [PathExists, osStat_pathJoin_single, hs, hr, List.append_assoc,
          List.singleton_append]
      · simp [List.countP_cons, Event.isLogin]
      · intro h; cases h
      · intro c1 hc1; cases hc1
      · intro _; simp [List.countP_cons, Event.isLogin]
  | some e =>
    have hnoread : ∀ c, readFile w.fs (getTokenPath E v).1 ≠ .ok c := by
      intro c hc
      rw [osStat_of_readFile _ _ _ hc] at hs
      cases hs
    cases e with
    | ENOENT =>
      have hload : loadToken E v w
          = Auth E v ⟨w.srv, w.token, w.fs, w.trace ++ [Event.stat (getTokenPath E v).1]⟩ := by
        unfold loadToken
        rw [hpath]
        simp only [PathExists, osStat_pathJoin_single, hs]
      obtain ⟨e1, atr, hA, hatr⟩ := Auth_events E v
        ⟨w.srv, w.token, w.fs, w.trace ++ [Event.stat (getTokenPath E v).1]⟩
      refine ⟨Event.stat (getTokenPath E v).1 ::
        Event.login w.token (loginPath E v) (loginData v) e1 :: atr, ?_, ?_, ?_, ?_, ?_⟩
      · rw [hload, hA]; simp
      · rcases hatr with rfl | ⟨p, c, e2, rfl⟩ <;> simp [List.countP_cons, Event.isLogin]
      · intro _; exact hload
      · intro c hc; exact absurd hc (hnoread c)
      · intro hmem
        rcases hatr with rfl | ⟨p, c, e2, rfl⟩ <;> simp at hmem
    | ENOTDIR =>
      refine ⟨[Event.stat (getTokenPath E v).1], ?_, ?_, ?_, ?_, ?_⟩
      · unfold loadToken
        rw [hpath]
        simp only [PathExists, osStat_pathJoin_single, hs]
      · simp [List.countP_cons, Event.isLogin]
      · intro h; cases h
      · intro c hc; exact absurd hc (hnoread c)
      · intro _; simp [List.countP_cons, Event.isLogin]
    | EISDIR =>
      refine ⟨[Event.stat (getTokenPath E v).1], ?_, ?_, ?_, ?_, ?_⟩
      · unfold loadToken
        rw [hpath]
        simp only [PathExists, osStat_pathJoin_single, hs]
      · simp [List.countP_cons, Event.isLogin]
      · intro h; cases h
      · intro c hc; exact absurd hc (hnoread c)
      · intro _; simp [List.countP_cons, Event.isLogin]

/-- C9 on the example scenario: with the cached token file the token `abc`
comes from the file; without the file `loadToken` is `Auth`. -/
theorem C9_cache_or_auth_witness :
    loadToken stgEnv stgVault stgWorld = (.ret none,
        ⟨(), "abc", stgFS,
          [Event.stat "/home/alice/.config/bub/token.vault.stg",
            Event.readFile "/home/alice/.config/bub/token.vault.stg"]⟩)
    ∧ loadToken stgEnv stgVault ⟨(), "", stgFS.tail, []⟩
      = Auth stgEnv stgVault
          ⟨(), "", stgFS.tail, [Event.stat "/home/alice/.config/bub/token.vault.stg"]⟩ := by
  obtain ⟨_, -, -, -, h1, -⟩ := C9_cache_or_auth stgEnv stgVault stgWorld
  obtain ⟨_, -, -, h2, -, -⟩ := C9_cache_or_auth stgEnv stgVault ⟨(), "", stgFS.tail, []⟩
  exact ⟨h1 "abc" rfl, h2 (by decide)⟩

/-! ## C10: the token after construction -/

/-- C10: with a token file that is empty, or that holds only a newline,
`loadToken` returns a nil error and leaves the client with the empty token, and
`MustInitVault` returns the client; no login call is made. -/
theorem C10_empty_token_file_accepted :
    loadToken stgEnv stgVault ⟨(), "", emptyTokenFS, []⟩ = (.ret none,
        ⟨(), "", emptyTokenFS,
          [Event.stat "/home/alice/.config/bub/token.vault.stg",
            Event.readFile "/home/alice/.config/bub/token.vault.stg"]⟩)
    ∧ loadToken stgEnv stgVault ⟨(), "", blankTokenFS, []⟩ = (.ret none,
        ⟨(), "", blankTokenFS,
          [Event.stat "/home/alice/.config/bub/token.vault.stg",
            Event.readFile "/home/alice/.config/bub/token.vault.stg"]⟩)
    ∧ MustInitVault stgStartup stgEnv ⟨"", "", ""⟩ "vault.stg" ⟨(), "", emptyTokenFS, []⟩
      = (.ret stgVault,
        ⟨(), "", emptyTokenFS,
          [Event.stat "/home/alice/.config/bub/token.vault.stg",
            Event.readFile "/home/alice/.config/bub/token.vault.stg"]⟩) := by
  decide

/-! ## C11: no empty token is installed or persisted -/

/-- C11: when the login call succeeds and yields the empty token, `Auth`
returns a non-nil error and changes neither the client's token nor the file
system. In every run of `Auth`, each write of a file has non-empty content, the
token is either left as it was or set to a non-empty one, and the file system
is either left as it was or extended by one file with non-empty content. -/
theorem C11_no_empty_token {σ : Type} (E : Env σ) (v : Vault) (w : World σ) :
    ((E.logicalWrite w.srv w.token (loginPath E v) (loginData v)).1.2 = none →
      E.tokenID (E.logicalWrite w.srv w.token (loginPath E v) (loginData v)).1.1 = .ok "" →
      Auth E v w = (.ret (some "failed to get authenticated and get Vault token"),
        ⟨(E.logicalWrite w.srv w.token (loginPath E v) (loginData v)).2, w.token, w.fs,
          w.trace ++ [Event.login w.token (loginPath E v) (loginData v) none]⟩))
    ∧ (∃ tr, (Auth E v w).2.trace = w.trace ++ tr
        ∧ ∀ p c e, Event.writeFile p c e ∈ tr → c ≠ "")
    ∧ ((Auth E v w).2.token = w.token ∨ (Auth E v w).2.token ≠ "")
    ∧ ((Auth E v w).2.fs = w.fs
        ∨ ∃ k c, c ≠ "" ∧ (Auth E v w).2.fs = (k, .file c) :: w.fs) := by
  refine ⟨?_, ?_⟩
  · intro h1 h2
    simp [Auth, h1, h2]
  · unfold Auth
    cases h1 : (E.logicalWrite w.srv w.token (loginPath E v) (loginData v)).1.2 with
    | some err =>
      exact ⟨⟨[Event.login w.token (loginPath E v) (loginData v) (some err)],
        by simp [h1], by simp⟩, Or.inl (by simp [h1]), Or.inl (by simp [h1])⟩
    | none =>
      cases h2 : E.tokenID (E.logicalWrite w.srv w.token (loginPath E v) (loginData v)).1.1 with
      | error err =>
        exact ⟨⟨[Event.login w.token (loginPath E v) (loginData v) none],
          by simp [h1, h2], by simp⟩, Or.inl (by simp [h1, h2]), Or.inl (by simp [h1, h2])⟩
      | ok token =>
        by_cases h3 : token = ""
        · exact ⟨⟨[Event.login w.token (loginPath E v) (loginData v) none],
            by simp [h1, h2, h3], by simp⟩, Or.inl (by simp [h1, h2, h3]),
            Or.inl (by simp [h1, h2, h3])⟩
        · have hpath : getTokenPath E v = ((getTokenPath E v).1, none) := by
            unfold getTokenPath
            cases E.homeDir <;> rfl
          rw [hpath]
          simp only [h1, h2, h3, if_false]
          refine ⟨⟨[Event.login w.token (loginPath E v) (loginData v) none,
              Event.writeFile (getTokenPath E v).1 token
                (writeFile w.fs (getTokenPath E v).1 token).1], by simp, ?_⟩,
            Or.inr h3, ?_⟩
          · intro p c e hmem
            simp at hmem
            rw [hmem.2.1]; exact h3
          · cases hw : writeFile w.fs (getTokenPath E v).1 token with
            | mk werr fs1 =>
              cases werr with
              | none =>
                obtain ⟨k, -, hfs, -, -⟩ := writeFile_ok _ _ _ _ hw
                exact Or.inr ⟨k, token, h3, hfs⟩
              | some e =>
                left
                unfold writeFile at hw
                cases hk : keyOf (getTokenPath E v).1 with
                | none => simp [hk] at hw; exact hw.2.symm
                | some k =>
                  simp only [hk] at hw
                  split at hw <;> first
                    | (simp at hw; done)
                    | (simp at hw; exact hw.2.symm)
                    | (split at hw <;> first
                        | (simp at hw; done)
                        | (simp at hw; exact hw.2.symm))

/-- C11 on a login that answers with an empty response: `Auth` returns the
error and the token `abc` and the file system stay. -/
theorem C11_no_empty_token_witness :
    Auth emptyLoginEnv stgVault stgWorld
      = (.ret (some "failed to get authenticated and get Vault token"),
        ⟨(), "abc", stgFS,
          [] ++ [Event.login "abc" "auth/okta/login/alice" [("password", "p")] none]⟩) :=
  (C11_no_empty_token emptyLoginEnv stgVault stgWorld).1 rfl rfl

/-! ## C12: a token file that cannot be read -/

/-- C12, as stated, fails: with a token path that exists and cannot be read
(here it is a directory), `loadToken` returns the read error and makes no
login call, and `MustInitVault` ends the process. -/
theorem C12_read_error_returned :
    loadToken stgEnv stgVault ⟨(), "", dirTokenFS, []⟩
      = (.ret (some "read /home/alice/.config/bub/token.vault.stg: is a directory"),
        ⟨(), "", dirTokenFS,
          [Event.stat "/home/alice/.config/bub/token.vault.stg",
            Event.readFile "/home/alice/.config/bub/token.vault.stg"]⟩)
    ∧ (loadToken stgEnv stgVault ⟨(), "", dirTokenFS, []⟩).2.trace.countP Event.isLogin = 0
    ∧ (MustInitVault stgStartup stgEnv ⟨"", "", ""⟩ "vault.stg" ⟨(), "", dirTokenFS, []⟩).1
      = .fatal
        "Failed to load token: read /home/alice/.config/bub/token.vault.stg: is a directory" := by
  decide

/-- C12, amended: if the token file exists (`os.Stat` succeeds) and reading
it fails with `e`, `loadToken` returns `e` after the stat and the read, with no
login call and the token, the server and the file system unchanged; and
`MustInitVault`, once the credentials and the client are there, ends the
process with `Failed to load token`. -/
theorem C12_read_failure_is_fatal {σ : Type} (E : Env σ) (v : Vault) (w : World σ)
    (e : GoError)
    (hstat : osStat w.fs (getTokenPath E v).1 = none)
    (hread : readFile w.fs (getTokenPath E v).1 = .error e) :
    loadToken E v w = (.ret (some e),
        ⟨w.srv, w.token, w.fs,
          w.trace ++ [Event.stat (getTokenPath E v).1, Event.readFile (getTokenPath E v).1]⟩)
    ∧ ∀ (S : Startup) (cfg : VaultConfig) (remoteHost : String),
        mustLoadVaultCredentials S cfg = .ret v.cfg → S.newClient = none →
        v.tokenName = "token." ++ remoteHost →
        MustInitVault S E cfg remoteHost w = (.fatal ("Failed to load token: " ++ e),
          ⟨w.srv, w.token, w.fs,
            w.trace ++ [Event.stat (getTokenPath E v).1,
              Event.readFile (getTokenPath E v).1]⟩) := by
  have hpath : getTokenPath E v = ((getTokenPath E v).1, none) := by
    unfold getTokenPath
    cases E.homeDir <;> rfl
  have hload : loadToken E v w = (.ret (some e),
        ⟨w.srv, w.token, w.fs,
          w.trace ++ [Event.stat (getTokenPath E v).1,
            Event.readFile (getTokenPath E v).1]⟩) := by
    unfold loadToken
    rw [hpath]
    simp only [PathExists, osStat_pathJoin_single, hstat, hread, List.append_assoc,
      List.singleton_append]
  refine ⟨hload, ?_⟩
  intro S cfg remoteHost hcred hclient hname
  have hv : ({ cfg := v.cfg, tokenName := "token." ++ remoteHost } : Vault) = v := by
    rw [← hname]
  unfold MustInitVault
  simp only [hcred, hclient, hv, hload]

/-- C12 amended, on the token path that is a directory. -/
theorem C12_read_failure_is_fatal_witness :
    loadToken stgEnv stgVault ⟨(), "", dirTokenFS, []⟩
      = (.ret (some "read /home/alice/.config/bub/token.vault.stg: is a directory"),
        ⟨(), "", dirTokenFS,
          [] ++ [Event.stat (getTokenPath stgEnv stgVault).1,
            Event.readFile (getTokenPath stgEnv stgVault).1]⟩)
    ∧ MustInitVault stgStartup stgEnv ⟨"", "", ""⟩ "vault.stg" ⟨(), "", dirTokenFS, []⟩
      = (.fatal ("Failed to load token: "
            ++ "read /home/alice/.config/bub/token.vault.stg: is a directory"),
        ⟨(), "", dirTokenFS,
          [] ++ [Event.stat (getTokenPath stgEnv stgVault).1,
            Event.readFile (getTokenPath stgEnv stgVault).1]⟩) :=
  ⟨(C12_read_failure_is_fatal stgEnv stgVault ⟨(), "", dirTokenFS, []⟩
      "read /home/alice/.config/bub/token.vault.stg: is a directory" (by decide) rfl).1,
   (C12_read_failure_is_fatal stgEnv stgVault ⟨(), "", dirTokenFS, []⟩
      "read /home/alice/.config/bub/token.vault.stg: is a directory" (by decide) rfl).2
      stgStartup ⟨"", "", ""⟩ "vault.stg" rfl rfl rfl⟩

/-! ## C13: the token file cannot be written during a re-authentication -/

/-- A `WriteFile` that fails leaves the file system as it was. -/
theorem writeFile_error_fs (fs : FS) (p c : String) (h : (writeFile fs p c).1 ≠ none) :
    (writeFile fs p c).2 = fs := by
  unfold writeFile at h ⊢
  cases hk : keyOf p with
  | none => rfl
  | some k =>
    simp only [hk] at h ⊢
    cases hr : resolve fs k with
    | ok n =>
      cases n with
      | file c0 => simp [hr] at h
      | readOnly c0 => rfl
      | dir => rfl
    | error e =>
      cases e with
      | ENOENT =>
        simp only [hr] at h ⊢
        cases hp : resolve fs k.parent with
        | ok n =>
          cases n with
          | file c0 => rfl
          | readOnly c0 => rfl
          | dir => simp [hp] at h
        | error e1 => rfl
      | ENOTDIR => rfl
      | EISDIR => rfl

/-- What `Auth` does when the login yields the non-empty token `t` and the
write of the token file fails: the token is installed, the error of the write
is returned and the file system is unchanged. -/
theorem Auth_write_fails {σ : Type} (E : Env σ) (v : Vault) (w : World σ) (t e : String)
    (h3 : (E.logicalWrite w.srv w.token (loginPath E v) (loginData v)).1.2 = none)
    (htok : E.tokenID (E.logicalWrite w.srv w.token (loginPath E v) (loginData v)).1.1
      = .ok t)
    (hne : t ≠ "")
    (hw : (writeFile w.fs (getTokenPath E v).1 t).1 = some e) :
    Auth E v w = (.ret (some e),
      ⟨(E.logicalWrite w.srv w.token (loginPath E v) (loginData v)).2, t, w.fs,
        w.trace ++ [Event.login w.token (loginPath E v) (loginData v) none,
          Event.writeFile (getTokenPath E v).1 t (some e)]⟩) := by
  have hpath : getTokenPath E v = ((getTokenPath E v).1, none) := by
    unfold getTokenPath
    cases E.homeDir <;> rfl
  have hfs := writeFile_error_fs w.fs (getTokenPath E v).1 t (by rw [hw]; simp)
  unfold Auth
  simp only [h3, htok, hne, if_false]
  rw [hpath]
  simp only [hw, hfs, List.append_assoc, List.singleton_append]

/-- C13: let a call of `read` (of `write`) with `retries >= 0` fail, the
self-lookup be denied with a 403, the login yield the non-empty token `t`, and
the write of the token file fail with `e`. Then the operation returns a nil
secret and the error `e`; its external calls are the call, the probe, the login
and the failed write, so the call is not issued again; and the client's token
is `t`. -/
theorem C13_write_failure_ends_operation {σ : Type} (E : Env σ) (v : Vault)
    (path : String) (data : Payload) (retries : Int) (w : World σ) (e2 t e : String)
    (hr : 0 ≤ retries) (h403 : stringsContains e2 "Code: 403." = true) (hne : t ≠ "")
    (hw : (writeFile w.fs (getTokenPath E v).1 t).1 = some e) :
    ((E.logicalRead w.srv w.token path).1.2 ≠ none →
      (E.lookupSelf (E.logicalRead w.srv w.token path).2 w.token).1 = some e2 →
      (E.logicalWrite (E.lookupSelf (E.logicalRead w.srv w.token path).2 w.token).2
          w.token (loginPath E v) (loginData v)).1.2 = none →
      E.tokenID (E.logicalWrite (E.lookupSelf (E.logicalRead w.srv w.token path).2 w.token).2
          w.token (loginPath E v) (loginData v)).1.1 = .ok t →
      read E v path retries w = (.ret (none, some e),
        ⟨(E.logicalWrite (E.lookupSelf (E.logicalRead w.srv w.token path).2 w.token).2
            w.token (loginPath E v) (loginData v)).2, t, w.fs,
          w.trace ++ [Event.read w.token path (E.logicalRead w.srv w.token path).1.2,
            Event.lookupSelf w.token (some e2),
            Event.login w.token (loginPath E v) (loginData v) none,
            Event.writeFile (getTokenPath E v).1 t (some e)]⟩))
    ∧ ((E.logicalWrite w.srv w.token path data).1.2 ≠ none →
      (E.lookupSelf (E.logicalWrite w.srv w.token path data).2 w.token).1 = some e2 →
      (E.logicalWrite (E.lookupSelf (E.logicalWrite w.srv w.token path data).2 w.token).2
          w.token (loginPath E v) (loginData v)).1.2 = none →
      E.tokenID (E.logicalWrite
          (E.lookupSelf (E.logicalWrite w.srv w.token path data).2 w.token).2
          w.token (loginPath E v) (loginData v)).1.1 = .ok t →
      write E v path data retries w = (.ret (none, some e),
        ⟨(E.logicalWrite (E.lookupSelf (E.logicalWrite w.srv w.token path data).2 w.token).2
            w.token (loginPath E v) (loginData v)).2, t, w.fs,
          w.trace ++ [Event.write w.token path data (E.logicalWrite w.srv w.token path data).1.2,
            Event.lookupSelf w.token (some e2),
            Event.login w.token (loginPath E v) (loginData v) none,
            Event.writeFile (getTokenPath E v).1 t (some e)]⟩)) := by
  constructor
  · intro h1 h2 h3 htok
    have hA := Auth_write_fails E v
      ⟨(E.lookupSelf (E.logicalRead w.srv w.token path).2 w.token).2, w.token, w.fs,
        w.trace ++ [Event.read w.token path (E.logicalRead w.srv w.token path).1.2,
          Event.lookupSelf w.token (some e2)]⟩ t e h3 htok hne hw
    rw [read]
    simp only [h1, hr, maybeReAuth, h2, h403, ne_eq, not_false_eq_true, and_self, dite_true,
      ge_iff_le, if_true, List.append_assoc, List.singleton_append, List.cons_append,
      List.nil_append] at hA ⊢
    rw [hA]
  · intro h1 h2 h3 htok
    have hA := Auth_write_fails E v
      ⟨(E.lookupSelf (E.logicalWrite w.srv w.token path data).2 w.token).2, w.token, w.fs,
        w.trace ++ [Event.write w.token path data (E.logicalWrite w.srv w.token path data).1.2,
          Event.lookupSelf w.token (some e2)]⟩ t e h3 htok hne hw
    rw [write]
    simp only [h1, hr, maybeReAuth, h2, h403, ne_eq, not_false_eq_true, and_self, dite_true,
      ge_iff_le, if_true, List.append_assoc, List.singleton_append, List.cons_append,
      List.nil_append] at hA ⊢
    rw [hA]

/-- C13 on the example scenario without the configuration directory: the
write of the token file fails, `Read` and `Write` return that error after one
call, and the client holds `xyz`. -/
theorem C13_write_failure_ends_operation_witness :
    Read stgEnv stgVault "secret/db" ⟨(), "abc", [], []⟩ = (.ret (none,
        some "open /home/alice/.config/bub/token.vault.stg: no such file or directory"),
      ⟨(), "xyz", [],
        [] ++ [Event.read "abc" "secret/db" (some denial),
          Event.lookupSelf "abc" (some denial),
          Event.login "abc" "auth/okta/login/alice" [("password", "p")] none,
          Event.writeFile "/home/alice/.config/bub/token.vault.stg" "xyz"
            (some "open /home/alice/.config/bub/token.vault.stg: no such file or directory")]⟩)
    ∧ Write stgEnv stgVault "secret/db" [("k", "v")] ⟨(), "abc", [], []⟩ = (.ret (none,
        some "open /home/alice/.config/bub/token.vault.stg: no such file or directory"),
      ⟨(), "xyz", [],
        [] ++ [Event.write "abc" "secret/db" [("k", "v")] (some denial),
          Event.lookupSelf "abc" (some denial),
          Event.login "abc" "auth/okta/login/alice" [("password", "p")] none,
          Event.writeFile "/home/alice/.config/bub/token.vault.stg" "xyz"
            (some "open /home/alice/.config/bub/token.vault.stg: no such file or directory")]⟩) :=
  ⟨(C13_write_failure_ends_operation stgEnv stgVault "secret/db" [("k", "v")] 2
      ⟨(), "abc", [], []⟩ denial "xyz"
      "open /home/alice/.config/bub/token.vault.stg: no such file or directory"
      (by decide) (by decide) (by decide) rfl).1 (by decide) rfl rfl rfl,
   (C13_write_failure_ends_operation stgEnv stgVault "secret/db" [("k", "v")] 2
      ⟨(), "abc", [], []⟩ denial "xyz"
      "open /home/alice/.config/bub/token.vault.stg: no such file or directory"
      (by decide) (by decide) (by decide) rfl).2 (by decide) rfl rfl rfl⟩

/-! ## The key of the token path -/

/-- Splitting distributes over a slash. -/
theorem splitSlash_append (x y : List Char) :
    splitSlash (x ++ '/' :: y) = splitSlash x ++ splitSlash y := by
  induction x with
  | nil => simp [splitSlash]
  | cons c cs ih =>
    show splitSlash (c :: (cs ++ '/' :: y)) = splitSlash (c :: cs) ++ splitSlash y
    by_cases hc : c = '/'
    · simp only [splitSlash, hc, if_true, ih, List.cons_append]
    · simp only [splitSlash, hc, if_false, ih]
      cases hs : splitSlash cs with
      | nil => exact absurd hs (splitSlash_ne_nil cs)
      | cons a as => simp

/-- The join loop over a list that is continued. -/
theorem joinBuf_append (buf : List Char) (es fs : List String) :
    joinBuf buf (es ++ fs) = joinBuf (joinBuf buf es) fs := by
  induction es generalizing buf with
  | nil => rfl
  | cons e es ih =>
    simp only [List.cons_append, joinBuf]
    split <;> exact ih _

/-- The configuration directory string is not empty. -/
theorem configDirBuf_ne_nil (home : String) : configDirBuf home ≠ [] := by
  unfold configDirBuf
  by_cases hh : home = ""
  · subst hh; decide
  · have hd : home.data ≠ [] := fun h => hh (String.ext h)
    simp [joinBuf, hh, hd]

/-- The string that `path.Join` builds for the token path is the
configuration directory, a slash and the token name. -/
theorem joinBuf_tokenPath (home tn : String) :
    joinBuf [] [home, ".config", "bub", tn] = configDirBuf home ++ '/' :: tn.data := by
  have h := joinBuf_append [] [home, ".config", "bub"] [tn]
  simp only [List.cons_append, List.nil_append] at h
  have hne := configDirBuf_ne_nil home
  have hs : joinBuf (configDirBuf home) [tn] = configDirBuf home ++ '/' :: tn.data := by
    simp [joinBuf, hne]
  rw [h]
  exact hs

/-- Whether a string is rooted is decided by a non-empty start of it. -/
theorem isRooted_append (x y : List Char) (hx : x ≠ []) : isRooted (x ++ y) = isRooted x := by
  cases x with
  | nil => exact absurd rfl hx
  | cons c cs =>
    simp only [List.cons_append, isRooted]
    split <;> split <;> simp_all

/-- An ordinary last element stays the last element of the cleaned path. -/
theorem cleanElems_append_plain (r : Bool) (x e : List Char)
    (h1 : e ≠ []) (h2 : e ≠ ['.']) (h3 : e ≠ ['.', '.']) (h4 : '/' ∉ e) :
    cleanElems r (x ++ '/' :: e) = cleanElems r x ++ [e] := by
  unfold cleanElems
  rw [splitSlash_append, splitSlash_single e h4, List.foldl_append]
  simp [cleanStep, h1, h2, h3]

/-- The text `token.` followed by a host name without a slash is an ordinary
path element. -/
theorem tokenName_plain (host : String) (hs : '/' ∉ host.data) :
    ("token." ++ host).data ≠ [] ∧ ("token." ++ host).data ≠ ['.']
      ∧ ("token." ++ host).data ≠ ['.', '.'] ∧ '/' ∉ ("token." ++ host).data := by
  have hd : ("token." ++ host).data = 't' :: 'o' :: 'k' :: 'e' :: 'n' :: '.' :: host.data := by
    rw [String.data_append]; rfl
  rw [hd]
  refine ⟨by simp, by simp, by simp, ?_⟩
  intro hmem
  simp at hmem
  exact hs hmem

/-- The place of the token path: the place of the configuration directory,
extended by the token name, when that is an ordinary path element. -/
theorem keyOf_tokenPath (home tn : String)
    (h1 : tn.data ≠ []) (h2 : tn.data ≠ ['.']) (h3 : tn.data ≠ ['.', '.'])
    (h4 : '/' ∉ tn.data) :
    keyOf (pathJoin [home, ".config", "bub", tn])
      = some ⟨isRooted (configDirBuf home),
          cleanElems (isRooted (configDirBuf home)) (configDirBuf home) ++ [tn.data]⟩ := by
  have hne := configDirBuf_ne_nil home
  have hq : (⟨joinBuf [] [home, ".config", "bub", tn]⟩ : String) ≠ "" := by
    rw [joinBuf_tokenPath]
    intro h
    have := congrArg String.data h
    simp at this
  have hsum : ¬ ((List.map String.length [home, ".config", "bub", tn]).sum = 0) := by
    have h7 : (".config" : String).length = 7 := by decide
    simp only [List.map, List.sum_cons, List.sum_nil, h7]
    omega
  unfold pathJoin
  rw [if_neg hsum, (keyOf_pathClean _ hq).2]
  unfold keyOf
  rw [if_neg hq]
  simp only [joinBuf_tokenPath, isRooted_append _ _ hne,
    cleanElems_append_plain _ _ _ h1 h2 h3 h4]

/-- The place of the configuration directory. -/
theorem keyOf_configDir (home : String) :
    keyOf (pathJoin [home, ".config", "bub"])
      = some ⟨isRooted (configDirBuf home),
          cleanElems (isRooted (configDirBuf home)) (configDirBuf home)⟩ := by
  have hne := configDirBuf_ne_nil home
  have hq : (⟨joinBuf [] [home, ".config", "bub"]⟩ : String) ≠ "" := by
    intro h
    exact hne (congrArg String.data h)
  have hsum : ¬ ((List.map String.length [home, ".config", "bub"]).sum = 0) := by
    have h7 : (".config" : String).length = 7 := by decide
    simp only [List.map, List.sum_cons, List.sum_nil, h7]
    omega
  unfold pathJoin
  rw [if_neg hsum, (keyOf_pathClean _ hq).2]
  unfold keyOf
  rw [if_neg hq]
  rfl

/-! ## C14: one cache path per host -/

/-- C14, as stated, fails: the distinct remote host names `vault.stg` and
`vault.stg/` (from the domains `stg` and `stg/`) get the same cache path,
because `path.Join` cleans the path. -/
theorem C14_distinct_hosts_share_path :
    (GetVaultTunnelConfiguration 0 "stg").remoteHost = "vault.stg"
    ∧ (GetVaultTunnelConfiguration 0 "stg/").remoteHost = "vault.stg/"
    ∧ ("vault.stg" : String) ≠ "vault.stg/"
    ∧ (getTokenPath stgEnv ⟨"token." ++ "vault.stg", stgVault.cfg⟩).1
      = (getTokenPath stgEnv ⟨"token." ++ "vault.stg/", stgVault.cfg⟩).1 := by
  decide

/-- C14, amended: the client that `MustInitVault` returns has the token name
`token.` followed by the remote host name; and when the home directory is
known, the cache paths that `getTokenPath` computes for two distinct remote
host names without a slash are distinct. -/
theorem C14_cache_path_per_host {σ : Type} (S : Startup) (E : Env σ) (cfg : VaultConfig)
    (remoteHost : String) (w : World σ) :
    (∀ v w1, MustInitVault S E cfg remoteHost w = (.ret v, w1) →
      v.tokenName = "token." ++ remoteHost)
    ∧ (∀ (home h1 h2 : String) (c1 c2 : VaultConfig), E.homeDir = some home →
        '/' ∉ h1.data → '/' ∉ h2.data → h1 ≠ h2 →
        (getTokenPath E ⟨"token." ++ h1, c1⟩).1 ≠ (getTokenPath E ⟨"token." ++ h2, c2⟩).1) := by
  constructor
  · intro v w1 h
    unfold MustInitVault at h
    cases hc : mustLoadVaultCredentials S cfg with
    | fatal msg => simp [hc] at h
    | ret cfg1 =>
      simp only [hc] at h
      cases hn : S.newClient with
      | some err => simp [hn] at h
      | none =>
        simp only [hn] at h
        rcases hl : loadToken E ⟨"token." ++ remoteHost, cfg1⟩ w with ⟨o, w2⟩
        rw [hl] at h
        rcases o with (_ | err) | msg
        · simp only [Prod.mk.injEq, Outcome.ret.injEq] at h
          rw [← h.1]
        · simp at h
        · simp at h
  · intro home h1 h2 c1 c2 hh hs1 hs2 hne heq
    obtain ⟨a1, a2, a3, a4⟩ := tokenName_plain h1 hs1
    obtain ⟨b1, b2, b3, b4⟩ := tokenName_plain h2 hs2
    have k1 := keyOf_tokenPath home ("token." ++ h1) a1 a2 a3 a4
    have k2 := keyOf_tokenPath home ("token." ++ h2) b1 b2 b3 b4
    simp only [getTokenPath, hh] at heq
    rw [heq, k2] at k1
    have hk := Option.some.inj k1
    have hel := congrArg Key.elems hk
    simp only [List.append_cancel_left_eq, List.cons.injEq, and_true] at hel
    rw [String.data_append, String.data_append] at hel
    have hd : h2.data = h1.data := List.append_cancel_left hel
    exact hne (String.ext hd.symm)

/-- C14 amended, on the hosts `vault.stg` and `vault.prd` of the user `alice`. -/
theorem C14_cache_path_per_host_witness :
    (∀ v w1, MustInitVault stgStartup stgEnv ⟨"", "", ""⟩ "vault.stg" stgWorld = (.ret v, w1) →
      v.tokenName = "token." ++ "vault.stg")
    ∧ (getTokenPath stgEnv ⟨"token." ++ "vault.stg", stgVault.cfg⟩).1
        ≠ (getTokenPath stgEnv ⟨"token." ++ "vault.prd", stgVault.cfg⟩).1 :=
  ⟨(C14_cache_path_per_host stgStartup stgEnv ⟨"", "", ""⟩ "vault.stg" stgWorld).1,
   (C14_cache_path_per_host stgStartup stgEnv ⟨"", "", ""⟩ "vault.stg" stgWorld).2
      "/home/alice" "vault.stg" "vault.prd" stgVault.cfg stgVault.cfg rfl
      (by decide) (by decide) (by decide)⟩

/-! ## C15: one retry procedure for `read` and `write` -/

/-- From similar states `Auth` returns the same and leaves similar states. -/
theorem Auth_sim {σ : Type} (E : Env σ) (v : Vault) (w1 w2 : World σ) (h : w1.Sim w2) :
    (Auth E v w1).1 = (Auth E v w2).1 ∧ (Auth E v w1).2.Sim (Auth E v w2).2 := by
  obtain ⟨s1, t1, f1, tr1⟩ := w1
  obtain ⟨s2, t2, f2, tr2⟩ := w2
  obtain ⟨hs, ht, hf, htr⟩ := h
  simp only at hs ht hf htr
  subst hs ht hf
  have hpath : getTokenPath E v = ((getTokenPath E v).1, none) := by
    unfold getTokenPath
    cases E.homeDir <;> rfl
  unfold Auth
  rw [hpath]
  cases h1 : (E.logicalWrite s1 t1 (loginPath E v) (loginData v)).1.2 with
  | some err => simp [h1, World.Sim, htr, Event.shape]
  | none =>
    cases h2 : E.tokenID (E.logicalWrite s1 t1 (loginPath E v) (loginData v)).1.1 with
    | error err => simp [h1, h2, World.Sim, htr, Event.shape]
    | ok token =>
      by_cases h3 : token = ""
      · simp [h1, h2, h3, World.Sim, htr, Event.shape]
      · simp [h1, h2, h3, World.Sim, htr, Event.shape]

/-- From similar states `maybeReAuth` returns the same and leaves similar
states. -/
theorem maybeReAuth_sim {σ : Type} (E : Env σ) (v : Vault) (w1 w2 : World σ)
    (h : w1.Sim w2) :
    (maybeReAuth E v w1).1 = (maybeReAuth E v w2).1
      ∧ (maybeReAuth E v w1).2.Sim (maybeReAuth E v w2).2 := by
  obtain ⟨s1, t1, f1, tr1⟩ := w1
  obtain ⟨s2, t2, f2, tr2⟩ := w2
  obtain ⟨hs, ht, hf, htr⟩ := h
  simp only at hs ht hf htr
  subst hs ht hf
  unfold maybeReAuth
  simp only
  cases hr : (E.lookupSelf s1 t1).1 with
  | none => simp [World.Sim, htr, Event.shape]
  | some err =>
    have hsim : World.Sim
        (⟨(E.lookupSelf s1 t1).2, t1, f1, tr1 ++ [Event.lookupSelf t1 (some err)]⟩ : World σ)
        ⟨(E.lookupSelf s1 t1).2, t1, f1, tr2 ++ [Event.lookupSelf t1 (some err)]⟩ := by
      simp [World.Sim, htr, Event.shape]
    by_cases h403 : stringsContains err "Code: 403." = true
    · simp only [h403, if_true]
      exact Auth_sim E v _ _ hsim
    · simp only [h403]
      exact ⟨rfl, hsim⟩

/-- The retry loop over the same underlying call, recorded under two tags of
the same shape: from similar states both runs return the same and end in
similar states. -/
theorem retryLoop_sim {σ : Type} (E : Env σ) (v : Vault)
    (call : σ → String → (Option Secret × Option GoError) × σ)
    (tag1 tag2 : String → Option GoError → Event)
    (htag : ∀ t e, (tag1 t e).shape = (tag2 t e).shape) :
    ∀ (k : Nat) (w1 w2 : World σ), w1.Sim w2 →
      (retryLoop E v call tag1 k w1).1 = (retryLoop E v call tag2 k w2).1
        ∧ (retryLoop E v call tag1 k w1).2.Sim (retryLoop E v call tag2 k w2).2 := by
  intro k
  induction k with
  | zero =>
    intro w1 w2 h
    obtain ⟨hs, ht, hf, htr⟩ := h
    simp [retryLoop, World.Sim, hs, ht, hf, htr, htag]
  | succ k ih =>
    intro w1 w2 h
    obtain ⟨s1, t1, f1, tr1⟩ := w1
    obtain ⟨s2, t2, f2, tr2⟩ := w2
    obtain ⟨hs, ht, hf, htr⟩ := h
    simp only at hs ht hf htr
    subst hs ht hf
    have hsim : World.Sim
        (⟨(call s1 t1).2, t1, f1, tr1 ++ [tag1 t1 (call s1 t1).1.2]⟩ : World σ)
        ⟨(call s1 t1).2, t1, f1, tr2 ++ [tag2 t1 (call s1 t1).1.2]⟩ := by
      simp [World.Sim, htr, htag]
    simp only [retryLoop]
    by_cases hcall : (call s1 t1).1.2 = none
    · simp only [hcall, ne_eq, not_true_eq_false, if_false]
      rw [hcall] at hsim
      exact ⟨trivial, hsim⟩
    · simp only [hcall, ne_eq, not_false_eq_true, if_true]
      obtain ⟨hm1, hm2⟩ := maybeReAuth_sim E v _ _ hsim
      rcases ha : maybeReAuth E v
        ⟨(call s1 t1).2, t1, f1, tr1 ++ [tag1 t1 (call s1 t1).1.2]⟩ with ⟨o1, x1⟩
      rcases hb : maybeReAuth E v
        ⟨(call s1 t1).2, t1, f1, tr2 ++ [tag2 t1 (call s1 t1).1.2]⟩ with ⟨o2, x2⟩
      rw [ha, hb] at hm1 hm2
      simp only at hm1 hm2
      subst hm1
      rcases o1 with (_ | err) | msg
      · exact ih x1 x2 hm2
      · exact ⟨rfl, hm2⟩
      · exact ⟨rfl, hm2⟩

/-- The shape of an event keeps what kind of step it is. -/
theorem shape_kinds :
    (Event.isCall ∘ Event.shape = Event.isCall)
    ∧ (Event.isLookup ∘ Event.shape = Event.isLookup)
    ∧ (Event.isLogin ∘ Event.shape = Event.isLogin) := by
  refine ⟨?_, ?_, ?_⟩ <;> funext ev <;> cases ev <;> rfl

/-- Traces of the same shape hold the same number of calls, probes and logins. -/
theorem counts_of_shape (l1 l2 : List Event) (h : l1.map Event.shape = l2.map Event.shape) :
    l1.countP Event.isCall = l2.countP Event.isCall
    ∧ l1.countP Event.isLookup = l2.countP Event.isLookup
    ∧ l1.countP Event.isLogin = l2.countP Event.isLogin := by
  have hc := congrArg (List.countP Event.isCall) h
  have hl := congrArg (List.countP Event.isLookup) h
  have hg := congrArg (List.countP Event.isLogin) h
  rw [List.countP_map, List.countP_map, shape_kinds.1] at hc
  rw [List.countP_map, List.countP_map, shape_kinds.2.1] at hl
  rw [List.countP_map, List.countP_map, shape_kinds.2.2] at hg
  exact ⟨hc, hl, hg⟩

/-- C15: `read` and `write` are the one retry loop `retryLoop`, over the call
`Logical().Read(path)` and over the call `Logical().Write(path, data)`. When
these two calls answer alike in every server state and for every token, then
for every counter `read` and `write` return the same result, leave the same
server state, token and file system, and make the same sequence of external
calls up to the kind of the underlying call; so they make the same number of
attempts, probes and logins. -/
theorem C15_one_retry_procedure {σ : Type} (E : Env σ) (v : Vault) (path : String)
    (data : Payload) (w : World σ) :
    (∀ n : Int,
      read E v path n w = retryLoop E v (fun s t => E.logicalRead s t path)
          (fun t e => Event.read t path e) (n + 1).toNat w
      ∧ write E v path data n w = retryLoop E v (fun s t => E.logicalWrite s t path data)
          (fun t e => Event.write t path data e) (n + 1).toNat w)
    ∧ ((∀ s t, E.logicalRead s t path = E.logicalWrite s t path data) → ∀ n : Int,
      (read E v path n w).1 = (write E v path data n w).1
      ∧ (read E v path n w).2.srv = (write E v path data n w).2.srv
      ∧ (read E v path n w).2.token = (write E v path data n w).2.token
      ∧ (read E v path n w).2.fs = (write E v path data n w).2.fs
      ∧ (read E v path n w).2.trace.map Event.shape
          = (write E v path data n w).2.trace.map Event.shape
      ∧ (read E v path n w).2.trace.countP Event.isCall
          = (write E v path data n w).2.trace.countP Event.isCall
      ∧ (read E v path n w).2.trace.countP Event.isLookup
          = (write E v path data n w).2.trace.countP Event.isLookup
      ∧ (read E v path n w).2.trace.countP Event.isLogin
          = (write E v path data n w).2.trace.countP Event.isLogin) := by
  constructor
  · intro n
    exact ⟨read_eq_retryLoop E v path _ n w rfl, write_eq_retryLoop E v path data _ n w rfl⟩
  · intro hsame n
    have hfun : (fun s t => E.logicalRead s t path)
        = (fun s t => E.logicalWrite s t path data) := by
      funext s t; exact hsame s t
    rw [read_eq_retryLoop E v path _ n w rfl, write_eq_retryLoop E v path data _ n w rfl, hfun]
    obtain ⟨h1, h2, h3, h4, h5⟩ := retryLoop_sim E v (fun s t => E.logicalWrite s t path data)
      (fun t e => Event.read t path e) (fun t e => Event.write t path data e)
      (fun _ _ => rfl) (n + 1).toNat w w ⟨rfl, rfl, rfl, rfl⟩
    obtain ⟨c1, c2, c3⟩ := counts_of_shape _ _ h5
    exact ⟨h1, h2, h3, h4, h5, c1, c2, c3⟩

/-- C15 against the server that denies every token: `Read` and `Write` of
`secret/db` return the same denial, leave the same token and make the same
numbers of attempts, probes and logins. -/
theorem C15_one_retry_procedure_witness :
    (read denyAllEnv stgVault "secret/db" 2 stgWorld).1
        = (write denyAllEnv stgVault "secret/db" [("k", "v")] 2 stgWorld).1
    ∧ (read denyAllEnv stgVault "secret/db" 2 stgWorld).2.srv
        = (write denyAllEnv stgVault "secret/db" [("k", "v")] 2 stgWorld).2.srv
    ∧ (read denyAllEnv stgVault "secret/db" 2 stgWorld).2.token
        = (write denyAllEnv stgVault "secret/db" [("k", "v")] 2 stgWorld).2.token
    ∧ (read denyAllEnv stgVault "secret/db" 2 stgWorld).2.fs
        = (write denyAllEnv stgVault "secret/db" [("k", "v")] 2 stgWorld).2.fs
    ∧ (read denyAllEnv stgVault "secret/db" 2 stgWorld).2.trace.map Event.shape
        = (write denyAllEnv stgVault "secret/db" [("k", "v")] 2 stgWorld).2.trace.map
            Event.shape
    ∧ (read denyAllEnv stgVault "secret/db" 2 stgWorld).2.trace.countP Event.isCall
        = (write denyAllEnv stgVault "secret/db" [("k", "v")] 2 stgWorld).2.trace.countP
            Event.isCall
    ∧ (read denyAllEnv stgVault "secret/db" 2 stgWorld).2.trace.countP Event.isLookup
        = (write denyAllEnv stgVault "secret/db" [("k", "v")] 2 stgWorld).2.trace.countP
            Event.isLookup
    ∧ (read denyAllEnv stgVault "secret/db" 2 stgWorld).2.trace.countP Event.isLogin
        = (write denyAllEnv stgVault "secret/db" [("k", "v")] 2 stgWorld).2.trace.countP
            Event.isLogin :=
  (C15_one_retry_procedure denyAllEnv stgVault "secret/db" [("k", "v")] stgWorld).2
    (fun _ _ => rfl) 2

/-! ## C16: the configuration directory is not created -/

/-- C16, as stated, fails: without the directory `/home/alice/.config/bub`
the persistence step of `Auth` fails with the error of `WriteFile`, and the
file system is unchanged, the directory still missing. -/
theorem C16_directory_not_created :
    osStat homeOnlyFS "/home/alice/.config/bub" = some .ENOENT
    ∧ Auth stgEnv stgVault ⟨(), "", homeOnlyFS, []⟩ = (.ret
        (some "open /home/alice/.config/bub/token.vault.stg: no such file or directory"),
      ⟨(), "xyz", homeOnlyFS,
        [Event.login "" "auth/okta/login/alice" [("password", "p")] none,
          Event.writeFile "/home/alice/.config/bub/token.vault.stg" "xyz"
            (some "open /home/alice/.config/bub/token.vault.stg: no such file or directory")]⟩)
    ∧ osStat (Auth stgEnv stgVault ⟨(), "", homeOnlyFS, []⟩).2.fs "/home/alice/.config/bub"
      = some .ENOENT := by
  decide

/-- What `os.Stat` reporting `ENOENT` says about the place. -/
theorem resolve_of_osStat_enoent (fs : FS) (p : String) (k : Key)
    (hk : keyOf p = some k) (h : osStat fs p = some .ENOENT) :
    resolve fs k = .error .ENOENT := by
  unfold osStat at h
  simp only [hk] at h
  cases hr : resolve fs k with
  | ok n => simp [hr] at h
  | error e =>
    simp only [hr, Option.some.injEq] at h
    rw [h]

/-- C16, amended: `Auth` does not create the configuration directory. Let
the home directory be known and the token name be an ordinary path element.
If `<home>/.config/bub` does not exist, and so neither the token file, then
after a login that yields the non-empty token `t` the write of the token file
fails with `no such file or directory`; `Auth` returns that error with `t`
installed, and the file system is unchanged. -/
theorem C16_missing_directory_fails {σ : Type} (E : Env σ) (v : Vault) (w : World σ)
    (home t : String)
    (hh : E.homeDir = some home)
    (h1 : v.tokenName.data ≠ []) (h2 : v.tokenName.data ≠ ['.'])
    (h3 : v.tokenName.data ≠ ['.', '.']) (h4 : '/' ∉ v.tokenName.data)
    (hdir : osStat w.fs (pathJoin [home, ".config", "bub"]) = some .ENOENT)
    (hfile : osStat w.fs (getTokenPath E v).1 = some .ENOENT)
    (hlogin : (E.logicalWrite w.srv w.token (loginPath E v) (loginData v)).1.2 = none)
    (htok : E.tokenID (E.logicalWrite w.srv w.token (loginPath E v) (loginData v)).1.1
      = .ok t)
    (hne : t ≠ "") :
    Auth E v w = (.ret (some ("open " ++ (getTokenPath E v).1 ++ ": "
          ++ "no such file or directory")),
      ⟨(E.logicalWrite w.srv w.token (loginPath E v) (loginData v)).2, t, w.fs,
        w.trace ++ [Event.login w.token (loginPath E v) (loginData v) none,
          Event.writeFile (getTokenPath E v).1 t
            (some ("open " ++ (getTokenPath E v).1 ++ ": " ++ "no such file or directory"))]⟩)
    ∧ osStat (Auth E v w).2.fs (pathJoin [home, ".config", "bub"]) = some .ENOENT := by
  have hp : (getTokenPath E v).1 = pathJoin [home, ".config", "bub", v.tokenName] := by
    simp [getTokenPath, hh]
  have hk := keyOf_tokenPath home v.tokenName h1 h2 h3 h4
  rw [← hp] at hk
  have hkd := keyOf_configDir home
  have hrk := resolve_of_osStat_enoent _ _ _ hk hfile
  have hrd := resolve_of_osStat_enoent _ _ _ hkd hdir
  have hw : writeFile w.fs (getTokenPath E v).1 t
      = (some ("open " ++ (getTokenPath E v).1 ++ ": " ++ "no such file or directory"),
          w.fs) := by
    unfold writeFile
    simp only [hk, hrk]
    have hpar : Key.parent ⟨isRooted (configDirBuf home),
        cleanElems (isRooted (configDirBuf home)) (configDirBuf home) ++ [v.tokenName.data]⟩
        = ⟨isRooted (configDirBuf home),
          cleanElems (isRooted (configDirBuf home)) (configDirBuf home)⟩ := by
      simp [Key.parent]
    rw [hpar, hrd]
    rfl
  have hA := Auth_write_fails E v w t _ hlogin htok hne (by rw [hw])
  rw [hA]
  exact ⟨rfl, hdir⟩

/-- C16 amended, on the home directory of `alice` without `.config/bub`. -/
theorem C16_missing_directory_fails_witness :
    Auth stgEnv stgVault ⟨(), "", homeOnlyFS, []⟩ = (.ret
        (some ("open " ++ (getTokenPath stgEnv stgVault).1 ++ ": "
          ++ "no such file or directory")),
      ⟨(), "xyz", homeOnlyFS,
        [] ++ [Event.login "" (loginPath stgEnv stgVault) (loginData stgVault) none,
          Event.writeFile (getTokenPath stgEnv stgVault).1 "xyz"
            (some ("open " ++ (getTokenPath stgEnv stgVault).1 ++ ": "
              ++ "no such file or directory"))]⟩)
    ∧ osStat (Auth stgEnv stgVault ⟨(), "", homeOnlyFS, []⟩).2.fs
        (pathJoin ["/home/alice", ".config", "bub"]) = some .ENOENT :=
  C16_missing_directory_fails stgEnv stgVault ⟨(), "", homeOnlyFS, []⟩ "/home/alice" "xyz"
    rfl (by decide) (by decide) (by decide) (by decide) (by decide) (by decide) rfl rfl
    (by decide)

/-! ## C17: trailing newlines in the token file -/

/-- Left trimming removes a run of newlines at the start. -/
theorem trimLeftChars_newlines (k : Nat) (x : List Char) :
    trimLeftChars ['\n'] (List.replicate k '\n' ++ x) = trimLeftChars ['\n'] x := by
  induction k with
  | zero => rfl
  | succ j ih =>
    rw [List.replicate_succ, List.cons_append]
    simp only [trimLeftChars, List.mem_singleton, if_true]
    exact ih

/-- Left trimming leaves a text alone that does not start with a newline. -/
theorem trimLeftChars_id (l : List Char) (hl : l.head? ≠ some '\n') :
    trimLeftChars ['\n'] l = l := by
  cases l with
  | nil => rfl
  | cons c cs =>
    have hc : c ≠ '\n' := fun h => hl (by simp [h])
    simp [trimLeftChars, hc]

/-- Trimming removes the newlines that follow a text which neither begins nor
ends with one. -/
theorem stringsTrim_trailing_newlines (t : String) (k : Nat)
    (hhead : t.data.head? ≠ some '\n') (hlast : t.data.getLast? ≠ some '\n') :
    stringsTrim (t ++ ⟨List.replicate k '\n'⟩) "\n" = t := by
  have hd : ("\n" : String).data = ['\n'] := rfl
  unfold stringsTrim
  rw [hd, String.data_append]
  apply String.ext
  show (trimLeftChars ['\n']
    (trimLeftChars ['\n'] (t.data ++ List.replicate k '\n')).reverse).reverse = t.data
  cases hdata : t.data with
  | nil =>
    have h0 := trimLeftChars_newlines k []
    simp only [List.append_nil] at h0
    simp only [List.nil_append, h0]
    rfl
  | cons c cs =>
    rw [hdata] at hhead hlast
    have hfirst : (c :: cs ++ List.replicate k '\n').head? ≠ some '\n' := by
      simpa using hhead
    rw [trimLeftChars_id _ hfirst, List.reverse_append, List.reverse_replicate,
      trimLeftChars_newlines, trimLeftChars_id _ (by rwa [List.head?_reverse]),
      List.reverse_reverse]

/-- C17: for every token `t` that neither begins nor ends with a newline and
every `k`, when the token file holds `t` followed by `k` newline characters,
`loadToken` succeeds without a login and sets the client's token to exactly
`t`. -/
theorem C17_trailing_newlines_tolerated {σ : Type} (E : Env σ) (v : Vault) (w : World σ)
    (t : String) (k : Nat)
    (hhead : t.data.head? ≠ some '\n') (hlast : t.data.getLast? ≠ some '\n')
    (hfile : readFile w.fs (getTokenPath E v).1 = .ok (t ++ ⟨List.replicate k '\n'⟩)) :
    loadToken E v w = (.ret none,
      ⟨w.srv, t, w.fs,
        w.trace ++ [Event.stat (getTokenPath E v).1, Event.readFile (getTokenPath E v).1]⟩) := by
  rw [loadToken_of_readFile E v w _ hfile, stringsTrim_trailing_newlines t k hhead hlast]

/-- C17 on a token file that holds `abc` and two newlines. -/
theorem C17_trailing_newlines_tolerated_witness :
    loadToken stgEnv stgVault ⟨(), "", (stgKey, .file "abc\n\n") :: stgFS, []⟩ = (.ret none,
      ⟨(), "abc", (stgKey, .file "abc\n\n") :: stgFS,
        [] ++ [Event.stat (getTokenPath stgEnv stgVault).1,
          Event.readFile (getTokenPath stgEnv stgVault).1]⟩) :=
  C17_trailing_newlines_tolerated stgEnv stgVault
    ⟨(), "", (stgKey, .file "abc\n\n") :: stgFS, []⟩ "abc" 2 (by decide) (by decide) rfl

/-! ## C18: the loop is bounded by its counter -/

@[simp] theorem isCall_lookupSelf (t : String) (e : Option GoError) :
    (Event.lookupSelf t e).isCall = false := rfl

/-- The external calls of `maybeReAuth`: the probe, then no underlying call
and no further probe. -/
theorem maybeReAuth_events {σ : Type} (E : Env σ) (v : Vault) (w : World σ) :
    ∃ atr, (maybeReAuth E v w).2.trace
        = w.trace ++ Event.lookupSelf w.token (E.lookupSelf w.srv w.token).1 :: atr
      ∧ ∀ a ∈ atr, a.isCall = false ∧ a.isLookup = false := by
  by_cases hd : (Event.lookupSelf w.token (E.lookupSelf w.srv w.token).1).isDenied = true
  · rw [maybeReAuth_denied E v w hd]
    obtain ⟨e, atr, hA, hatr⟩ := Auth_events E v
      ⟨(E.lookupSelf w.srv w.token).2, w.token, w.fs,
        w.trace ++ [Event.lookupSelf w.token (E.lookupSelf w.srv w.token).1]⟩
    refine ⟨Event.login w.token (loginPath E v) (loginData v) e :: atr,
      by rw [hA]; simp, ?_⟩
    intro a ha
    rcases List.mem_cons.1 ha with rfl | ha
    · exact ⟨rfl, rfl⟩
    · rcases hatr with rfl | ⟨p, c, e1, rfl⟩
      · simp at ha
      · simp only [List.mem_singleton] at ha
        rw [ha]
        exact ⟨rfl, rfl⟩
  · have hd0 : (Event.lookupSelf w.token (E.lookupSelf w.srv w.token).1).isDenied = false := by
      simpa using hd
    rw [maybeReAuth_not_denied E v w hd0]
    exact ⟨[], by simp, by simp⟩

/-- The retry loop with `k` rounds left makes at least one and at most `k + 1`
underlying calls and at most `k` probes. -/
theorem retryLoop_bound {σ : Type} (E : Env σ) (v : Vault)
    (call : σ → String → (Option Secret × Option GoError) × σ)
    (tag : String → Option GoError → Event)
    (htag : ∀ t e, (tag t e).callErr = some e) :
    ∀ (k : Nat) (w : World σ), ∃ tr,
      (retryLoop E v call tag k w).2.trace = w.trace ++ tr
      ∧ 1 ≤ tr.countP Event.isCall
      ∧ tr.countP Event.isCall ≤ k + 1
      ∧ tr.countP Event.isLookup ≤ k := by
  intro k
  induction k with
  | zero =>
    intro w
    obtain ⟨hc1, -, hc3, -, -⟩ := call_event_kinds (htag w.token (call w.srv w.token).1.2)
    exact ⟨[tag w.token (call w.srv w.token).1.2], by simp [retryLoop],
      by simp [List.countP_cons, hc1], by simp [List.countP_cons, hc1],
      by simp [List.countP_cons, hc3]⟩
  | succ k ih =>
    intro w
    obtain ⟨hc1, -, hc3, -, -⟩ := call_event_kinds (htag w.token (call w.srv w.token).1.2)
    by_cases hcall : (call w.srv w.token).1.2 = none
    · exact ⟨[tag w.token (call w.srv w.token).1.2], by simp [retryLoop, hcall],
        by simp [List.countP_cons, hc1], by simp [List.countP_cons, hc1],
        by simp [List.countP_cons, hc3]⟩
    · have hloop : retryLoop E v call tag (k + 1) w =
          match maybeReAuth E v
            ⟨(call w.srv w.token).2, w.token, w.fs,
              w.trace ++ [tag w.token (call w.srv w.token).1.2]⟩ with
          | (.fatal msg, w2) => (.fatal msg, w2)
          | (.ret (some err), w2) => (.ret (none, some err), w2)
          | (.ret none, w2) => retryLoop E v call tag k w2 := by
        simp [retryLoop, hcall]
      rw [hloop]
      obtain ⟨atr, hatr, hkinds⟩ := maybeReAuth_events E v
        ⟨(call w.srv w.token).2, w.token, w.fs,
          w.trace ++ [tag w.token (call w.srv w.token).1.2]⟩
      have hcnt : atr.countP Event.isCall = 0 ∧ atr.countP Event.isLookup = 0 := by
        constructor
        · rw [List.countP_eq_zero]; intro a ha; simp [(hkinds a ha).1]
        · rw [List.countP_eq_zero]; intro a ha; simp [(hkinds a ha).2]
      rcases hmm : maybeReAuth E v
        ⟨(call w.srv w.token).2, w.token, w.fs,
          w.trace ++ [tag w.token (call w.srv w.token).1.2]⟩ with ⟨o, w2⟩
      rw [hmm] at hatr
      simp only [List.append_assoc, List.singleton_append] at hatr
      have hstop : ∃ tr, w2.trace = w.trace ++ tr ∧ 1 ≤ tr.countP Event.isCall
          ∧ tr.countP Event.isCall ≤ k + 1 + 1 ∧ tr.countP Event.isLookup ≤ k + 1 := by
        refine ⟨_, hatr, ?_, ?_, ?_⟩ <;>
          simp [List.countP_cons, hc1, hc3, hcnt.1, hcnt.2]
      rcases o with (_ | err) | msg
      · obtain ⟨tr, h1, h2, h3, h4⟩ := ih w2
        refine ⟨tag w.token (call w.srv w.token).1.2 ::
          Event.lookupSelf w.token
            (E.lookupSelf (call w.srv w.token).2 w.token).1 :: (atr ++ tr), ?_, ?_, ?_, ?_⟩
        · simp only [h1, hatr]; simp
        · simp [List.countP_cons, hc1]
        · simp [List.countP_cons, List.countP_append, hc1, hcnt.1]
          omega
        · simp [List.countP_cons, List.countP_append, hc3, hcnt.2]
          omega
      · exact hstop
      · exact hstop

/-- C18: for every integer `n` and every server, `read(path, n)` and
`write(path, data, n)` return after at least one and at most `max(n + 2, 1)`
underlying calls and at most `max(n + 1, 0)` self-lookup probes; for `n < 0`
the single underlying call is the only external call, so there is no probe and
no login. -/
theorem C18_bounded_by_counter {σ : Type} (E : Env σ) (v : Vault) (path : String)
    (data : Payload) (n : Int) (w : World σ) :
    (∃ tr, (read E v path n w).2.trace = w.trace ++ tr
      ∧ 1 ≤ tr.countP Event.isCall
      ∧ (tr.countP Event.isCall : Int) ≤ max (n + 2) 1
      ∧ (tr.countP Event.isLookup : Int) ≤ max (n + 1) 0
      ∧ (n < 0 → tr = [Event.read w.token path (E.logicalRead w.srv w.token path).1.2]))
    ∧ (∃ tr, (write E v path data n w).2.trace = w.trace ++ tr
      ∧ 1 ≤ tr.countP Event.isCall
      ∧ (tr.countP Event.isCall : Int) ≤ max (n + 2) 1
      ∧ (tr.countP Event.isLookup : Int) ≤ max (n + 1) 0
      ∧ (n < 0 →
          tr = [Event.write w.token path data (E.logicalWrite w.srv w.token path data).1.2])) := by
  constructor
  · obtain ⟨tr, h1, h2, h3, h4⟩ := retryLoop_bound E v (fun s t => E.logicalRead s t path)
      (fun t e => Event.read t path e) (fun _ _ => rfl) (n + 1).toNat w
    rw [← read_eq_retryLoop E v path _ n w rfl] at h1
    refine ⟨tr, h1, h2, ?_, ?_, ?_⟩
    · rw [le_max_iff]
      by_cases hn : 0 ≤ n + 1
      · left; omega
      · right; omega
    · rw [le_max_iff]
      by_cases hn : 0 ≤ n + 1
      · left; omega
      · right; omega
    · intro hneg
      have hk : (n + 1).toNat = 0 := by omega
      rw [read_eq_retryLoop E v path 0 n w hk] at h1
      simp only [retryLoop] at h1
      exact (List.append_cancel_left h1).symm
  · obtain ⟨tr, h1, h2, h3, h4⟩ := retryLoop_bound E v
      (fun s t => E.logicalWrite s t path data)
      (fun t e => Event.write t path data e) (fun _ _ => rfl) (n + 1).toNat w
    rw [← write_eq_retryLoop E v path data _ n w rfl] at h1
    refine ⟨tr, h1, h2, ?_, ?_, ?_⟩
    · rw [le_max_iff]
      by_cases hn : 0 ≤ n + 1
      · left; omega
      · right; omega
    · rw [le_max_iff]
      by_cases hn : 0 ≤ n + 1
      · left; omega
      · right; omega
    · intro hneg
      have hk : (n + 1).toNat = 0 := by omega
      rw [write_eq_retryLoop E v path data 0 n w hk] at h1
      simp only [retryLoop] at h1
      exact (List.append_cancel_left h1).symm

/-! ## C19: `getTokenPath` and its error -/

/-- C19: `getTokenPath` always returns a nil error. When the current user
cannot be determined it returns the empty path with a nil error; `loadToken`
then goes on with the empty path, finds that it does not exist and calls
`Auth`; and `Auth`, after a login that yields a non-empty token, goes on to
write the file at the empty path, which fails. -/
theorem C19_getTokenPath_never_errors {σ : Type} (E : Env σ) (v : Vault) (w : World σ) :
    (getTokenPath E v).2 = none
    ∧ (E.homeDir = none →
        getTokenPath E v = ("", none)
        ∧ loadToken E v w = Auth E v ⟨w.srv, w.token, w.fs, w.trace ++ [Event.stat ""]⟩
        ∧ ∀ t, (E.logicalWrite w.srv w.token (loginPath E v) (loginData v)).1.2 = none →
            E.tokenID (E.logicalWrite w.srv w.token (loginPath E v) (loginData v)).1.1
              = .ok t →
            t ≠ "" →
            Auth E v w = (.ret (some "open : no such file or directory"),
              ⟨(E.logicalWrite w.srv w.token (loginPath E v) (loginData v)).2, t, w.fs,
                w.trace ++ [Event.login w.token (loginPath E v) (loginData v) none,
                  Event.writeFile "" t (some "open : no such file or directory")]⟩)) := by
  constructor
  · unfold getTokenPath
    cases E.homeDir <;> rfl
  · intro hh
    have hp : getTokenPath E v = ("", none) := by simp [getTokenPath, hh]
    refine ⟨hp, ?_, ?_⟩
    · have hs : osStat w.fs "" = some .ENOENT := rfl
      unfold loadToken
      rw [hp]
      simp only [PathExists, osStat_pathJoin_single, hs]
    · intro t hlogin htok hne
      have hw : (writeFile w.fs (getTokenPath E v).1 t).1
          = some "open : no such file or directory" := by
        rw [hp]; rfl
      have hA := Auth_write_fails E v w t _ hlogin htok hne hw
      rw [hp] at hA
      exact hA

/-- C19 on a machine without a current user: the path is empty, `loadToken`
is `Auth`, and `Auth` fails on the write to the empty path with `xyz`
installed. -/
theorem C19_getTokenPath_never_errors_witness :
    getTokenPath noUserEnv stgVault = ("", none)
    ∧ loadToken noUserEnv stgVault stgWorld
        = Auth noUserEnv stgVault ⟨(), "abc", stgFS, [] ++ [Event.stat ""]⟩
    ∧ Auth noUserEnv stgVault stgWorld = (.ret (some "open : no such file or directory"),
        ⟨(), "xyz", stgFS,
          [] ++ [Event.login "abc" (loginPath noUserEnv stgVault) (loginData stgVault) none,
            Event.writeFile "" "xyz" (some "open : no such file or directory")]⟩) :=
  ⟨((C19_getTokenPath_never_errors noUserEnv stgVault stgWorld).2 rfl).1,
   ((C19_getTokenPath_never_errors noUserEnv stgVault stgWorld).2 rfl).2.1,
   ((C19_getTokenPath_never_errors noUserEnv stgVault stgWorld).2 rfl).2.2 "xyz" rfl rfl
      (by decide)⟩

/-! ## C20: the object returned by `latestRelease` -/

/-- C20: for an empty bucket listing, and for a listing in which no key
contains the name of the running system, `latestRelease` returns a nil object
with a nil error, whatever the pattern finds and the version comparison says;
the action of the `update` command then dereferences the nil object. -/
theorem C20_nil_release_dereferenced (find : String → String) (cmp : String → String → Int) :
    latestRelease (bucketEnv [] find cmp) ⟨"us-east-1", "releases", "bub/"⟩ = (none, none)
    ∧ updateAction (bucketEnv [] find cmp) "us-east-1" "releases" "bub/" = .nilDereference
    ∧ latestRelease (bucketEnv [⟨"bub/bub-darwin-1.2.gz"⟩] find cmp)
        ⟨"us-east-1", "releases", "bub/"⟩ = (none, none)
    ∧ updateAction (bucketEnv [⟨"bub/bub-darwin-1.2.gz"⟩] find cmp)
        "us-east-1" "releases" "bub/" = .nilDereference := by
  refine ⟨rfl, rfl, ?_, ?_⟩
  · have hc : stringsContains "bub/bub-darwin-1.2.gz" "linux" = false := by decide
    simp [latestRelease, bucketEnv, releaseStep, hc]
  · have hc : stringsContains "bub/bub-darwin-1.2.gz" "linux" = false := by decide
    simp [updateAction, latestRelease, bucketEnv, releaseStep, hc]

/-! ## C21: the error of `updateBub` -/

/-- C21: when every step up to `os.Chmod` succeeds and the renaming of the
new binary onto the running executable fails, with whatever error,
`updateBub` returns a nil error, although the executable has not been
replaced and the version check has not run. -/
theorem C21_failed_rename_returns_nil (e : GoError) (cmp : String → String → Int)
    (find : String → String) :
    updateBub (bucketEnv [] find cmp) (renameFails e)
        ⟨"us-east-1", "releases", "bub/bub-linux-1.2.gz"⟩
      = (.ret none,
        [UpdateEvent.download "releases" "bub/bub-linux-1.2.gz" "/tmp/bub-update1",
          UpdateEvent.gunzip "/tmp/bub-update1" "/tmp/bub-update2",
          UpdateEvent.chmod "/tmp/bub-update2",
          UpdateEvent.rename "/tmp/bub-update2" "/usr/local/bin/bub" (some e)]) := by
  simp [updateBub, bucketEnv, renameFails]

/-- Every step of `updateBub` before the renaming is reported: when
`updateBub` returns a nil error, all of them have succeeded. -/
theorem updateBub_nil_steps (U : UpdateEnv) (X : UpdateSteps) (path : S3path)
    (h : (updateBub U X path).1 = .ret none) :
    (∃ exe, X.executable = .ok exe) ∧ U.newSession path.region = none
    ∧ (∃ fgz, X.tempFile1 = .ok fgz) ∧ X.download = none ∧ X.seek = none
    ∧ (∃ f, X.tempFile2 = .ok f) ∧ X.gzipReader = none ∧ X.copy = none
    ∧ X.chmod = none
    ∧ (X.rename ≠ none ∨ ∃ out, X.runVersion = .ok out) := by
  unfold updateBub at h
  cases h0 : X.executable with
  | error err => simp [h0] at h
  | ok exe =>
    cases h1 : U.newSession path.region with
    | some err => simp [h0, h1] at h
    | none =>
      cases h2 : X.tempFile1 with
      | error err => simp [h0, h1, h2] at h
      | ok fgz =>
        cases h3 : X.download with
        | some err => simp [h0, h1, h2, h3] at h
        | none =>
          cases h4 : X.seek with
          | some err => simp [h0, h1, h2, h3, h4] at h
          | none =>
            cases h5 : X.tempFile2 with
            | error err => simp [h0, h1, h2, h3, h4, h5] at h
            | ok f =>
              cases h6 : X.gzipReader with
              | some err => simp [h0, h1, h2, h3, h4, h5, h6] at h
              | none =>
                cases h7 : X.copy with
                | some err => simp [h0, h1, h2, h3, h4, h5, h6, h7] at h
                | none =>
                  cases h8 : X.chmod with
                  | some err => simp [h0, h1, h2, h3, h4, h5, h6, h7, h8] at h
                  | none =>
                    refine ⟨⟨exe, rfl⟩, rfl, ⟨fgz, rfl⟩, rfl, rfl, ⟨f, rfl⟩, rfl, rfl, rfl, ?_⟩
                    by_cases h9 : X.rename = none
                    · right
                      cases h10 : X.runVersion with
                      | error err => simp [h0, h1, h2, h3, h4, h5, h6, h7, h8, h9, h10] at h
                      | ok out => exact ⟨out, rfl⟩
                    · exact Or.inl h9

/-! ## C22: `getRegion` on a loaded configuration -/

/-- C22: without a configuration file, and with one that `yaml.Unmarshal`
rejects, `loadConfiguration` returns a configuration whose `AWS.Regions` is
empty; on it `getRegion`, with no region flag and no environment of the name's
first part, indexes `Regions[0]` out of range. Only a configuration that was
parsed without error gets the two default regions. -/
theorem C22_empty_regions_indexed
    (yamlUnmarshal : String → Configuration → Configuration × Option GoError) :
    loadConfiguration (.ok "/home/alice") stgFS yamlUnmarshal = .ret ⟨⟨[], []⟩⟩
    ∧ loadConfiguration (.ok "/home/alice") badConfigFS
        (fun _ cfg => (cfg, some "yaml: did not find expected node content"))
      = .ret ⟨⟨[], []⟩⟩
    ∧ getRegion "staging-api" ⟨⟨[], []⟩⟩ "" = .indexOutOfRange
    ∧ loadConfiguration (.ok "/home/alice") badConfigFS (fun _ cfg => (cfg, none))
      = .ret ⟨⟨["us-east-1", "us-west-2"], []⟩⟩ := by
  refine ⟨?_, ?_, ?_, ?_⟩
  · have h : readFile stgFS (pathJoin [pathJoin ["/home/alice", ".config", "bub"], "config.yml"])
        = .error "open /home/alice/.config/bub/config.yml: no such file or directory" := by
      rfl
    simp [loadConfiguration, h]
  · decide
  · decide
  · decide

/-- The split of a text is never empty, so its first part exists. -/
theorem splitChar_ne_nil (sep : Char) (s : List Char) : splitChar sep s ≠ [] := by
  cases s with
  | nil => simp [splitChar]
  | cons c cs =>
    unfold splitChar
    split
    · simp
    · split <;> simp

/-- On a configuration with at least one region `getRegion` returns a region. -/
theorem getRegion_defined (environment regionFlag : String) (cfg : Configuration)
    (h : cfg.AWS.Regions ≠ []) :
    getRegion environment cfg regionFlag ≠ .indexOutOfRange := by
  unfold getRegion
  by_cases hf : regionFlag = ""
  · rw [if_pos hf]
    cases hs : splitChar '-' environment.data with
    | nil => exact absurd hs (splitChar_ne_nil _ _)
    | cons pre rest =>
      simp only
      cases regionOfEnvironment ⟨pre⟩ cfg.AWS.Environments with
      | some r => simp
      | none =>
        cases hr : cfg.AWS.Regions with
        | nil => exact absurd hr h
        | cons r rs => simp
  · rw [if_neg hf]
    simp

/-- A configuration file that is read and parsed without error yields a
configuration with at least one region. -/
theorem loadConfiguration_parsed (homeDir data : String) (fs : FS)
    (yamlUnmarshal : String → Configuration → Configuration × Option GoError)
    (hread : readFile fs (pathJoin [pathJoin [homeDir, ".config", "bub"], "config.yml"])
      = .ok data)
    (hparse : (yamlUnmarshal data ⟨⟨[], []⟩⟩).2 = none) :
    ∃ cfg, loadConfiguration (.ok homeDir) fs yamlUnmarshal = .ret cfg
      ∧ cfg.AWS.Regions ≠ [] := by
  unfold loadConfiguration
  simp only [hread]
  rcases hy : yamlUnmarshal data ⟨⟨[], []⟩⟩ with ⟨cfg1, err⟩
  rw [hy] at hparse
  simp only at hparse
  subst hparse
  simp only
  by_cases hl : cfg1.AWS.Regions.length = 0
  · rw [if_pos hl]
    exact ⟨_, rfl, by simp⟩
  · rw [if_neg hl]
    exact ⟨_, rfl, fun h => hl (by rw [h]; rfl)⟩

/-- An environment entry without a `Prefix` is matched only by a name whose
first part is empty: for any other name `getRegion` passes it over and returns
`Regions[0]`, although the sample configuration of `config.go` describes such
an entry as a catch-all. -/
theorem getRegion_entry_without_prefix :
    getRegion "production-api"
      ⟨⟨["us-east-1"], [⟨"staging", "", "us-west-2"⟩, ⟨"", "", "eu-west-1"⟩]⟩⟩ ""
      = .region "us-east-1" := by
  decide

end Bub
